import Mathlib

/-! # egg-palettize: `TextureImage` and the tables of the `Palettizer`

A shallow embedding of `src/egg-palettize/textureImage.cxx` (group assignment,
destination differencing, source images, the .txa passes) and of the accessors
and `read_stale_eggs` of `src/egg-palettize/palettizer.cxx`.

* Pointers are object identities.  A `PaletteGroup *` and a `TexturePlacement *`
  are natural numbers (addresses); `std::set` and `std::map` containers are
  lists in iteration order, i.e. strictly increasing in the key.
* Calls on collaborating objects whose classes are outside the embedded file
  (`PaletteGroup::prepare`, `delete`, `DestTextureImage::unlink`, `copy`,
  `copy_if_stale`) are recorded in the order in which they are made.
-/

namespace Palettize

/-! ## Data model -/

/-- A `PaletteGroup *`: a group is identified, and ordered, by its address. -/
abbrev PaletteGroup := Nat

/-- A `TexturePlacement *`: the identity of one placement object. -/
abbrev TexturePlacement := Nat

/-- Modelled from the spec: class `PaletteGroups` (paletteGroups.h is not among the
sources), "set<GroupRef>": a `std::set` of group pointers, held as the list of its
elements in iteration order (strictly increasing). -/
abbrev PaletteGroups := List PaletteGroup

namespace PaletteGroups

/-- Modelled from the spec: `PaletteGroups::insert`, the set insertion: the
element is put at its place in the order, and an element already present is not
added again. -/
def insert (g : PaletteGroup) : PaletteGroups → PaletteGroups
  | [] => [g]
  | h :: t =>
    if g < h then g :: h :: t
    else if h < g then h :: insert g t
    else h :: t

/-- Modelled from the spec: `PaletteGroups::count`, the number of times (0 or 1)
the group occurs in the set. -/
def count (s : PaletteGroups) (g : PaletteGroup) : Nat :=
  if g ∈ s then 1 else 0

/-- Modelled from the spec: `PaletteGroups::make_union(a, b)`, the set union of
`a` and `b`. -/
def make_union (a b : PaletteGroups) : PaletteGroups :=
  b.foldl (fun s g => insert g s) a

/-- Modelled from the spec: `PaletteGroups::make_intersection(a, b)`, the set of
the groups of `a` that are also in `b`, in set order. -/
def make_intersection (a b : PaletteGroups) : PaletteGroups :=
  a.filter (fun g => decide (g ∈ b))

end PaletteGroups

/-- The part of an `EggFile` that `TextureImage` reads: `get_complete_groups()`. -/
structure EggFile where
  complete_groups : PaletteGroups
  deriving DecidableEq, Repr

/-- The `WorkingEggs` vector of `assign_groups`. -/
abbrev WorkingEggs := List EggFile

/-- The attributes of the `PaletteGroup` objects that `assign_groups` reads:
`PaletteGroup::get_dependency_level()` and `PaletteGroup::get_egg_count()`. -/
structure GroupTable where
  get_dependency_level : PaletteGroup → Int
  get_egg_count : PaletteGroup → Int

/-- A `DestTextureImage`: the placement it was constructed from and its file. -/
structure DestTextureImage (Filename : Type) where
  placement : TexturePlacement
  filename : Filename
  deriving DecidableEq, Repr

/-- The `Placement` map, `map<PaletteGroup *, TexturePlacement *>`, in key order. -/
abbrev Placement := List (PaletteGroup × TexturePlacement)

/-- The `Dests` map, `map<string, DestTextureImage *>`, in key order. -/
abbrev Dests (Filename : Type) := List (Filename × DestTextureImage Filename)

/-- The fields of `TextureImage` used by group assignment and by `copy_unplaced`.
`_egg_files` is the `set<EggFile *>` in iteration order. -/
structure TextureImage (Filename : Type) where
  _egg_files : List EggFile
  _explicitly_assigned_groups : PaletteGroups
  _actual_assigned_groups : PaletteGroups
  _placement : Placement
  _dests : Dests Filename

/-- The strict key order that a `std::map` iterates in. -/
def KeySorted {α β : Type} [LT α] (m : List (α × β)) : Prop :=
  m.Pairwise (fun x y => x.1 < y.1)

/-- The strict order that a `std::set` of group pointers iterates in. -/
def GroupSorted (s : PaletteGroups) : Prop :=
  s.Pairwise (fun x y => x < y)

/-! ## `assign_to_groups` -/

/-- What a call of `assign_to_groups` or `assign_groups` did: the new texture
state, the groups `PaletteGroup::prepare(this)` was called on, the placements
deleted, and whether `nassertv(!total.empty())` returned early. -/
structure Assigned (Filename : Type) where
  texture : TextureImage Filename
  prepared : List PaletteGroup
  deleted : List TexturePlacement
  assertion_failed : Bool

/-- The result of the two-iterator walk of `assign_to_groups`. -/
structure Reconciled where
  new_placement : Placement
  prepared : List PaletteGroup
  deleted : List TexturePlacement
  deriving DecidableEq, Repr

/-- The walk of `assign_to_groups` with `gi` at group `a` (`rest` is what the
walk does once `gi` has moved past `a`, for each position of `pi`):
`a < b` prepares `a`, `b < a` deletes the placement at `pi`, and otherwise the
placement is kept.  With `pi` at the end `a` is prepared (second loop). -/
def assign_walk_at (prepare : PaletteGroup → TexturePlacement) (a : PaletteGroup)
    (rest : Placement → Reconciled) : Placement → Reconciled
  | [] =>
    let r := rest []
    { r with new_placement := (a, prepare a) :: r.new_placement, prepared := a :: r.prepared }
  | (b, place) :: pi =>
    if a < b then
      let r := rest ((b, place) :: pi)
      { r with new_placement := (a, prepare a) :: r.new_placement, prepared := a :: r.prepared }
    else if b < a then
      let r := assign_walk_at prepare a rest pi
      { r with deleted := place :: r.deleted }
    else
      let r := rest pi
      { r with new_placement := (a, place) :: r.new_placement }

/-- The three loops of `assign_to_groups`: the walk from `gi` and `pi`; with `gi`
at the end every remaining placement is deleted (third loop). -/
def assign_walk (prepare : PaletteGroup → TexturePlacement) :
    PaletteGroups → Placement → Reconciled
  | [] => fun pi => { new_placement := [], prepared := [], deleted := pi.map Prod.snd }
  | a :: gi => assign_walk_at prepare a (assign_walk prepare gi)

/-- `TextureImage::assign_to_groups(groups)`. -/
def assign_to_groups {Filename : Type} (prepare : PaletteGroup → TexturePlacement)
    (t : TextureImage Filename) (groups : PaletteGroups) : Assigned Filename :=
  let r := assign_walk prepare groups t._placement
  { texture := { t with _placement := r.new_placement, _actual_assigned_groups := groups }
    prepared := r.prepared
    deleted := r.deleted
    assertion_failed := false }

/-- `TextureImage::get_groups()`. -/
def get_groups {Filename : Type} (t : TextureImage Filename) : PaletteGroups :=
  t._actual_assigned_groups

/-- `TextureImage::get_placement(group)`; `none` is the NULL pointer. -/
def get_placement {Filename : Type} (t : TextureImage Filename) (group : PaletteGroup) :
    Option TexturePlacement :=
  match t._placement.find? (fun e => e.1 == group) with
  | none => none
  | some e => some e.2

/-! ## `assign_groups` -/

/-- `TextureImage::compute_egg_count(group, egg_files)`. -/
def compute_egg_count (group : PaletteGroup) : WorkingEggs → Nat
  | [] => 0
  | e :: egg_files =>
    if PaletteGroups.count e.complete_groups group ≠ 0 then
      compute_egg_count group egg_files + 1
    else compute_egg_count group egg_files

/-- The test "Do we prefer this group to our current best?" of `assign_groups`. -/
def prefer_group (tbl : GroupTable) (group : PaletteGroup) (group_egg_count : Nat)
    (best : PaletteGroup) (best_egg_count : Nat) : Bool :=
  if group_egg_count ≠ best_egg_count then
    decide (group_egg_count > best_egg_count)
  else if tbl.get_dependency_level group ≠ tbl.get_dependency_level best then
    decide (tbl.get_dependency_level group < tbl.get_dependency_level best)
  else
    decide (tbl.get_egg_count group < tbl.get_egg_count best)

/-- The inner `while (gi != total.end())` scan of `assign_groups`, from the
current `best` and `best_egg_count` over the rest of `total`. -/
def scan_best (tbl : GroupTable) (needed_eggs : WorkingEggs) :
    PaletteGroup → Nat → List PaletteGroup → PaletteGroup
  | best, _, [] => best
  | best, best_egg_count, group :: gi =>
    let group_egg_count := compute_egg_count group needed_eggs
    if prefer_group tbl group group_egg_count best best_egg_count then
      scan_best tbl needed_eggs group group_egg_count gi
    else
      scan_best tbl needed_eggs best best_egg_count gi

/-- The union `total` of the complete groups of the needed egg files. -/
def total_groups (needed_eggs : WorkingEggs) : PaletteGroups :=
  needed_eggs.foldl (fun total e => PaletteGroups.make_union total e.complete_groups) []

/-- The egg files not eliminated by `best`: `next_needed_eggs`. -/
def next_needed_eggs (best : PaletteGroup) (needed_eggs : WorkingEggs) : WorkingEggs :=
  needed_eggs.filter (fun e => PaletteGroups.count e.complete_groups best == 0)

/-- How the `while (!needed_eggs.empty())` loop of `assign_groups` ends. -/
inductive LoopExit where
  | finished (definitely_in : PaletteGroups)
  | assertion_failed
  | out_of_fuel
  deriving DecidableEq, Repr

/-- One selection of the main loop of `assign_groups`: the union `total`, the
assertion `nassertv(!total.empty())` (`none` when it fails), and the scan for the
best group starting from `*total.begin()`. -/
def best_group (tbl : GroupTable) (needed_eggs : WorkingEggs) : Option PaletteGroup :=
  match total_groups needed_eggs with
  | [] => none
  | first :: gi =>
    some (scan_best tbl needed_eggs first (compute_egg_count first needed_eggs) gi)

/-- The `while (!needed_eggs.empty())` loop of `assign_groups`, run for at most
`fuel` rounds. -/
def needed_loop (tbl : GroupTable) : Nat → WorkingEggs → PaletteGroups → LoopExit
  | _, [], definitely_in => .finished definitely_in
  | 0, _ :: _, _ => .out_of_fuel
  | fuel + 1, e :: es, definitely_in =>
    match best_group tbl (e :: es) with
    | none => .assertion_failed
    | some best =>
      needed_loop tbl fuel (next_needed_eggs best (e :: es))
        (PaletteGroups.insert best definitely_in)

/-- The groups `best` inserted by the rounds of the main loop, in the order of
the rounds. -/
def needed_picks (tbl : GroupTable) : Nat → WorkingEggs → List PaletteGroup
  | _, [] => []
  | 0, _ :: _ => []
  | fuel + 1, e :: es =>
    match best_group tbl (e :: es) with
    | none => []
    | some best => best :: needed_picks tbl fuel (next_needed_eggs best (e :: es))

/-- The first part of `assign_groups` when there are explicit assignments: each
egg file either adds the first group of its intersection with the explicit
assignments to `definitely_in`, or is pushed on `needed_eggs`. -/
def explicit_pass (explicitly_assigned_groups : PaletteGroups) :
    List EggFile → PaletteGroups → WorkingEggs → PaletteGroups × WorkingEggs
  | [], definitely_in, needed_eggs => (definitely_in, needed_eggs)
  | e :: ei, definitely_in, needed_eggs =>
    match PaletteGroups.make_intersection explicitly_assigned_groups e.complete_groups with
    | g :: _ =>
      explicit_pass explicitly_assigned_groups ei (PaletteGroups.insert g definitely_in)
        needed_eggs
    | [] =>
      explicit_pass explicitly_assigned_groups ei definitely_in (needed_eggs ++ [e])

/-- The state of `definitely_in` and `needed_eggs` when the main loop starts. -/
def initial_needed {Filename : Type} (t : TextureImage Filename) :
    PaletteGroups × WorkingEggs :=
  if t._explicitly_assigned_groups.isEmpty then
    ([], t._egg_files)
  else
    explicit_pass t._explicitly_assigned_groups t._egg_files [] []

/-- `TextureImage::assign_groups()`.  The main loop is given one round per needed
egg file; `none` stands for a loop that would need more. -/
def assign_groups {Filename : Type} (tbl : GroupTable)
    (prepare : PaletteGroup → TexturePlacement) (t : TextureImage Filename) :
    Option (Assigned Filename) :=
  if t._egg_files.isEmpty then
    some (assign_to_groups prepare t [])
  else
    let start := initial_needed t
    match needed_loop tbl start.2.length start.2 start.1 with
    | .finished definitely_in => some (assign_to_groups prepare t definitely_in)
    | .assertion_failed =>
      some { texture := t, prepared := [], deleted := [], assertion_failed := true }
    | .out_of_fuel => none

/-! ## Destination differencing -/

/-- Modelled from the spec: the `OmitReason` enumeration (omitReason.h is not among
the sources), "omit_reason: enum{None, Explicit, Solitary, SizeUnknown,...}"; the
code compares it with `OR_none` only. -/
inductive OmitReason where
  | OR_none
  | OR_explicit
  | OR_solitary
  | OR_size_unknown
  | OR_other (code : Nat)
  deriving DecidableEq, Repr

/-- A call made on a `DestTextureImage` by `remove_old_dests` or `copy_new_dests`. -/
inductive DestAction (Filename : Type) where
  | unlink (dest : DestTextureImage Filename)
  | copy (dest : DestTextureImage Filename)
  | copy_if_stale (dest old : DestTextureImage Filename)
  deriving DecidableEq, Repr

/-- The first loop of `remove_old_dests` with `ai` at the key `astr` (`rest` is
the walk once `ai` has moved on): with `bi` at the end nothing more is unlinked. -/
def remove_old_at {Filename : Type} [LinearOrder Filename] (astr : Filename)
    (rest : Dests Filename → List (DestAction Filename)) :
    Dests Filename → List (DestAction Filename)
  | [] => []
  | (bstr, bdest) :: bi =>
    if astr < bstr then rest ((bstr, bdest) :: bi)
    else if bstr < astr then .unlink bdest :: remove_old_at astr rest bi
    else rest bi

/-- `TextureImage::remove_old_dests(a, b)`: the calls of `unlink`, in order. -/
def remove_old_dests {Filename : Type} [LinearOrder Filename] :
    Dests Filename → Dests Filename → List (DestAction Filename)
  | [] => fun bi => bi.map (fun e => .unlink e.2)
  | (astr, _) :: ai => remove_old_at astr (remove_old_dests ai)

/-- The first loop of `copy_new_dests` with `ai` at the entry `(astr, adest)`. -/
def copy_new_at {Filename : Type} [LinearOrder Filename] (astr : Filename)
    (adest : DestTextureImage Filename)
    (rest : Dests Filename → List (DestAction Filename)) :
    Dests Filename → List (DestAction Filename)
  | [] => .copy adest :: rest []
  | (bstr, bdest) :: bi =>
    if astr < bstr then .copy adest :: rest ((bstr, bdest) :: bi)
    else if bstr < astr then copy_new_at astr adest rest bi
    else .copy_if_stale adest bdest :: rest bi

/-- `TextureImage::copy_new_dests(a, b)`: the calls of `copy` and `copy_if_stale`,
in order. -/
def copy_new_dests {Filename : Type} [LinearOrder Filename] :
    Dests Filename → Dests Filename → List (DestAction Filename)
  | [] => fun _ => []
  | (astr, adest) :: ai => copy_new_at astr adest (copy_new_dests ai)

/-- The insertion `generate.insert(Dests::value_type(filename, dest))` of a
`std::map`: the new map, and the entry already stored under the key when the
insertion did not take place. -/
def dests_insert {Filename : Type} [LinearOrder Filename] (filename : Filename)
    (dest : DestTextureImage Filename) :
    Dests Filename → Dests Filename × Option (DestTextureImage Filename)
  | [] => ([(filename, dest)], none)
  | (k, d) :: m =>
    if filename < k then ((filename, dest) :: (k, d) :: m, none)
    else if k < filename then
      let r := dests_insert filename dest m
      ((k, d) :: r.1, r.2)
    else ((k, d) :: m, some d)

/-- What the first loop of `copy_unplaced` produced: the map `generate`, the calls
`placement->set_dest(dest)` and the extra `DestTextureImage` objects deleted. -/
structure Generated (Filename : Type) where
  generate : Dests Filename
  set_dest : List (TexturePlacement × DestTextureImage Filename)
  discarded : List (DestTextureImage Filename)

/-- The first loop of `copy_unplaced`, over the placement map.  `new_dest` is the
constructor `DestTextureImage(placement)` and `make_canonical` is
`Filename::make_canonical`. -/
def collect_unplaced {Filename : Type} [LinearOrder Filename]
    (get_omit_reason : TexturePlacement → OmitReason)
    (new_dest : TexturePlacement → DestTextureImage Filename)
    (make_canonical : Filename → Filename) :
    Placement → Dests Filename → Generated Filename
  | [], generate => { generate := generate, set_dest := [], discarded := [] }
  | (_, placement) :: pi, generate =>
    if get_omit_reason placement ≠ OmitReason.OR_none then
      let dest := new_dest placement
      let filename := make_canonical dest.filename
      let insert_result := dests_insert filename dest generate
      match insert_result.2 with
      | some existing =>
        let r := collect_unplaced get_omit_reason new_dest make_canonical pi insert_result.1
        { r with set_dest := (placement, existing) :: r.set_dest
                 discarded := dest :: r.discarded }
      | none =>
        let r := collect_unplaced get_omit_reason new_dest make_canonical pi insert_result.1
        { r with set_dest := (placement, dest) :: r.set_dest }
    else
      collect_unplaced get_omit_reason new_dest make_canonical pi generate

/-- What a call of `copy_unplaced` did. -/
structure Copied (Filename : Type) where
  texture : TextureImage Filename
  actions : List (DestAction Filename)
  set_dest : List (TexturePlacement × DestTextureImage Filename)
  discarded : List (DestTextureImage Filename)
  deleted_old : List (DestTextureImage Filename)

/-- `TextureImage::copy_unplaced(redo_all)`. -/
def copy_unplaced {Filename : Type} [LinearOrder Filename]
    (get_omit_reason : TexturePlacement → OmitReason)
    (new_dest : TexturePlacement → DestTextureImage Filename)
    (make_canonical : Filename → Filename)
    (t : TextureImage Filename) (redo_all : Bool) : Copied Filename :=
  let g := collect_unplaced get_omit_reason new_dest make_canonical t._placement []
  let actions :=
    if redo_all then
      remove_old_dests [] t._dests ++ copy_new_dests g.generate []
    else
      remove_old_dests g.generate t._dests ++ copy_new_dests g.generate t._dests
  { texture := { t with _dests := g.generate }
    actions := actions
    set_dest := g.set_dest
    discarded := g.discarded
    deleted_old := t._dests.map Prod.snd }

/-- The entry of the map `b` stored under `filename`, if there is one. -/
def old_dest {Filename : Type} [LinearOrder Filename] (b : Dests Filename)
    (filename : Filename) : Option (DestTextureImage Filename) :=
  (b.find? (fun e => decide (e.1 = filename))).map Prod.snd

/-- What `copy_new_dests(a, b)` is to do for the entry `e` of `a`: `copy_if_stale`
against the entry of `b` of the same filename, or `copy` when `b` has none. -/
def copy_action {Filename : Type} [LinearOrder Filename] (b : Dests Filename)
    (e : Filename × DestTextureImage Filename) : DestAction Filename :=
  match old_dest b e.1 with
  | some old => .copy_if_stale e.2 old
  | none => .copy e.2

/-! ## Example inputs -/

/-- Group 1 has dependency level 1, every other group level 2; no group has an
egg file yet. -/
def example_table : GroupTable :=
  { get_dependency_level := fun g => if g = 1 then 1 else 2
    get_egg_count := fun _ => 0 }

/-- A `prepare` that gives group `g` the placement object `g + 100`. -/
def example_prepare : PaletteGroup → TexturePlacement := fun g => g + 100

/-- A texture explicitly assigned to group 2, used by an egg file of groups {2, 3}
and by one of group {4}; it was placed in groups 1 and 5 before. -/
def mixed_texture : TextureImage Nat :=
  { _egg_files := [⟨[2, 3]⟩, ⟨[4]⟩]
    _explicitly_assigned_groups := [2]
    _actual_assigned_groups := [1, 5]
    _placement := [(1, 7), (5, 9)]
    _dests := [] }

/-- A texture without explicit assignment, used by six egg files: group 1
satisfies the first four, group 2 the first two and the fifth, group 3 the
third, fourth and sixth. -/
def greedy_texture : TextureImage Nat :=
  { _egg_files := [⟨[1, 2]⟩, ⟨[1, 2]⟩, ⟨[1, 3]⟩, ⟨[1, 3]⟩, ⟨[2]⟩, ⟨[3]⟩]
    _explicitly_assigned_groups := []
    _actual_assigned_groups := []
    _placement := []
    _dests := [] }

/-- Scenario A: no explicit assignment, egg file A with complete groups {1} and
egg file B with complete groups {2}. -/
def scenario_a_texture : TextureImage Nat :=
  { _egg_files := [⟨[1]⟩, ⟨[2]⟩]
    _explicitly_assigned_groups := []
    _actual_assigned_groups := []
    _placement := []
    _dests := [] }

/-- Scenario B: explicitly assigned to group 3, used by egg files whose complete
groups are {1, 3} and {3, 4}. -/
def scenario_b_texture : TextureImage Nat :=
  { _egg_files := [⟨[1, 3]⟩, ⟨[3, 4]⟩]
    _explicitly_assigned_groups := [3]
    _actual_assigned_groups := []
    _placement := [(1, 7)]
    _dests := [] }

/-- A texture that no egg file references any more, still placed in two groups. -/
def unreferenced_texture : TextureImage Nat :=
  { _egg_files := []
    _explicitly_assigned_groups := [2]
    _actual_assigned_groups := [1, 5]
    _placement := [(1, 7), (5, 9)]
    _dests := [] }

/-- The destinations newly required: files 1, 3 and 4. -/
def new_dests_example : Dests Nat :=
  [(1, ⟨11, 1⟩), (3, ⟨13, 3⟩), (4, ⟨14, 4⟩)]

/-- The destinations of the previous session: files 2, 3 and 5. -/
def old_dests_example : Dests Nat :=
  [(2, ⟨22, 2⟩), (3, ⟨23, 3⟩), (5, ⟨25, 5⟩)]

/-- Placements 7 and 9 are omitted as solitary, every other placement is placed. -/
def example_omit_reason : TexturePlacement → OmitReason :=
  fun p => if p = 7 ∨ p = 9 then .OR_solitary else .OR_none

/-- The destination image of a placement `p` is the file `p / 2`. -/
def example_new_dest : TexturePlacement → DestTextureImage Nat :=
  fun p => { placement := p, filename := p / 2 }

/-- A texture with two solitary placements and a placed one, and the destination
files 3 and 5 left by the previous session. -/
def unplaced_texture : TextureImage Nat :=
  { _egg_files := [⟨[1, 5]⟩]
    _explicitly_assigned_groups := []
    _actual_assigned_groups := [1, 5, 6]
    _placement := [(1, 7), (5, 9), (6, 20)]
    _dests := [(3, ⟨7, 3⟩), (5, ⟨30, 5⟩)] }

/-! ## Source images and the preferred source -/

/-- A `std::string`, as the list of its characters in lexicographic order. -/
abbrev Str := List Char

/-- `EggTexture::Format` of the egg library; the code tests for `F_unspecified`
only. -/
inductive Format where
  | F_unspecified
  | F_other (code : Nat)
  deriving DecidableEq, Repr

/-- `EggTexture::FilterType` of the egg library; the code tests for
`FT_unspecified` only. -/
inductive FilterType where
  | FT_unspecified
  | FT_other (code : Nat)
  deriving DecidableEq, Repr

/-- The members of `TextureProperties` that textureImage.cxx reads and writes. -/
structure TextureProperties where
  _got_num_channels : Bool
  _num_channels : Int
  _format : Format
  _minfilter : FilterType
  _magfilter : FilterType
  deriving DecidableEq, Repr

/-- A `SourceTextureImage`, by what its accessors return: the two filenames,
`get_egg_count()`, `exists()`, `get_size()` (whether the size is known),
`get_x_size()`, `get_y_size()`, `get_num_channels()` and `get_properties()`.
The sizes are C++ `int`s; their product is taken exactly. -/
structure SourceTextureImage (Filename : Type) where
  filename : Filename
  alpha_filename : Filename
  egg_count : Int
  file_exists : Bool
  size_known : Bool
  x_size : Int
  y_size : Int
  num_channels : Int
  properties : TextureProperties
  deriving DecidableEq, Repr

/-- The `Sources` map, `map<string, SourceTextureImage *>`, in key order. -/
abbrev Sources (Filename : Type) := List (Str × SourceTextureImage Filename)

/-- The `_request` member (a `TextureRequest`): what the .txa file asked for. -/
structure TextureRequest where
  _got_size : Bool
  _x_size : Int
  _y_size : Int
  _got_num_channels : Bool
  _num_channels : Int
  _format : Format
  _minfilter : FilterType
  _magfilter : FilterType
  deriving DecidableEq, Repr

/-- A `PNMImage` of the image library, by what its accessors return:
`is_valid()`, `get_x_size()`, `get_y_size()`, `get_maxval()`, `has_alpha()`,
the red, green and blue of `get_xel_val(x, y)` and `get_alpha_val(x, y)`. -/
structure PNMImage where
  is_valid : Bool
  x_size : Nat
  y_size : Nat
  maxval : Nat
  has_alpha : Bool
  get_xel_val : Nat → Nat → Nat × Nat × Nat
  get_alpha_val : Nat → Nat → Nat

/-- The functions of classes outside textureImage.cxx that `TextureImage` calls:
`FilenameUnifier::make_bam_filename`, `Filename::get_fullpath`, the constructor
`SourceTextureImage(this, filename, alpha_filename)`,
`Filename::compare_timestamps`, what `SourceTextureImage::read` reads,
`TextureProperties::fully_define`, `TextureProperties::operator !=` and
`TextureRequest::pre_txa_file`. -/
structure Collaborators (Filename : Type) where
  make_bam_filename : Filename → Filename
  get_fullpath : Filename → Str
  new_source : Filename → Filename → SourceTextureImage Filename
  compare_timestamps : Filename → Filename → Int
  read : SourceTextureImage Filename → PNMImage
  fully_define : TextureProperties → TextureProperties
  properties_ne : TextureProperties → TextureProperties → Bool
  request_pre_txa_file : TextureRequest → TextureRequest

/-- The whole `TextureImage` object: besides the fields of group assignment, those
read and written by `get_source`, `get_preferred_source`, `read_source_image`,
`pre_txa_file` and `post_txa_file`.  `_preferred_source` is `none` for NULL. -/
structure TextureImageRecord (Filename : Type) extends TextureImage Filename where
  _sources : Sources Filename
  _preferred_source : Option (SourceTextureImage Filename)
  _read_source_image : Bool
  _got_dest_image : Bool
  _is_surprise : Bool
  _ever_read_image : Bool
  _forced_grayscale : Bool
  _forced_unalpha : Bool
  _source_image : PNMImage
  _size_known : Bool
  _x_size : Int
  _y_size : Int
  _properties : TextureProperties
  _pre_txa_properties : TextureProperties
  _request : TextureRequest

/-- `TextureImage::get_source_key(filename, alpha_filename)`. -/
def get_source_key {Filename : Type} (c : Collaborators Filename)
    (filename alpha_filename : Filename) : Str :=
  let f := c.make_bam_filename filename
  let a := c.make_bam_filename alpha_filename
  c.get_fullpath f ++ [':'] ++ c.get_fullpath a

/-- The lookup `_sources.find(key)`; `none` is `_sources.end()`. -/
def sources_find {Filename : Type} (key : Str) (m : Sources Filename) :
    Option (SourceTextureImage Filename) :=
  (m.find? (fun e => decide (e.1 = key))).map Prod.snd

/-- The insertion `_sources.insert(Sources::value_type(key, source))` of a
`std::map`: the entry goes to its place in the key order, and nothing is stored
when the key is there already. -/
def sources_insert {Filename : Type} (key : Str) (source : SourceTextureImage Filename) :
    Sources Filename → Sources Filename
  | [] => [(key, source)]
  | (k, s) :: m =>
    if key < k then (key, source) :: (k, s) :: m
    else if k < key then (k, s) :: sources_insert key source m
    else (k, s) :: m

/-- `TextureImage::get_source(filename, alpha_filename)`: the texture afterwards
and the source returned. -/
def get_source {Filename : Type} (c : Collaborators Filename)
    (t : TextureImageRecord Filename) (filename alpha_filename : Filename) :
    TextureImageRecord Filename × SourceTextureImage Filename :=
  let key := get_source_key c filename alpha_filename
  match sources_find key t._sources with
  | some source => (t, source)
  | none =>
    let source := c.new_source filename alpha_filename
    ({ t with
        _sources := sources_insert key source t._sources
        _preferred_source := none
        _read_source_image := false
        _got_dest_image := false }, source)

/-- The first loop of `get_preferred_source`, "Are any source images referenced by
an egg file?", from the iterator position and the current `any_referenced`. -/
def any_referenced_loop {Filename : Type} : Sources Filename → Bool → Bool
  | [], any_referenced => any_referenced
  | e :: si, any_referenced =>
    if !any_referenced then
      if e.2.egg_count > 0 then any_referenced_loop si true
      else any_referenced_loop si any_referenced
    else any_referenced

/-- The value a 32-bit `int` holds for the arithmetic result `n`: the two's
complement representative of `n` between -2^31 and 2^31 - 1. -/
def wrap_int (n : Int) : Int :=
  (n + 2147483648) % 4294967296 - 2147483648

/-- The second loop of `get_preferred_source`, from the iterator position and the
current `best` and `best_size`.  As in the first loop, the loop condition is
`si != _sources.end() && !any_referenced`.  `source_size` and `best_size` are
`int`s: the product `get_x_size() * get_y_size()` is taken in 32 bits. -/
def best_source_loop {Filename : Type} (c : Collaborators Filename) (any_referenced : Bool) :
    Sources Filename → Option (SourceTextureImage Filename) → Int →
      Option (SourceTextureImage Filename)
  | [], best, _ => best
  | e :: si, best, best_size =>
    if !any_referenced then
      let source := e.2
      if source.egg_count > 0 || !any_referenced then
        if source.file_exists && source.size_known then
          let source_size := wrap_int (source.x_size * source.y_size)
          match best with
          | none => best_source_loop c any_referenced si (some source) source_size
          | some b =>
            if source_size > best_size then
              best_source_loop c any_referenced si (some source) source_size
            else if source_size = best_size ∧
                c.compare_timestamps source.filename b.filename > 0 then
              best_source_loop c any_referenced si (some source) source_size
            else best_source_loop c any_referenced si best best_size
        else best_source_loop c any_referenced si best best_size
      else best_source_loop c any_referenced si best best_size
    else best

/-- What `get_preferred_source` computes when nothing is cached: the two loops
and the fallback on `(*_sources.begin()).second`. -/
def select_preferred_source {Filename : Type} (c : Collaborators Filename)
    (sources : Sources Filename) : Option (SourceTextureImage Filename) :=
  let any_referenced := any_referenced_loop sources false
  match best_source_loop c any_referenced sources none 0, sources with
  | none, e :: _ => some e.2
  | best, _ => best

/-- `TextureImage::get_preferred_source()`: the texture afterwards and the source
returned (`none` for NULL). -/
def get_preferred_source {Filename : Type} (c : Collaborators Filename)
    (t : TextureImageRecord Filename) :
    TextureImageRecord Filename × Option (SourceTextureImage Filename) :=
  match t._preferred_source with
  | some source => (t, some source)
  | none =>
    let best := select_preferred_source c t._sources
    ({ t with _preferred_source := best }, best)

/-- A source that exists on disk with a known size: `exists() && get_size()`. -/
def readable {Filename : Type} (s : SourceTextureImage Filename) : Bool :=
  s.file_exists && s.size_known

/-- The pixel area of a source, width times height, as an exact integer. -/
def area {Filename : Type} (s : SourceTextureImage Filename) : Int :=
  s.x_size * s.y_size

/-- The `int source_size` that `get_preferred_source` computes for a source:
`get_x_size() * get_y_size()` in 32 bits. -/
def source_size {Filename : Type} (s : SourceTextureImage Filename) : Int :=
  wrap_int (s.x_size * s.y_size)

/-- The cached preferred source, when there is one, is one of the sources of the
texture. -/
def CacheCoherent {Filename : Type} (t : TextureImageRecord Filename) : Prop :=
  ∀ s, t._preferred_source = some s → s ∈ t._sources.map Prod.snd

/-- The texture after a list of `get_source` requests. -/
def get_sources {Filename : Type} (c : Collaborators Filename) :
    TextureImageRecord Filename → List (Filename × Filename) → TextureImageRecord Filename
  | t, [] => t
  | t, (filename, alpha_filename) :: more =>
    get_sources c (get_source c t filename alpha_filename).1 more

/-- The source `r` is at least as good a choice as `s` by the comparisons of
`get_preferred_source`: its `source_size` is not smaller, and it is not less
recent when the two are equal. -/
def Dominates {Filename : Type} (c : Collaborators Filename)
    (r s : SourceTextureImage Filename) : Prop :=
  source_size s ≤ source_size r ∧
    (source_size s = source_size r → c.compare_timestamps s.filename r.filename ≤ 0)

/-! ## `pre_txa_file` and `post_txa_file` -/

/-- `TextureImage::force_replace()`: the placements on which
`TexturePlacement::force_replace()` is called, in order. -/
def force_replace {Filename : Type} (t : TextureImageRecord Filename) :
    List TexturePlacement :=
  t._placement.map Prod.snd

/-- `TextureImage::pre_txa_file()`. -/
def pre_txa_file {Filename : Type} (c : Collaborators Filename)
    (t : TextureImageRecord Filename) : TextureImageRecord Filename :=
  let t1 := { t with _pre_txa_properties := t._properties }
  let r := get_preferred_source c t1
  let t2 :=
    match r.2 with
    | some source => { r.1 with _properties := source.properties }
    | none => r.1
  { t2 with _request := c.request_pre_txa_file t2._request, _is_surprise := true }

/-- `TextureImage::read_source_image()`: the texture afterwards (the image
returned is its `_source_image`) and the sources on which `read` was called. -/
def read_source_image {Filename : Type} (c : Collaborators Filename)
    (t : TextureImageRecord Filename) :
    TextureImageRecord Filename × List (SourceTextureImage Filename) :=
  if !t._read_source_image then
    let r := get_preferred_source c t
    match r.2 with
    | some source =>
      ({ r.1 with
          _source_image := c.read source
          _read_source_image := true
          _ever_read_image := true }, [source])
    | none => ({ r.1 with _read_source_image := true, _ever_read_image := true }, [])
  else (t, [])

/-- The double loop of `consider_grayscale` runs to its end: no pixel of the image
has a red different from its green or from its blue. -/
def all_pixels_gray (source : PNMImage) : Bool :=
  (List.range source.y_size).all fun y =>
    (List.range source.x_size).all fun x =>
      let v := source.get_xel_val x y
      !(decide (v.1 ≠ v.2.1) || decide (v.1 ≠ v.2.2))

/-- The double loop of `consider_unalpha` runs to its end: every alpha value of
the image is `get_maxval()`. -/
def all_alpha_white (source : PNMImage) : Bool :=
  (List.range source.y_size).all fun y =>
    (List.range source.x_size).all fun x =>
      !decide (source.get_alpha_val x y ≠ source.maxval)

/-- The texture with `delta` taken off `_properties._num_channels`. -/
def drop_channels {Filename : Type} (t : TextureImageRecord Filename) (delta : Int) :
    TextureImageRecord Filename :=
  { t with
      _properties :=
        { t._properties with _num_channels := t._properties._num_channels - delta } }

/-- `TextureImage::consider_grayscale()`: the texture afterwards and the sources on
which `read` was called. -/
def consider_grayscale {Filename : Type} (c : Collaborators Filename)
    (t : TextureImageRecord Filename) :
    TextureImageRecord Filename × List (SourceTextureImage Filename) :=
  if !t._read_source_image && t._ever_read_image then
    if t._forced_grayscale then (drop_channels t 2, [])
    else (t, [])
  else
    let r := read_source_image c t
    let source := r.1._source_image
    if !source.is_valid then r
    else if !all_pixels_gray source then ({ r.1 with _forced_grayscale := false }, r.2)
    else ({ drop_channels r.1 2 with _forced_grayscale := true }, r.2)

/-- `TextureImage::consider_unalpha()`: the texture afterwards and the sources on
which `read` was called. -/
def consider_unalpha {Filename : Type} (c : Collaborators Filename)
    (t : TextureImageRecord Filename) :
    TextureImageRecord Filename × List (SourceTextureImage Filename) :=
  if !t._read_source_image && t._ever_read_image then
    if t._forced_unalpha then (drop_channels t 1, [])
    else (t, [])
  else
    let r := read_source_image c t
    let source := r.1._source_image
    if !source.is_valid then r
    else if !source.has_alpha then r
    else if !all_alpha_white source then ({ r.1 with _forced_unalpha := false }, r.2)
    else ({ drop_channels r.1 1 with _forced_unalpha := true }, r.2)

/-- The first part of `post_txa_file`, "First, get the actual size of the
texture": size and channel count of the preferred source. -/
def take_source_size {Filename : Type} (c : Collaborators Filename)
    (t : TextureImageRecord Filename) : TextureImageRecord Filename :=
  let r := get_preferred_source c t
  match r.2 with
  | some source =>
    if source.size_known then
      { r.1 with
          _size_known := true
          _x_size := source.x_size
          _y_size := source.y_size
          _properties :=
            { r.1._properties with
                _got_num_channels := true
                _num_channels := source.num_channels } }
    else r.1
  | none => r.1

/-- The second part of `post_txa_file`, "Now update this with a particularly
requested size". -/
def take_requested_size {Filename : Type} (t : TextureImageRecord Filename) :
    TextureImageRecord Filename :=
  if t._request._got_size then
    { t with _size_known := true, _x_size := t._request._x_size, _y_size := t._request._y_size }
  else t

/-- The third part of `post_txa_file`: the requested channel count, or else the two
probes; the texture afterwards and the sources on which `read` was called. -/
def take_channels {Filename : Type} (c : Collaborators Filename)
    (t : TextureImageRecord Filename) :
    TextureImageRecord Filename × List (SourceTextureImage Filename) :=
  if t._request._got_num_channels then
    ({ t with
        _properties :=
          { t._properties with
              _got_num_channels := true
              _num_channels := t._request._num_channels } }, [])
  else
    let g :=
      if t._properties._got_num_channels &&
          (t._properties._num_channels == 3 || t._properties._num_channels == 4) then
        consider_grayscale c t
      else (t, [])
    let u :=
      if g.1._properties._got_num_channels &&
          (g.1._properties._num_channels == 2 || g.1._properties._num_channels == 4) then
        consider_unalpha c g.1
      else (g.1, [])
    (u.1, g.2 ++ u.2)

/-- The fourth part of `post_txa_file`: the requested format and filters. -/
def take_formats {Filename : Type} (t : TextureImageRecord Filename) :
    TextureImageRecord Filename :=
  let p1 :=
    if t._request._format ≠ Format.F_unspecified then
      { t._properties with _format := t._request._format }
    else t._properties
  let p2 :=
    if t._request._minfilter ≠ FilterType.FT_unspecified then
      { p1 with _minfilter := t._request._minfilter }
    else p1
  let p3 :=
    if t._request._magfilter ≠ FilterType.FT_unspecified then
      { p2 with _magfilter := t._request._magfilter }
    else p2
  { t with _properties := p3 }

/-- Lines 252 to 299 of `post_txa_file`: everything before `fully_define`. -/
def apply_txa_request {Filename : Type} (c : Collaborators Filename)
    (t : TextureImageRecord Filename) :
    TextureImageRecord Filename × List (SourceTextureImage Filename) :=
  let r := take_channels c (take_requested_size (take_source_size c t))
  (take_formats r.1, r.2)

/-- What a call of `post_txa_file` did: the texture afterwards, the placements on
which `force_replace` was called and the sources on which `read` was called. -/
structure PostTxa (Filename : Type) where
  texture : TextureImageRecord Filename
  force_replaced : List TexturePlacement
  images_read : List (SourceTextureImage Filename)

/-- `TextureImage::post_txa_file()`. -/
def post_txa_file {Filename : Type} (c : Collaborators Filename)
    (t : TextureImageRecord Filename) : PostTxa Filename :=
  let r := apply_txa_request c t
  let t1 := { r.1 with _properties := c.fully_define r.1._properties }
  if c.properties_ne t1._properties t1._pre_txa_properties then
    { texture := t1, force_replaced := force_replace t1, images_read := r.2 }
  else { texture := t1, force_replaced := [], images_read := r.2 }

/-- The second texture has the placement map, the assigned groups, the snapshot
`_pre_txa_properties` and the request of the first. -/
def SameAssignment {Filename : Type} (t t' : TextureImageRecord Filename) : Prop :=
  t'._placement = t._placement ∧ t'._actual_assigned_groups = t._actual_assigned_groups ∧
    t'._pre_txa_properties = t._pre_txa_properties ∧ t'._request = t._request

/-! ## Example inputs: source images -/

/-- Properties with nothing specified. -/
def blank_properties : TextureProperties :=
  { _got_num_channels := false
    _num_channels := 0
    _format := .F_unspecified
    _minfilter := .FT_unspecified
    _magfilter := .FT_unspecified }

/-- A request that asks for nothing. -/
def blank_request : TextureRequest :=
  { _got_size := false
    _x_size := 0
    _y_size := 0
    _got_num_channels := false
    _num_channels := 0
    _format := .F_unspecified
    _minfilter := .FT_unspecified
    _magfilter := .FT_unspecified }

/-- The image of a `PNMImage` that has not been read: not valid, no pixels. -/
def blank_image : PNMImage :=
  { is_valid := false
    x_size := 0
    y_size := 0
    maxval := 0
    has_alpha := false
    get_xel_val := fun _ _ => (0, 0, 0)
    get_alpha_val := fun _ _ => 0 }

/-- A source image on disk: `count` egg files use it, `x` by `y` pixels of
`channels` channels. -/
def source_on_disk (name : Str) (count x y channels : Int) : SourceTextureImage Str :=
  { filename := name
    alpha_filename := []
    egg_count := count
    file_exists := true
    size_known := true
    x_size := x
    y_size := y
    num_channels := channels
    properties := { blank_properties with _got_num_channels := true, _num_channels := channels } }

/-- A source image whose file is missing. -/
def source_missing (name : Str) (count : Int) : SourceTextureImage Str :=
  { filename := name
    alpha_filename := []
    egg_count := count
    file_exists := false
    size_known := false
    x_size := 0
    y_size := 0
    num_channels := 0
    properties := blank_properties }

/-- Collaborators for the examples: filenames are their full paths, a new source
is not on disk yet, a longer filename is the more recent file, an image that is
read is one red pixel without alpha, `fully_define` changes nothing and
`operator !=` compares all members. -/
def example_collaborators : Collaborators Str :=
  { make_bam_filename := id
    get_fullpath := id
    new_source := fun f a => { source_missing f 0 with alpha_filename := a }
    compare_timestamps := fun a b => (a.length : Int) - (b.length : Int)
    read := fun _ =>
      { blank_image with
          is_valid := true
          x_size := 1
          y_size := 1
          maxval := 255
          get_xel_val := fun _ _ => (255, 0, 0) }
    fully_define := id
    properties_ne := fun a b => decide (a ≠ b)
    request_pre_txa_file := fun _ => blank_request }

/-- A texture object with the given sources and properties, nothing cached and
nothing read, placed in groups 1 and 5. -/
def texture_with_sources (sources : Sources Str) (properties : TextureProperties) :
    TextureImageRecord Str :=
  { _egg_files := []
    _explicitly_assigned_groups := []
    _actual_assigned_groups := [1, 5]
    _placement := [(1, 7), (5, 9)]
    _dests := []
    _sources := sources
    _preferred_source := none
    _read_source_image := false
    _got_dest_image := false
    _is_surprise := true
    _ever_read_image := false
    _forced_grayscale := false
    _forced_unalpha := false
    _source_image := blank_image
    _size_known := false
    _x_size := 0
    _y_size := 0
    _properties := properties
    _pre_txa_properties := properties
    _request := blank_request }

/-- Two sources: `a`, 64 by 64, used by no egg file, and `b`, 32 by 32, used by
one egg file. -/
def referenced_second_texture : TextureImageRecord Str :=
  texture_with_sources
    [(['a', ':'], source_on_disk ['a'] 0 64 64 3), (['b', ':'], source_on_disk ['b'] 1 32 32 3)]
    blank_properties

/-- Three sources used by no egg file: `a` is 8 by 8, `bb` and `c` are 16 by 16,
and `bb` is the more recent of these two. -/
def unreferenced_texture_sources : TextureImageRecord Str :=
  texture_with_sources
    [(['a', ':'], source_on_disk ['a'] 0 8 8 3),
     (['b', 'b', ':'], source_on_disk ['b', 'b'] 0 16 16 3),
     (['c', ':'], source_on_disk ['c'] 0 16 16 3)]
    blank_properties

/-- Two sources used by no egg file, both on disk: `a` is 65536 by 65536 and `b`
is 1 by 1. -/
def oversized_texture : TextureImageRecord Str :=
  texture_with_sources
    [(['a', ':'], source_on_disk ['a'] 0 65536 65536 3),
     (['b', ':'], source_on_disk ['b'] 0 1 1 3)]
    blank_properties

/-- Scenario C: the texture had 4 channels in the previous session; its one
source image now has 3. -/
def scenario_c_texture : TextureImageRecord Str :=
  texture_with_sources [(['z', ':'], source_on_disk ['z'] 1 32 32 3)]
    { blank_properties with _got_num_channels := true, _num_channels := 4 }

/-- A texture whose source has 3 channels and a size of 32 by 32, with a request
for 1 channel and a size of 8 by 16. -/
def requested_texture : TextureImageRecord Str :=
  { texture_with_sources [(['z', ':'], source_on_disk ['z'] 1 32 32 3)] blank_properties with
    _request :=
      { blank_request with
          _got_size := true
          _x_size := 8
          _y_size := 16
          _got_num_channels := true
          _num_channels := 1 } }

/-! ## The tables of the `Palettizer` -/

/-- Modelled from the spec: class `PaletteGroup` (paletteGroup.h is not among the
sources), "Texture Group: { name: string (unique key), ... }": the object at
`address` with its name and the directory name that `has_dirname()` tests and
`set_dirname()` sets (`none` while none is set). -/
structure PaletteGroupObject where
  address : Nat
  name : Str
  dirname : Option Str
  deriving DecidableEq, Repr

/-- Modelled from the spec: class `EggFile` as the `Palettizer` sees it (eggFile.h
is not among the sources), "Model Record: { name (unique key), ... }". -/
structure EggFileObject where
  address : Nat
  name : Str
  deriving DecidableEq, Repr

/-- The `TextureImage` object as the `Palettizer` tables see it: its address and
its name. -/
structure TextureImageObject where
  address : Nat
  name : Str
  deriving DecidableEq, Repr

/-- The lookup `find(name)` in one of the `map<string, T *>` tables; `none` is
`end()`. -/
def table_find {V : Type} (name : Str) (m : List (Str × V)) : Option V :=
  (m.find? (fun e => decide (e.1 = name))).map Prod.snd

/-- The insertion `insert(value_type(name, v))` of a `std::map`: the entry goes to
its place in the key order, and nothing is stored when the key is there
already. -/
def table_insert {V : Type} (name : Str) (v : V) : List (Str × V) → List (Str × V)
  | [] => [(name, v)]
  | (k, x) :: m =>
    if name < k then (name, v) :: (k, x) :: m
    else if k < name then (k, x) :: table_insert name v m
    else (k, x) :: m

/-- A write through the pointer stored under `name`: the object there becomes
`v`. -/
def table_store {V : Type} (name : Str) (v : V) (m : List (Str × V)) : List (Str × V) :=
  m.map (fun e => if e.1 = name then (e.1, v) else e)

/-- The members of `Palettizer` used by its get-or-create accessors, and
`next_address`, the address that the next `new` returns. -/
structure Palettizer where
  _default_groupname : Str
  _default_groupdir : Str
  _egg_files : List (Str × EggFileObject)
  _groups : List (Str × PaletteGroupObject)
  _textures : List (Str × TextureImageObject)
  next_address : Nat

/-- `Palettizer::get_egg_file(name)`: the palettizer afterwards and the egg file
returned. -/
def get_egg_file (pal : Palettizer) (name : Str) : Palettizer × EggFileObject :=
  match table_find name pal._egg_files with
  | some file => (pal, file)
  | none =>
    let file : EggFileObject := { address := pal.next_address, name := name }
    ({ pal with
        _egg_files := table_insert name file pal._egg_files
        next_address := pal.next_address + 1 }, file)

/-- `Palettizer::get_palette_group(name)`: the palettizer afterwards and the group
returned. -/
def get_palette_group (pal : Palettizer) (name : Str) : Palettizer × PaletteGroupObject :=
  match table_find name pal._groups with
  | some group => (pal, group)
  | none =>
    let group : PaletteGroupObject :=
      { address := pal.next_address, name := name, dirname := none }
    ({ pal with
        _groups := table_insert name group pal._groups
        next_address := pal.next_address + 1 }, group)

/-- `Palettizer::test_palette_group(name)`, a const method; `none` is NULL. -/
def test_palette_group (pal : Palettizer) (name : Str) : Option PaletteGroupObject :=
  table_find name pal._groups

/-- `Palettizer::get_default_group()`. -/
def get_default_group (pal : Palettizer) : Palettizer × PaletteGroupObject :=
  let r := get_palette_group pal pal._default_groupname
  let default_group := r.2
  if !pal._default_groupdir.isEmpty && !default_group.dirname.isSome then
    let group := { default_group with dirname := some pal._default_groupdir }
    ({ r.1 with _groups := table_store pal._default_groupname group r.1._groups }, group)
  else r

/-- `Palettizer::get_texture(name)`: the palettizer afterwards and the texture
returned. -/
def get_texture (pal : Palettizer) (name : Str) : Palettizer × TextureImageObject :=
  match table_find name pal._textures with
  | some image => (pal, image)
  | none =>
    let image : TextureImageObject := { address := pal.next_address, name := name }
    ({ pal with
        _textures := table_insert name image pal._textures
        next_address := pal.next_address + 1 }, image)

/-- A call of one of the get-or-create accessors. -/
inductive AccessorCall where
  | get_egg_file (name : Str)
  | get_palette_group (name : Str)
  | get_default_group
  | get_texture (name : Str)
  deriving DecidableEq, Repr

/-- The palettizer after one accessor call. -/
def run_call (pal : Palettizer) : AccessorCall → Palettizer
  | .get_egg_file name => (get_egg_file pal name).1
  | .get_palette_group name => (get_palette_group pal name).1
  | .get_default_group => (get_default_group pal).1
  | .get_texture name => (get_texture pal name).1

/-- The palettizer after a sequence of accessor calls. -/
def run_calls (pal : Palettizer) (calls : List AccessorCall) : Palettizer :=
  calls.foldl run_call pal

/-- A palettizer with empty tables. -/
def empty_palettizer (default_groupname default_groupdir : Str) : Palettizer :=
  { _default_groupname := default_groupname
    _default_groupdir := default_groupdir
    _egg_files := []
    _groups := []
    _textures := []
    next_address := 0 }

/-- Every key of the table maps to exactly one record (the keys are in strict
order) and the name of that record is the key. -/
def TableOk {V : Type} (name_of : V → Str) (m : List (Str × V)) : Prop :=
  KeySorted m ∧ ∀ e ∈ m, name_of e.2 = e.1

/-- The three tables of the palettizer are well formed. -/
def PalettizerOk (pal : Palettizer) : Prop :=
  TableOk EggFileObject.name pal._egg_files ∧
    TableOk PaletteGroupObject.name pal._groups ∧
    TableOk TextureImageObject.name pal._textures

/-- Every object created so far is held in one of the tables: the number of
objects that `new` has returned is the number of table entries. -/
def all_held (pal : Palettizer) : Prop :=
  pal.next_address = pal._egg_files.length + pal._groups.length + pal._textures.length

/-! ## `read_stale_eggs` -/

/-- The methods of `EggFile` that `read_stale_eggs` calls for their result:
`has_data()`, `is_stale()` and whether `read_egg()` succeeds. -/
structure EggCollaborators where
  has_data : EggFileObject → Bool
  is_stale : EggFileObject → Bool
  read_egg : EggFileObject → Bool

/-- A call that `read_stale_eggs` makes on an egg file. -/
inductive EggCall where
  | read_egg (file : EggFileObject)
  | scan_textures (file : EggFileObject)
  | choose_placements (file : EggFileObject)
  deriving DecidableEq, Repr

/-- The loop of `read_stale_eggs`, from the iterator position and the current
`okflag`: the final `okflag` and the calls made, in order. -/
def read_stale_eggs_loop (ec : EggCollaborators) (redo_all : Bool) :
    List (Str × EggFileObject) → Bool → Bool × List EggCall
  | [], okflag => (okflag, [])
  | e :: ei, okflag =>
    let egg_file := e.2
    if !ec.has_data egg_file && (ec.is_stale egg_file || redo_all) then
      if !ec.read_egg egg_file then
        let r := read_stale_eggs_loop ec redo_all ei false
        (r.1, .read_egg egg_file :: r.2)
      else
        let r := read_stale_eggs_loop ec redo_all ei okflag
        (r.1, .read_egg egg_file :: .scan_textures egg_file ::
          .choose_placements egg_file :: r.2)
    else read_stale_eggs_loop ec redo_all ei okflag

/-- `Palettizer::read_stale_eggs(redo_all)`: the value returned and the calls
made on the egg files, in order. -/
def read_stale_eggs (ec : EggCollaborators) (pal : Palettizer) (redo_all : Bool) :
    Bool × List EggCall :=
  read_stale_eggs_loop ec redo_all pal._egg_files true

/-- The egg files that `read_stale_eggs` is to read: no data loaded, and stale or
`redo_all`. -/
def to_read (ec : EggCollaborators) (redo_all : Bool) (file : EggFileObject) : Bool :=
  !ec.has_data file && (ec.is_stale file || redo_all)

/-- The calls that `read_stale_eggs` is to make on one egg file: none when the
file is not to be read, `read_egg` alone when the read fails, and `read_egg`,
`scan_textures`, `choose_placements` when it succeeds. -/
def calls_for (ec : EggCollaborators) (redo_all : Bool) (file : EggFileObject) :
    List EggCall :=
  if to_read ec redo_all file then
    if ec.read_egg file then
      [.read_egg file, .scan_textures file, .choose_placements file]
    else [.read_egg file]
  else []

/-- The egg files on which a list of calls has `read_egg`, in order. -/
def reads_attempted : List EggCall → List EggFileObject
  | [] => []
  | .read_egg file :: calls => file :: reads_attempted calls
  | _ :: calls => reads_attempted calls

/-! ## Example inputs: the palettizer -/

/-- A palettizer that holds the group `g`, the egg files `a`, `b`, `c` and no
texture; its default group is `d`, in the directory `dir`. -/
def example_palettizer : Palettizer :=
  { _default_groupname := ['d']
    _default_groupdir := ['d', 'i', 'r']
    _egg_files :=
      [(['a'], ⟨1, ['a']⟩), (['b'], ⟨2, ['b']⟩), (['c'], ⟨3, ['c']⟩)]
    _groups := [(['g'], ⟨0, ['g'], none⟩)]
    _textures := []
    next_address := 4 }

/-- The egg file `a` has its data loaded, `b` and `c` are stale, and reading `b`
fails. -/
def example_egg_collaborators : EggCollaborators :=
  { has_data := fun f => decide (f.name = ['a'])
    is_stale := fun f => decide (f.name ≠ ['a'])
    read_egg := fun f => decide (f.name ≠ ['b']) }

/-! ## Orders of choice -/

/-- For the needed egg files, the group `r` is at least as good a choice as `g` by
the three rules of `assign_groups`: `g` does not satisfy more of them; when it
satisfies as many its dependency level is not lower; and when that is equal too
its egg count is not lower. -/
def AsGood (tbl : GroupTable) (needed_eggs : WorkingEggs) (r g : PaletteGroup) : Prop :=
  compute_egg_count g needed_eggs ≤ compute_egg_count r needed_eggs ∧
    (compute_egg_count g needed_eggs = compute_egg_count r needed_eggs →
      tbl.get_dependency_level r ≤ tbl.get_dependency_level g ∧
      (tbl.get_dependency_level r = tbl.get_dependency_level g →
        tbl.get_egg_count r ≤ tbl.get_egg_count g))

/-- The egg files still needed after the rounds that picked `picks`. -/
def still_needed (needed_eggs : WorkingEggs) (picks : List PaletteGroup) : WorkingEggs :=
  picks.foldl (fun needed best => next_needed_eggs best needed) needed_eggs

/-- The lookup `_placement.find(group)` in a placement map; `none` is `end()`. -/
def placement_at (pl : Placement) (group : PaletteGroup) : Option TexturePlacement :=
  (pl.find? (fun e => e.1 == group)).map Prod.snd

/-- The key under which `copy_unplaced` stores the destination of a placement:
the canonical form of the filename of its `DestTextureImage`. -/
def dest_key {Filename : Type} (new_dest : TexturePlacement → DestTextureImage Filename)
    (make_canonical : Filename → Filename) (placement : TexturePlacement) : Filename :=
  make_canonical (new_dest placement).filename

/-- The test `placement->get_omit_reason() != OR_none` of `copy_unplaced`. -/
def is_unplaced (get_omit_reason : TexturePlacement → OmitReason)
    (placement : TexturePlacement) : Bool :=
  decide (get_omit_reason placement ≠ OmitReason.OR_none)

/-! ## Example inputs: the probes -/

/-- A valid image of 2 by 2 gray pixels with an alpha channel that is `maxval`
everywhere. -/
def gray_opaque_image : PNMImage :=
  { is_valid := true
    x_size := 2
    y_size := 2
    maxval := 255
    has_alpha := true
    get_xel_val := fun x y => (10 * x + y, 10 * x + y, 10 * x + y)
    get_alpha_val := fun _ _ => 255 }

/-- The collaborators of the examples, except that an image that is read is
`gray_opaque_image`. -/
def gray_collaborators : Collaborators Str :=
  { example_collaborators with read := fun _ => gray_opaque_image }

/-- A texture of 4 channels with one source image on disk, nothing read yet. -/
def four_channel_texture : TextureImageRecord Str :=
  texture_with_sources [(['z', ':'], source_on_disk ['z'] 1 32 32 4)]
    { blank_properties with _got_num_channels := true, _num_channels := 4 }

/-- The texture of 4 channels in a later session: its image was read in an earlier
one, and both probes found they could downgrade. -/
def remembered_texture : TextureImageRecord Str :=
  { four_channel_texture with
      _ever_read_image := true
      _forced_grayscale := true
      _forced_unalpha := true }

/-- A texture without sources, on which `get_source` has never been called. -/
def no_sources_texture : TextureImageRecord Str :=
  texture_with_sources [] blank_properties

/-- The texture without sources after `get_source` of the pair (`a:b`, `c`), the
only pair requested of it. -/
def one_pair_texture : TextureImageRecord Str :=
  (get_source example_collaborators no_sources_texture ['a', ':', 'b'] ['c']).1

/-! ## The group sets -/

namespace PaletteGroups

theorem mem_insert (x g : PaletteGroup) (s : PaletteGroups) :
    x ∈ insert g s ↔ x = g ∨ x ∈ s := by
  induction s with
  | nil => simp [insert]
  | cons h t ih =>
    unfold insert
    split_ifs with h1 h2
    · simp
    · simp only [List.mem_cons, ih]
      tauto
    · have hgh : g = h := le_antisymm (not_lt.1 h2) (not_lt.1 h1)
      subst hgh
      simp

theorem insert_ne_nil (g : PaletteGroup) (s : PaletteGroups) : insert g s ≠ [] := by
  intro h
  have hg : g ∈ insert g s := (mem_insert g g s).2 (Or.inl rfl)
  rw [h] at hg
  exact List.not_mem_nil _ hg

theorem insert_sorted (g : PaletteGroup) (s : PaletteGroups) (hs : GroupSorted s) :
    GroupSorted (insert g s) := by
  induction s with
  | nil => simp [insert, GroupSorted]
  | cons h t ih =>
    unfold GroupSorted at hs ih ⊢
    rw [List.pairwise_cons] at hs
    unfold insert
    split_ifs with h1 h2
    · rw [List.pairwise_cons, List.pairwise_cons]
      refine ⟨?_, hs.1, hs.2⟩
      intro y hy
      rcases List.mem_cons.1 hy with rfl | hy
      · exact h1
      · exact lt_trans h1 (hs.1 y hy)
    · rw [List.pairwise_cons]
      refine ⟨?_, ih hs.2⟩
      intro y hy
      rcases (mem_insert y g t).1 hy with rfl | hy
      · exact h2
      · exact hs.1 y hy
    · rw [List.pairwise_cons]
      exact hs

theorem insert_of_mem (g : PaletteGroup) (s : PaletteGroups) (hs : GroupSorted s)
    (hg : g ∈ s) : insert g s = s := by
  induction s with
  | nil => simp at hg
  | cons h t ih =>
    unfold GroupSorted at hs ih
    rw [List.pairwise_cons] at hs
    unfold insert
    rcases List.mem_cons.1 hg with rfl | hg
    · simp
    · have hlt : h < g := hs.1 g hg
      have hn : ¬ g < h := not_lt.2 (le_of_lt hlt)
      simp [hn, hlt, ih hs.2 hg]

theorem mem_make_union (x : PaletteGroup) (a b : PaletteGroups) :
    x ∈ make_union a b ↔ x ∈ a ∨ x ∈ b := by
  unfold make_union
  induction b generalizing a with
  | nil => simp
  | cons h t ih =>
    simp only [List.foldl_cons, ih, mem_insert, List.mem_cons]
    tauto

theorem make_union_sorted (a b : PaletteGroups) (ha : GroupSorted a) :
    GroupSorted (make_union a b) := by
  unfold make_union
  induction b generalizing a with
  | nil => simpa using ha
  | cons h t ih =>
    simp only [List.foldl_cons]
    exact ih _ (insert_sorted h a ha)

theorem mem_make_intersection (x : PaletteGroup) (a b : PaletteGroups) :
    x ∈ make_intersection a b ↔ x ∈ a ∧ x ∈ b := by
  simp [make_intersection]

theorem count_ne_zero (s : PaletteGroups) (g : PaletteGroup) :
    count s g ≠ 0 ↔ g ∈ s := by
  unfold count
  split_ifs with h <;> simp [h]

theorem count_eq_zero (s : PaletteGroups) (g : PaletteGroup) :
    count s g = 0 ↔ g ∉ s := by
  unfold count
  split_ifs with h <;> simp [h]

end PaletteGroups

/-! ## The main loop of `assign_groups` -/

theorem mem_foldl_make_union (needed : WorkingEggs) (acc : PaletteGroups) (x : PaletteGroup) :
    x ∈ needed.foldl (fun total e => PaletteGroups.make_union total e.complete_groups) acc ↔
      x ∈ acc ∨ ∃ e ∈ needed, x ∈ e.complete_groups := by
  induction needed generalizing acc with
  | nil => simp
  | cons e es ih =>
    simp only [List.foldl_cons, ih, PaletteGroups.mem_make_union, List.mem_cons]
    constructor
    · rintro ((h | h) | ⟨e', he', h⟩)
      · exact Or.inl h
      · exact Or.inr ⟨e, Or.inl rfl, h⟩
      · exact Or.inr ⟨e', Or.inr he', h⟩
    · rintro (h | ⟨e', rfl | he', h⟩)
      · exact Or.inl (Or.inl h)
      · exact Or.inl (Or.inr h)
      · exact Or.inr ⟨e', he', h⟩

theorem mem_total_groups (x : PaletteGroup) (needed : WorkingEggs) :
    x ∈ total_groups needed ↔ ∃ e ∈ needed, x ∈ e.complete_groups := by
  unfold total_groups
  rw [mem_foldl_make_union]
  simp

theorem compute_egg_count_pos (g : PaletteGroup) (needed : WorkingEggs) :
    0 < compute_egg_count g needed ↔ ∃ e ∈ needed, g ∈ e.complete_groups := by
  induction needed with
  | nil => simp [compute_egg_count]
  | cons e es ih =>
    unfold compute_egg_count
    by_cases h : g ∈ e.complete_groups
    · have hc : PaletteGroups.count e.complete_groups g ≠ 0 :=
        (PaletteGroups.count_ne_zero _ _).2 h
      simp only [hc, ne_eq, not_false_eq_true, if_true, List.mem_cons]
      exact ⟨fun _ => ⟨e, Or.inl rfl, h⟩, fun _ => Nat.succ_pos _⟩
    · have hc : ¬ PaletteGroups.count e.complete_groups g ≠ 0 := by
        rw [PaletteGroups.count_ne_zero]; exact h
      simp only [hc, if_false, ih, List.mem_cons]
      constructor
      · rintro ⟨e', he', h'⟩
        exact ⟨e', Or.inr he', h'⟩
      · rintro ⟨e', rfl | he', h'⟩
        · exact absurd h' h
        · exact ⟨e', he', h'⟩

theorem scan_best_mem (tbl : GroupTable) (needed : WorkingEggs) (best : PaletteGroup)
    (c : Nat) (gi : List PaletteGroup) : scan_best tbl needed best c gi ∈ best :: gi := by
  induction gi generalizing best c with
  | nil => simp [scan_best]
  | cons g gi ih =>
    unfold scan_best
    simp only
    split_ifs
    · exact List.mem_cons_of_mem _ (ih g _)
    · rcases List.mem_cons.1 (ih best c) with h | h
      · rw [h]; exact List.mem_cons_self _ _
      · exact List.mem_cons_of_mem _ (List.mem_cons_of_mem _ h)

theorem best_group_mem (tbl : GroupTable) (needed : WorkingEggs) (best : PaletteGroup)
    (h : best_group tbl needed = some best) : ∃ e ∈ needed, best ∈ e.complete_groups := by
  unfold best_group at h
  split at h
  · exact absurd h (by simp)
  · rename_i first gi htot
    rw [← mem_total_groups, htot]
    have hb := scan_best_mem tbl needed first (compute_egg_count first needed) gi
    rw [Option.some.inj h] at hb
    exact hb

theorem best_group_ne_none (tbl : GroupTable) (needed : WorkingEggs) (e : EggFile)
    (he : e ∈ needed) (hne : e.complete_groups ≠ []) : best_group tbl needed ≠ none := by
  unfold best_group
  split
  · rename_i htot
    obtain ⟨g, hg⟩ := List.exists_mem_of_ne_nil _ hne
    have : g ∈ total_groups needed := (mem_total_groups g needed).2 ⟨e, he, hg⟩
    rw [htot] at this
    exact absurd this (List.not_mem_nil _)
  · simp

theorem mem_next_needed_eggs (e : EggFile) (best : PaletteGroup) (needed : WorkingEggs) :
    e ∈ next_needed_eggs best needed ↔ e ∈ needed ∧ best ∉ e.complete_groups := by
  unfold next_needed_eggs
  simp [PaletteGroups.count_eq_zero]

theorem next_needed_eggs_length_lt (best : PaletteGroup) (needed : WorkingEggs)
    (h : ∃ e ∈ needed, best ∈ e.complete_groups) :
    (next_needed_eggs best needed).length < needed.length := by
  obtain ⟨e, he, hb⟩ := h
  unfold next_needed_eggs
  apply List.length_filter_lt_length_iff_exists.2
  refine ⟨e, he, ?_⟩
  simp [PaletteGroups.count_eq_zero, hb]

/-- The main loop never needs more rounds than there are needed egg files. -/
theorem needed_loop_ne_out_of_fuel (tbl : GroupTable) (fuel : Nat) (needed : WorkingEggs)
    (d : PaletteGroups) (hfuel : needed.length ≤ fuel) :
    needed_loop tbl fuel needed d ≠ .out_of_fuel := by
  induction fuel generalizing needed d with
  | zero =>
    cases needed with
    | nil => simp [needed_loop]
    | cons e es => simp at hfuel
  | succ n ih =>
    cases needed with
    | nil => simp [needed_loop]
    | cons e es =>
      unfold needed_loop
      split
      · simp
      · rename_i best hbest
        apply ih
        have := next_needed_eggs_length_lt best (e :: es) (best_group_mem tbl _ _ hbest)
        omega

/-- With non-empty complete groups everywhere, the assertion of the main loop
never fails. -/
theorem needed_loop_ne_assertion_failed (tbl : GroupTable) (fuel : Nat)
    (needed : WorkingEggs) (d : PaletteGroups)
    (hne : ∀ e ∈ needed, e.complete_groups ≠ []) :
    needed_loop tbl fuel needed d ≠ .assertion_failed := by
  induction fuel generalizing needed d with
  | zero =>
    cases needed with
    | nil => simp [needed_loop]
    | cons e es => simp [needed_loop]
  | succ n ih =>
    cases needed with
    | nil => simp [needed_loop]
    | cons e es =>
      unfold needed_loop
      split
      · rename_i hbest
        exact absurd hbest
          (best_group_ne_none tbl _ e (List.mem_cons_self _ _) (hne e (List.mem_cons_self _ _)))
      · apply ih
        intro e' he'
        exact hne e' ((mem_next_needed_eggs e' _ _).1 he').1

/-- The result of the main loop is the start set with the picks inserted. -/
theorem needed_loop_eq_picks (tbl : GroupTable) (fuel : Nat) (needed : WorkingEggs)
    (d d' : PaletteGroups) (h : needed_loop tbl fuel needed d = .finished d') :
    d' = (needed_picks tbl fuel needed).foldl (fun s g => PaletteGroups.insert g s) d := by
  induction fuel generalizing needed d with
  | zero =>
    cases needed with
    | nil => simp [needed_loop] at h; simp [needed_picks, h]
    | cons e es => simp [needed_loop] at h
  | succ n ih =>
    cases needed with
    | nil => simp [needed_loop] at h; simp [needed_picks, h]
    | cons e es =>
      unfold needed_loop at h
      unfold needed_picks
      split at h
      · exact absurd h (by simp)
      · rename_i best hbest
        simp only [hbest, List.foldl_cons]
        exact ih _ _ h

theorem mem_foldl_insert (picks : List PaletteGroup) (d : PaletteGroups) (x : PaletteGroup) :
    x ∈ picks.foldl (fun s g => PaletteGroups.insert g s) d ↔ x ∈ d ∨ x ∈ picks := by
  induction picks generalizing d with
  | nil => simp
  | cons g gs ih =>
    simp only [List.foldl_cons, ih, PaletteGroups.mem_insert, List.mem_cons]
    tauto

theorem foldl_insert_sorted (picks : List PaletteGroup) (d : PaletteGroups)
    (hd : GroupSorted d) :
    GroupSorted (picks.foldl (fun s g => PaletteGroups.insert g s) d) := by
  induction picks generalizing d with
  | nil => simpa using hd
  | cons g gs ih =>
    simp only [List.foldl_cons]
    exact ih _ (PaletteGroups.insert_sorted g d hd)

/-- Every egg file of the needed list is satisfied by one of the picks. -/
theorem needed_loop_cover (tbl : GroupTable) (fuel : Nat) (needed : WorkingEggs)
    (d d' : PaletteGroups) (h : needed_loop tbl fuel needed d = .finished d') :
    ∀ e ∈ needed, ∃ g, g ∈ e.complete_groups ∧ g ∈ d' := by
  induction fuel generalizing needed d with
  | zero =>
    cases needed with
    | nil => simp
    | cons e es => simp [needed_loop] at h
  | succ n ih =>
    cases needed with
    | nil => simp
    | cons e es =>
      unfold needed_loop at h
      split at h
      · exact absurd h (by simp)
      · rename_i best hbest
        intro e' he'
        by_cases hb : best ∈ e'.complete_groups
        · refine ⟨best, hb, ?_⟩
          rw [needed_loop_eq_picks tbl _ _ _ _ h, mem_foldl_insert]
          exact Or.inl ((PaletteGroups.mem_insert _ _ _).2 (Or.inl rfl))
        · exact ih _ _ h e' ((mem_next_needed_eggs e' _ _).2 ⟨he', hb⟩)

/-- Each pick satisfies an egg file of the needed list that no earlier pick
satisfies. -/
theorem needed_picks_fresh (tbl : GroupTable) (fuel : Nat) (needed : WorkingEggs)
    (p1 p2 : List PaletteGroup) (g : PaletteGroup)
    (h : needed_picks tbl fuel needed = p1 ++ g :: p2) :
    ∃ e ∈ needed, g ∈ e.complete_groups ∧ ∀ x ∈ p1, x ∉ e.complete_groups := by
  induction fuel generalizing needed p1 with
  | zero =>
    cases needed with
    | nil => simp [needed_picks] at h
    | cons e es => simp [needed_picks] at h
  | succ n ih =>
    cases needed with
    | nil => simp [needed_picks] at h
    | cons e es =>
      unfold needed_picks at h
      split at h
      · simp at h
      · rename_i best hbest
        cases p1 with
        | nil =>
          simp only [List.nil_append, List.cons.injEq] at h
          obtain ⟨e', he', hb⟩ := best_group_mem tbl _ _ hbest
          exact ⟨e', he', h.1 ▸ hb, by simp⟩
        | cons x p1' =>
          simp only [List.cons_append, List.cons.injEq] at h
          obtain ⟨e', he', hg, hfresh⟩ := ih _ p1' h.2
          have hmem := (mem_next_needed_eggs e' _ _).1 he'
          refine ⟨e', hmem.1, hg, ?_⟩
          intro y hy
          rcases List.mem_cons.1 hy with rfl | hy
          · rw [← h.1]; exact hmem.2
          · exact hfresh y hy

/-! ## The explicit pass -/

theorem explicit_pass_needed (ex : PaletteGroups) (eggs : List EggFile) (d : PaletteGroups)
    (n : WorkingEggs) (e : EggFile) :
    e ∈ (explicit_pass ex eggs d n).2 ↔
      e ∈ n ∨ (e ∈ eggs ∧ PaletteGroups.make_intersection ex e.complete_groups = []) := by
  induction eggs generalizing d n with
  | nil => simp [explicit_pass]
  | cons e' es ih =>
    unfold explicit_pass
    split
    · rename_i g gs hi
      rw [ih]
      constructor
      · rintro (h | ⟨h1, h2⟩)
        · exact Or.inl h
        · exact Or.inr ⟨List.mem_cons_of_mem _ h1, h2⟩
      · rintro (h | ⟨h1, h2⟩)
        · exact Or.inl h
        · rcases List.mem_cons.1 h1 with rfl | h1
          · rw [hi] at h2; exact absurd h2 (by simp)
          · exact Or.inr ⟨h1, h2⟩
    · rename_i hi
      rw [ih]
      simp only [List.mem_append, List.mem_singleton, List.mem_cons]
      constructor
      · rintro ((h | rfl | h) | ⟨h1, h2⟩)
        · exact Or.inl h
        · exact Or.inr ⟨Or.inl rfl, hi⟩
        · exact absurd h (List.not_mem_nil _)
        · exact Or.inr ⟨Or.inr h1, h2⟩
      · rintro (h | ⟨rfl | h1, h2⟩)
        · exact Or.inl (Or.inl h)
        · exact Or.inl (Or.inr (Or.inl rfl))
        · exact Or.inr ⟨h1, h2⟩

theorem explicit_pass_in (ex : PaletteGroups) (eggs : List EggFile) (d : PaletteGroups)
    (n : WorkingEggs) (g : PaletteGroup) :
    g ∈ (explicit_pass ex eggs d n).1 ↔
      g ∈ d ∨ ∃ e ∈ eggs,
        (PaletteGroups.make_intersection ex e.complete_groups).head? = some g := by
  induction eggs generalizing d n with
  | nil => simp [explicit_pass]
  | cons e' es ih =>
    unfold explicit_pass
    split
    · rename_i g' gs hi
      rw [ih, PaletteGroups.mem_insert]
      constructor
      · rintro ((rfl | h) | ⟨e, he, h⟩)
        · exact Or.inr ⟨e', List.mem_cons_self _ _, by rw [hi]; rfl⟩
        · exact Or.inl h
        · exact Or.inr ⟨e, List.mem_cons_of_mem _ he, h⟩
      · rintro (h | ⟨e, he, h⟩)
        · exact Or.inl (Or.inr h)
        · rcases List.mem_cons.1 he with rfl | he
          · rw [hi] at h
            simp only [List.head?_cons, Option.some.injEq] at h
            exact Or.inl (Or.inl h.symm)
          · exact Or.inr ⟨e, he, h⟩
    · rename_i hi
      rw [ih]
      constructor
      · rintro (h | ⟨e, he, h⟩)
        · exact Or.inl h
        · exact Or.inr ⟨e, List.mem_cons_of_mem _ he, h⟩
      · rintro (h | ⟨e, he, h⟩)
        · exact Or.inl h
        · rcases List.mem_cons.1 he with rfl | he
          · rw [hi] at h; simp at h
          · exact Or.inr ⟨e, he, h⟩

theorem explicit_pass_sorted (ex : PaletteGroups) (eggs : List EggFile) (d : PaletteGroups)
    (n : WorkingEggs) (hd : GroupSorted d) : GroupSorted (explicit_pass ex eggs d n).1 := by
  induction eggs generalizing d n with
  | nil => simpa [explicit_pass] using hd
  | cons e' es ih =>
    unfold explicit_pass
    split
    · exact ih _ _ (PaletteGroups.insert_sorted _ _ hd)
    · exact ih _ _ hd

theorem head?_mem_of_eq {α : Type} (l : List α) (a : α) (h : l.head? = some a) : a ∈ l := by
  cases l with
  | nil => simp at h
  | cons x xs =>
    simp only [List.head?_cons, Option.some.injEq] at h
    rw [h]; exact List.mem_cons_self _ _

/-- Every egg file is either needed or already satisfied by `definitely_in`. -/
theorem initial_needed_cover {Filename : Type} (t : TextureImage Filename) :
    ∀ e ∈ t._egg_files,
      e ∈ (initial_needed t).2 ∨ ∃ g, g ∈ e.complete_groups ∧ g ∈ (initial_needed t).1 := by
  intro e he
  unfold initial_needed
  split_ifs with hex
  · exact Or.inl he
  · cases hi : PaletteGroups.make_intersection t._explicitly_assigned_groups e.complete_groups with
    | nil => exact Or.inl ((explicit_pass_needed _ _ _ _ _).2 (Or.inr ⟨he, hi⟩))
    | cons g gs =>
      right
      refine ⟨g, ?_, (explicit_pass_in _ _ _ _ _).2 (Or.inr ⟨e, he, by rw [hi]; rfl⟩)⟩
      have hg : g ∈ PaletteGroups.make_intersection t._explicitly_assigned_groups
          e.complete_groups := by rw [hi]; exact List.mem_cons_self _ _
      exact ((PaletteGroups.mem_make_intersection _ _ _).1 hg).2

/-- A needed egg file references the texture and has no group in common with the
start value of `definitely_in`. -/
theorem initial_needed_fresh {Filename : Type} (t : TextureImage Filename) :
    ∀ e ∈ (initial_needed t).2,
      e ∈ t._egg_files ∧ ∀ g ∈ (initial_needed t).1, g ∉ e.complete_groups := by
  intro e he
  unfold initial_needed at he ⊢
  split_ifs at he ⊢ with hex
  · exact ⟨he, by simp⟩
  · rcases (explicit_pass_needed _ _ _ _ _).1 he with h | ⟨h1, h2⟩
    · simp at h
    · refine ⟨h1, ?_⟩
      intro g hg hge
      rcases (explicit_pass_in _ _ _ _ _).1 hg with h | ⟨e', _, h⟩
      · simp at h
      · have hm := head?_mem_of_eq _ _ h
        have hgex := ((PaletteGroups.mem_make_intersection _ _ _).1 hm).1
        have : g ∈ PaletteGroups.make_intersection t._explicitly_assigned_groups
            e.complete_groups := (PaletteGroups.mem_make_intersection _ _ _).2 ⟨hgex, hge⟩
        rw [h2] at this
        exact List.not_mem_nil _ this

/-- Each group of the start value of `definitely_in` is the first explicit group
in the complete groups of some referencing egg file. -/
theorem initial_needed_first {Filename : Type} (t : TextureImage Filename) :
    ∀ g ∈ (initial_needed t).1, ∃ e ∈ t._egg_files,
      (PaletteGroups.make_intersection t._explicitly_assigned_groups
        e.complete_groups).head? = some g := by
  intro g hg
  unfold initial_needed at hg
  split_ifs at hg with hex
  · simp at hg
  · rcases (explicit_pass_in _ _ _ _ _).1 hg with h | h
    · simp at h
    · exact h

theorem initial_needed_sorted {Filename : Type} (t : TextureImage Filename) :
    GroupSorted (initial_needed t).1 := by
  unfold initial_needed
  split_ifs
  · simp [GroupSorted]
  · exact explicit_pass_sorted _ _ _ _ (by simp [GroupSorted])

/-! ## The walk of `assign_to_groups` -/

theorem assign_walk_at_keys (prepare : PaletteGroup → TexturePlacement) (a : PaletteGroup)
    (gi : PaletteGroups) (rest : Placement → Reconciled)
    (hrest : ∀ pl, (rest pl).new_placement.map Prod.fst = gi) (pl : Placement) :
    (assign_walk_at prepare a rest pl).new_placement.map Prod.fst = a :: gi := by
  induction pl with
  | nil => simp [assign_walk_at, hrest]
  | cons bp pi ih =>
    obtain ⟨b, place⟩ := bp
    unfold assign_walk_at
    split_ifs with h1 h2
    · simp [hrest]
    · simpa using ih
    · simp [hrest]

/-- The keys of the new placement map are the groups assigned to. -/
theorem assign_walk_keys (prepare : PaletteGroup → TexturePlacement) (groups : PaletteGroups)
    (pl : Placement) : (assign_walk prepare groups pl).new_placement.map Prod.fst = groups := by
  induction groups generalizing pl with
  | nil => simp [assign_walk]
  | cons a gi ih =>
    unfold assign_walk
    exact assign_walk_at_keys prepare a gi _ ih pl

/-- On a placement map whose keys are already the groups, the walk keeps every
placement, prepares no group and deletes nothing. -/
theorem assign_walk_same (prepare : PaletteGroup → TexturePlacement) (groups : PaletteGroups)
    (pl : Placement) (h : pl.map Prod.fst = groups) :
    assign_walk prepare groups pl = { new_placement := pl, prepared := [], deleted := [] } := by
  induction groups generalizing pl with
  | nil =>
    have : pl = [] := by simpa using h
    subst this
    simp [assign_walk]
  | cons a gi ih =>
    cases pl with
    | nil => simp at h
    | cons bp pi =>
      obtain ⟨b, place⟩ := bp
      simp only [List.map_cons, List.cons.injEq] at h
      obtain ⟨rfl, h2⟩ := h
      unfold assign_walk
      unfold assign_walk_at
      simp [ih pi h2]

theorem get_placement_isSome {Filename : Type} (t : TextureImage Filename)
    (g : PaletteGroup) :
    (get_placement t g).isSome ↔ g ∈ t._placement.map Prod.fst := by
  unfold get_placement
  cases hf : t._placement.find? (fun e => e.1 == g) with
  | none =>
    simp only [Option.isSome_none, Bool.false_eq_true, false_iff, List.mem_map, not_exists,
      not_and]
    intro e he heq
    have := List.find?_eq_none.1 hf e he
    simp [heq] at this
  | some e =>
    simp only [Option.isSome_some, true_iff, List.mem_map]
    have h1 := List.find?_some hf
    have h2 := List.mem_of_find?_eq_some hf
    exact ⟨e, h2, by simpa using h1⟩

/-! ## `assign_groups` as a whole -/

/-- The call `assign_groups()` always returns: one round per needed egg file is
enough for the main loop. -/
theorem assign_groups_returns {Filename : Type} (tbl : GroupTable)
    (prepare : PaletteGroup → TexturePlacement) (t : TextureImage Filename) :
    ∃ r, assign_groups tbl prepare t = some r := by
  unfold assign_groups
  split_ifs with h
  · exact ⟨_, rfl⟩
  · simp only
    split
    · exact ⟨_, rfl⟩
    · exact ⟨_, rfl⟩
    · rename_i hout
      exact absurd hout (needed_loop_ne_out_of_fuel tbl _ _ _ (le_refl _))

/-- With an egg file and non-empty complete groups everywhere, `assign_groups()`
reaches `assign_to_groups` with the set the main loop finished with. -/
theorem assign_groups_finished {Filename : Type} (tbl : GroupTable)
    (prepare : PaletteGroup → TexturePlacement) (t : TextureImage Filename)
    (hne : t._egg_files ≠ []) (hcg : ∀ e ∈ t._egg_files, e.complete_groups ≠ []) :
    ∃ d, needed_loop tbl (initial_needed t).2.length (initial_needed t).2
        (initial_needed t).1 = .finished d ∧
      assign_groups tbl prepare t = some (assign_to_groups prepare t d) := by
  have hemp : t._egg_files.isEmpty = false := by
    cases hl : t._egg_files with
    | nil => exact absurd hl hne
    | cons a l => rfl
  unfold assign_groups
  simp only [hemp, Bool.false_eq_true, if_false]
  cases hloop : needed_loop tbl (initial_needed t).2.length (initial_needed t).2
      (initial_needed t).1 with
  | finished d => exact ⟨d, rfl, rfl⟩
  | assertion_failed =>
    exact absurd hloop (needed_loop_ne_assertion_failed tbl _ _ _
      (fun e he => hcg e ((initial_needed_fresh t e he).1)))
  | out_of_fuel => exact absurd hloop (needed_loop_ne_out_of_fuel tbl _ _ _ (le_refl _))

theorem assign_groups_of_no_eggs {Filename : Type} (tbl : GroupTable)
    (prepare : PaletteGroup → TexturePlacement) (t : TextureImage Filename)
    (h : t._egg_files = []) :
    assign_groups tbl prepare t = some (assign_to_groups prepare t []) := by
  unfold assign_groups
  simp [h]

theorem initial_needed_congr {Filename : Type} (t t' : TextureImage Filename)
    (h1 : t'._egg_files = t._egg_files)
    (h2 : t'._explicitly_assigned_groups = t._explicitly_assigned_groups) :
    initial_needed t' = initial_needed t := by
  unfold initial_needed
  rw [h1, h2]

/-- The outcome of `assign_groups()` depends on the texture only through its egg
files, its explicit assignments and, in `assign_to_groups`, its placement map. -/
theorem assign_groups_cases {Filename : Type} (tbl : GroupTable)
    (prepare : PaletteGroup → TexturePlacement) (t : TextureImage Filename) :
    (∃ d, ∀ t' : TextureImage Filename, t'._egg_files = t._egg_files →
        t'._explicitly_assigned_groups = t._explicitly_assigned_groups →
        assign_groups tbl prepare t' = some (assign_to_groups prepare t' d)) ∨
    (∀ t' : TextureImage Filename, t'._egg_files = t._egg_files →
        t'._explicitly_assigned_groups = t._explicitly_assigned_groups →
        assign_groups tbl prepare t' =
          some { texture := t', prepared := [], deleted := [], assertion_failed := true }) := by
  by_cases hE : t._egg_files = []
  · left
    refine ⟨[], fun t' h1 _ => assign_groups_of_no_eggs tbl prepare t' (h1.trans hE)⟩
  · have hemp : ∀ t' : TextureImage Filename, t'._egg_files = t._egg_files →
        t'._egg_files.isEmpty = false := by
      intro t' h1
      rw [h1]
      cases hl : t._egg_files with
      | nil => exact absurd hl hE
      | cons a l => rfl
    cases hloop : needed_loop tbl (initial_needed t).2.length (initial_needed t).2
        (initial_needed t).1 with
    | finished d =>
      left
      refine ⟨d, fun t' h1 h2 => ?_⟩
      unfold assign_groups
      simp only [hemp t' h1, Bool.false_eq_true, if_false]
      rw [initial_needed_congr t t' h1 h2, hloop]
    | assertion_failed =>
      right
      intro t' h1 h2
      unfold assign_groups
      simp only [hemp t' h1, Bool.false_eq_true, if_false]
      rw [initial_needed_congr t t' h1 h2, hloop]
    | out_of_fuel =>
      exact absurd hloop (needed_loop_ne_out_of_fuel tbl _ _ _ (le_refl _))

/-- A second `assign_to_groups` with the same groups keeps the placement map and
prepares and deletes nothing. -/
theorem assign_to_groups_again {Filename : Type} (prepare : PaletteGroup → TexturePlacement)
    (t : TextureImage Filename) (d : PaletteGroups) :
    (assign_to_groups prepare (assign_to_groups prepare t d).texture d).texture._placement =
        (assign_to_groups prepare t d).texture._placement ∧
      (assign_to_groups prepare (assign_to_groups prepare t d).texture d).prepared = [] ∧
      (assign_to_groups prepare (assign_to_groups prepare t d).texture d).deleted = [] := by
  have h := assign_walk_same prepare d (assign_walk prepare d t._placement).new_placement
    (assign_walk_keys prepare d t._placement)
  simp only [assign_to_groups, h, and_self]

/-- The set handed to `assign_to_groups` is in the strict order of a `std::set`,
the order the walk of `assign_to_groups` relies on. -/
theorem needed_loop_sorted {Filename : Type} (tbl : GroupTable) (t : TextureImage Filename)
    (d : PaletteGroups)
    (h : needed_loop tbl (initial_needed t).2.length (initial_needed t).2
      (initial_needed t).1 = .finished d) : GroupSorted d := by
  rw [needed_loop_eq_picks tbl _ _ _ _ h]
  exact foldl_insert_sorted _ _ (initial_needed_sorted t)

/-! ## The claims -/

/-- C1: with at least one referencing egg file and non-empty complete groups in
every referencing egg file, `assign_groups()` reaches `assign_to_groups` and
afterwards the complete groups of every referencing egg file have a group in
common with `get_groups()`, whatever the explicit assignments are. -/
theorem assign_groups_covers {Filename : Type} (tbl : GroupTable)
    (prepare : PaletteGroup → TexturePlacement) (t : TextureImage Filename)
    (hne : t._egg_files ≠ []) (hcg : ∀ e ∈ t._egg_files, e.complete_groups ≠ []) :
    ∃ r, assign_groups tbl prepare t = some r ∧ r.assertion_failed = false ∧
      ∀ e ∈ t._egg_files, ∃ g, g ∈ e.complete_groups ∧ g ∈ get_groups r.texture := by
  obtain ⟨d, hloop, hres⟩ := assign_groups_finished tbl prepare t hne hcg
  refine ⟨_, hres, rfl, ?_⟩
  intro e he
  show ∃ g, g ∈ e.complete_groups ∧ g ∈ d
  rcases initial_needed_cover t e he with hn | ⟨g, hg, hd⟩
  · exact needed_loop_cover tbl _ _ _ _ hloop e hn
  · refine ⟨g, hg, ?_⟩
    rw [needed_loop_eq_picks tbl _ _ _ _ hloop, mem_foldl_insert]
    exact Or.inl hd

theorem assign_groups_covers_witness :
    (mixed_texture._egg_files ≠ [] ∧
      ∀ e ∈ mixed_texture._egg_files, e.complete_groups ≠ []) ∧
    ∃ r, assign_groups example_table example_prepare mixed_texture = some r ∧
      r.assertion_failed = false ∧
      ∀ e ∈ mixed_texture._egg_files,
        ∃ g, g ∈ e.complete_groups ∧ g ∈ get_groups r.texture :=
  ⟨⟨by decide, by decide⟩,
    assign_groups_covers example_table example_prepare mixed_texture (by decide) (by decide)⟩

/-- C2 fails as stated: for `greedy_texture` the main loop picks group 1 (four
egg files), then groups 2 and 3 for the two egg files left, and group 1 can be
removed from the result {1, 2, 3} with every egg file still satisfied. -/
theorem assign_groups_redundant_group :
    (greedy_texture._egg_files ≠ [] ∧
      ∀ e ∈ greedy_texture._egg_files, e.complete_groups ≠ []) ∧
    ∃ r, assign_groups example_table example_prepare greedy_texture = some r ∧
      get_groups r.texture = [1, 2, 3] ∧
      ∃ g ∈ get_groups r.texture, ∀ e ∈ greedy_texture._egg_files,
        ∃ h ∈ e.complete_groups, h ∈ (get_groups r.texture).erase g :=
  ⟨⟨by decide, by decide⟩, _, rfl, rfl, 1, by decide, by decide⟩

/-- C2 as amended: the assigned set is the start set of the explicit pass with the
picks of the main loop inserted; every group of the start set is the first
explicit group in the complete groups of some referencing egg file; and every
pick of the main loop satisfies a referencing egg file that no group of the start
set and no earlier pick satisfies. -/
theorem assign_groups_cover_in_order {Filename : Type} (tbl : GroupTable)
    (prepare : PaletteGroup → TexturePlacement) (t : TextureImage Filename)
    (hne : t._egg_files ≠ []) (hcg : ∀ e ∈ t._egg_files, e.complete_groups ≠ []) :
    ∃ r, assign_groups tbl prepare t = some r ∧
      get_groups r.texture =
        (needed_picks tbl (initial_needed t).2.length (initial_needed t).2).foldl
          (fun s g => PaletteGroups.insert g s) (initial_needed t).1 ∧
      (∀ g ∈ (initial_needed t).1, ∃ e ∈ t._egg_files,
        (PaletteGroups.make_intersection t._explicitly_assigned_groups
          e.complete_groups).head? = some g) ∧
      ∀ p1 g p2,
        needed_picks tbl (initial_needed t).2.length (initial_needed t).2 = p1 ++ g :: p2 →
        ∃ e ∈ t._egg_files, g ∈ e.complete_groups ∧
          (∀ x ∈ (initial_needed t).1, x ∉ e.complete_groups) ∧
          ∀ x ∈ p1, x ∉ e.complete_groups := by
  obtain ⟨d, hloop, hres⟩ := assign_groups_finished tbl prepare t hne hcg
  refine ⟨_, hres, needed_loop_eq_picks tbl _ _ _ _ hloop, initial_needed_first t, ?_⟩
  intro p1 g p2 hp
  obtain ⟨e, he, hg, hfresh⟩ := needed_picks_fresh tbl _ _ p1 p2 g hp
  have hin := initial_needed_fresh t e he
  exact ⟨e, hin.1, hg, hin.2, hfresh⟩

theorem assign_groups_cover_in_order_witness :
    (greedy_texture._egg_files ≠ [] ∧
      ∀ e ∈ greedy_texture._egg_files, e.complete_groups ≠ []) ∧
    ∃ r, assign_groups example_table example_prepare greedy_texture = some r ∧
      get_groups r.texture =
        (needed_picks example_table (initial_needed greedy_texture).2.length
          (initial_needed greedy_texture).2).foldl
          (fun s g => PaletteGroups.insert g s) (initial_needed greedy_texture).1 ∧
      (∀ g ∈ (initial_needed greedy_texture).1, ∃ e ∈ greedy_texture._egg_files,
        (PaletteGroups.make_intersection greedy_texture._explicitly_assigned_groups
          e.complete_groups).head? = some g) ∧
      ∀ p1 g p2,
        needed_picks example_table (initial_needed greedy_texture).2.length
          (initial_needed greedy_texture).2 = p1 ++ g :: p2 →
        ∃ e ∈ greedy_texture._egg_files, g ∈ e.complete_groups ∧
          (∀ x ∈ (initial_needed greedy_texture).1, x ∉ e.complete_groups) ∧
          ∀ x ∈ p1, x ∉ e.complete_groups :=
  ⟨⟨by decide, by decide⟩,
    assign_groups_cover_in_order example_table example_prepare greedy_texture
      (by decide) (by decide)⟩

/-- C3: a second `assign_groups()` with the same egg files, explicit assignments,
dependency levels and egg counts leaves `_actual_assigned_groups` and the
placement map as the first call left them, calls `prepare` on no group and
deletes no placement. -/
theorem assign_groups_twice {Filename : Type} (tbl : GroupTable)
    (prepare : PaletteGroup → TexturePlacement) (t : TextureImage Filename) :
    ∃ r1 r2, assign_groups tbl prepare t = some r1 ∧
      assign_groups tbl prepare r1.texture = some r2 ∧
      get_groups r2.texture = get_groups r1.texture ∧
      r2.texture._placement = r1.texture._placement ∧
      r2.prepared = [] ∧ r2.deleted = [] := by
  rcases assign_groups_cases tbl prepare t with ⟨d, h⟩ | h
  · have hagain := assign_to_groups_again prepare t d
    exact ⟨_, _, h t rfl rfl, h (assign_to_groups prepare t d).texture rfl rfl, rfl,
      hagain.1, hagain.2.1, hagain.2.2⟩
  · exact ⟨_, _, h t rfl rfl, h t rfl rfl, rfl, rfl, rfl, rfl⟩

theorem make_intersection_single (G : PaletteGroup) (cg : PaletteGroups) (h : G ∈ cg) :
    PaletteGroups.make_intersection [G] cg = [G] := by
  simp [PaletteGroups.make_intersection, h]

theorem explicit_pass_single (G : PaletteGroup) (eggs : List EggFile)
    (hall : ∀ e ∈ eggs, G ∈ e.complete_groups) (d : PaletteGroups) (n : WorkingEggs)
    (hd : d = [] ∨ d = [G]) (hne : eggs ≠ []) :
    explicit_pass [G] eggs d n = ([G], n) := by
  induction eggs generalizing d with
  | nil => exact absurd rfl hne
  | cons e es ih =>
    have he : G ∈ e.complete_groups := hall e (List.mem_cons_self _ _)
    have hins : PaletteGroups.insert G d = [G] := by
      rcases hd with rfl | rfl <;> simp [PaletteGroups.insert]
    unfold explicit_pass
    rw [make_intersection_single G _ he]
    simp only [hins]
    cases es with
    | nil => simp [explicit_pass]
    | cons e' es' =>
      exact ih (fun x hx => hall x (List.mem_cons_of_mem _ hx)) [G] (Or.inr rfl) (by simp)

/-- C4 (Scenario B): a texture explicitly assigned to exactly {G3}, referenced by
at least one egg file, every referencing egg file having G3 in its complete
groups, is assigned to exactly {G3}. -/
theorem assign_groups_scenario_b {Filename : Type} (tbl : GroupTable)
    (prepare : PaletteGroup → TexturePlacement) (t : TextureImage Filename)
    (G3 : PaletteGroup) (hex : t._explicitly_assigned_groups = [G3])
    (hne : t._egg_files ≠ []) (hall : ∀ e ∈ t._egg_files, G3 ∈ e.complete_groups) :
    ∃ r, assign_groups tbl prepare t = some r ∧ r.assertion_failed = false ∧
      get_groups r.texture = [G3] := by
  have hstart : initial_needed t = ([G3], []) := by
    unfold initial_needed
    rw [hex]
    simp only [List.isEmpty_cons, Bool.false_eq_true, if_false]
    exact explicit_pass_single G3 _ hall [] [] (Or.inl rfl) hne
  have hemp : t._egg_files.isEmpty = false := by
    cases hl : t._egg_files with
    | nil => exact absurd hl hne
    | cons a l => rfl
  refine ⟨assign_to_groups prepare t [G3], ?_, rfl, rfl⟩
  unfold assign_groups
  simp only [hemp, Bool.false_eq_true, if_false, hstart, List.length_nil, needed_loop]

theorem assign_groups_scenario_b_witness :
    (scenario_b_texture._explicitly_assigned_groups = [3] ∧
      scenario_b_texture._egg_files ≠ [] ∧
      ∀ e ∈ scenario_b_texture._egg_files, 3 ∈ e.complete_groups) ∧
    ∃ r, assign_groups example_table example_prepare scenario_b_texture = some r ∧
      r.assertion_failed = false ∧ get_groups r.texture = [3] :=
  ⟨⟨by decide, by decide, by decide⟩,
    assign_groups_scenario_b example_table example_prepare scenario_b_texture 3
      (by decide) (by decide) (by decide)⟩

/-- C5 fails as stated: in Scenario A with group 1 of the lower dependency level
the texture is assigned to both groups, {1, 2}, not to group 1 alone. -/
theorem assign_groups_scenario_a_two_groups :
    (example_table.get_dependency_level 1 < example_table.get_dependency_level 2) ∧
    ∃ r, assign_groups example_table example_prepare scenario_a_texture = some r ∧
      get_groups r.texture = [1, 2] ∧ get_groups r.texture ≠ [1] ∧
      (get_groups r.texture).length ≠ 1 :=
  ⟨by decide, _, rfl, rfl, by decide, by decide⟩


theorem insert_pair (a b : PaletteGroup) (hab : a ≠ b) :
    PaletteGroups.insert b [a] = [min a b, max a b] := by
  rcases Nat.lt_or_gt_of_ne hab with h | h
  · have hn : ¬ b < a := not_lt.2 (le_of_lt h)
    simp [PaletteGroups.insert, hn, h, min_eq_left (le_of_lt h), max_eq_right (le_of_lt h)]
  · simp [PaletteGroups.insert, h, min_eq_right (le_of_lt h), max_eq_left (le_of_lt h)]

theorem total_groups_pair (a b : PaletteGroup) (hab : a ≠ b) :
    total_groups [⟨[a]⟩, ⟨[b]⟩] = [min a b, max a b] := by
  unfold total_groups
  simp only [List.foldl_cons, List.foldl_nil, PaletteGroups.make_union]
  exact insert_pair a b hab

theorem compute_egg_count_pair (a b : PaletteGroup) (hab : a ≠ b) :
    compute_egg_count a [⟨[a]⟩, ⟨[b]⟩] = 1 ∧ compute_egg_count b [⟨[a]⟩, ⟨[b]⟩] = 1 := by
  simp [compute_egg_count, PaletteGroups.count, hab, Ne.symm hab]

theorem next_needed_eggs_pair (a b : PaletteGroup) (hab : a ≠ b) :
    next_needed_eggs a [⟨[a]⟩, ⟨[b]⟩] = [⟨[b]⟩] ∧
      next_needed_eggs b [⟨[a]⟩, ⟨[b]⟩] = [⟨[a]⟩] := by
  simp [next_needed_eggs, PaletteGroups.count, hab, Ne.symm hab]

theorem best_group_single (tbl : GroupTable) (a : PaletteGroup) :
    best_group tbl [⟨[a]⟩] = some a ∧ next_needed_eggs a [⟨[a]⟩] = [] := by
  simp [best_group, total_groups, PaletteGroups.make_union, PaletteGroups.insert, scan_best,
    next_needed_eggs, PaletteGroups.count]


theorem prefer_group_same_count (tbl : GroupTable) (g b : PaletteGroup) (c : Nat) :
    (prefer_group tbl g c b c = true →
      tbl.get_dependency_level g ≤ tbl.get_dependency_level b ∧
      (tbl.get_dependency_level g = tbl.get_dependency_level b →
        tbl.get_egg_count g ≤ tbl.get_egg_count b)) ∧
    (prefer_group tbl g c b c = false →
      tbl.get_dependency_level b ≤ tbl.get_dependency_level g ∧
      (tbl.get_dependency_level b = tbl.get_dependency_level g →
        tbl.get_egg_count b ≤ tbl.get_egg_count g)) := by
  unfold prefer_group
  simp only [ne_eq, not_true_eq_false, if_false]
  split_ifs with hd
  · simp only [decide_eq_true_eq, decide_eq_false_iff_not, not_lt]
    constructor
    · intro h
      exact ⟨le_of_eq hd, fun _ => le_of_lt h⟩
    · intro h
      exact ⟨le_of_eq hd.symm, fun _ => h⟩
  · simp only [decide_eq_true_eq, decide_eq_false_iff_not, not_lt]
    constructor
    · intro h
      exact ⟨le_of_lt h, fun heq => absurd heq hd⟩
    · intro h
      exact ⟨h, fun heq => absurd heq.symm hd⟩

theorem best_group_pair (tbl : GroupTable) (a b : PaletteGroup) (hab : a ≠ b) :
    best_group tbl [⟨[a]⟩, ⟨[b]⟩] =
      some (if prefer_group tbl (max a b) 1 (min a b) 1 then max a b else min a b) := by
  have hc := compute_egg_count_pair a b hab
  have hmin : compute_egg_count (min a b) [⟨[a]⟩, ⟨[b]⟩] = 1 := by
    rcases min_choice a b with h | h <;> rw [h]
    · exact hc.1
    · exact hc.2
  have hmax : compute_egg_count (max a b) [⟨[a]⟩, ⟨[b]⟩] = 1 := by
    rcases max_choice a b with h | h <;> rw [h]
    · exact hc.1
    · exact hc.2
  unfold best_group
  rw [total_groups_pair a b hab]
  simp only [scan_best, hmin, hmax]

theorem assign_groups_scenario_a {Filename : Type} (tbl : GroupTable)
    (prepare : PaletteGroup → TexturePlacement) (t : TextureImage Filename)
    (G1 G2 : PaletteGroup) (hex : t._explicitly_assigned_groups = [])
    (heggs : t._egg_files = [⟨[G1]⟩, ⟨[G2]⟩]) (hne : G1 ≠ G2) :
    ∃ r, assign_groups tbl prepare t = some r ∧ r.assertion_failed = false ∧
      get_groups r.texture = [min G1 G2, max G1 G2] ∧
      ∃ p q, ((p = G1 ∧ q = G2) ∨ (p = G2 ∧ q = G1)) ∧
        needed_picks tbl 2 t._egg_files = [p, q] ∧
        tbl.get_dependency_level p ≤ tbl.get_dependency_level q ∧
        (tbl.get_dependency_level p = tbl.get_dependency_level q →
          tbl.get_egg_count p ≤ tbl.get_egg_count q) := by
  have hstart : initial_needed t = ([], [⟨[G1]⟩, ⟨[G2]⟩]) := by
    unfold initial_needed
    rw [hex, heggs]
    rfl
  have hemp : t._egg_files.isEmpty = false := by rw [heggs]; rfl
  -- the first round picks `p`, the second the other group `q`
  have hround : ∀ p q, ((p = G1 ∧ q = G2) ∨ (p = G2 ∧ q = G1)) →
      best_group tbl [⟨[G1]⟩, ⟨[G2]⟩] = some p →
      assign_groups tbl prepare t = some (assign_to_groups prepare t [min G1 G2, max G1 G2]) ∧
        needed_picks tbl 2 t._egg_files = [p, q] := by
    intro p q hpq hbest
    have hnext : next_needed_eggs p [⟨[G1]⟩, ⟨[G2]⟩] = [⟨[q]⟩] := by
      rcases hpq with ⟨rfl, rfl⟩ | ⟨rfl, rfl⟩
      · exact (next_needed_eggs_pair _ _ hne).1
      · exact (next_needed_eggs_pair _ _ hne).2
    have hins : PaletteGroups.insert q [p] = [min G1 G2, max G1 G2] := by
      rcases hpq with ⟨rfl, rfl⟩ | ⟨rfl, rfl⟩
      · exact insert_pair _ _ hne
      · rw [insert_pair _ _ (Ne.symm hne), min_comm, max_comm]
    constructor
    · unfold assign_groups
      simp only [hemp, Bool.false_eq_true, if_false, hstart, List.length_cons, List.length_nil]
      simp only [needed_loop, hbest, hnext, (best_group_single tbl q).1,
        (best_group_single tbl q).2]
      rw [show PaletteGroups.insert p [] = [p] from rfl, hins]
    · rw [heggs]
      simp only [needed_picks, hbest, hnext, (best_group_single tbl q).1,
        (best_group_single tbl q).2]
  have hbest := best_group_pair tbl G1 G2 hne
  have hpref := prefer_group_same_count tbl (max G1 G2) (min G1 G2) 1
  have horder : (min G1 G2 = G1 ∧ max G1 G2 = G2) ∨ (min G1 G2 = G2 ∧ max G1 G2 = G1) := by
    rcases Nat.lt_or_gt_of_ne hne with h | h
    · exact Or.inl ⟨min_eq_left (le_of_lt h), max_eq_right (le_of_lt h)⟩
    · exact Or.inr ⟨min_eq_right (le_of_lt h), max_eq_left (le_of_lt h)⟩
  cases hp : prefer_group tbl (max G1 G2) 1 (min G1 G2) 1 with
  | true =>
    rw [hp] at hbest
    simp only [if_true] at hbest
    have hr := hround (max G1 G2) (min G1 G2)
      (by rcases horder with ⟨h1, h2⟩ | ⟨h1, h2⟩
          · exact Or.inr ⟨h2, h1⟩
          · exact Or.inl ⟨h2, h1⟩) hbest
    exact ⟨_, hr.1, rfl, rfl, max G1 G2, min G1 G2,
      (by rcases horder with ⟨h1, h2⟩ | ⟨h1, h2⟩
          · exact Or.inr ⟨h2, h1⟩
          · exact Or.inl ⟨h2, h1⟩), hr.2, (hpref.1 hp).1, (hpref.1 hp).2⟩
  | false =>
    rw [hp] at hbest
    simp only [Bool.false_eq_true, if_false] at hbest
    have hr := hround (min G1 G2) (max G1 G2)
      (by rcases horder with ⟨h1, h2⟩ | ⟨h1, h2⟩
          · exact Or.inl ⟨h1, h2⟩
          · exact Or.inr ⟨h1, h2⟩) hbest
    exact ⟨_, hr.1, rfl, rfl, min G1 G2, max G1 G2,
      (by rcases horder with ⟨h1, h2⟩ | ⟨h1, h2⟩
          · exact Or.inl ⟨h1, h2⟩
          · exact Or.inr ⟨h1, h2⟩), hr.2, (hpref.2 hp).1, (hpref.2 hp).2⟩

theorem assign_groups_scenario_a_witness :
    (scenario_a_texture._explicitly_assigned_groups = [] ∧
      scenario_a_texture._egg_files = [⟨[1]⟩, ⟨[2]⟩] ∧ (1 : PaletteGroup) ≠ 2) ∧
    ∃ r, assign_groups example_table example_prepare scenario_a_texture = some r ∧
      r.assertion_failed = false ∧
      get_groups r.texture = [min 1 2, max 1 2] ∧
      ∃ p q, ((p = 1 ∧ q = 2) ∨ (p = 2 ∧ q = 1)) ∧
        needed_picks example_table 2 scenario_a_texture._egg_files = [p, q] ∧
        example_table.get_dependency_level p ≤ example_table.get_dependency_level q ∧
        (example_table.get_dependency_level p = example_table.get_dependency_level q →
          example_table.get_egg_count p ≤ example_table.get_egg_count q) :=
  ⟨⟨by decide, by decide, by decide⟩,
    assign_groups_scenario_a example_table example_prepare scenario_a_texture 1 2
      (by decide) (by decide) (by decide)⟩

/-- C6: with no referencing egg file `assign_groups()` leaves `get_groups()` and
the placement map empty, deletes every placement held before and calls `prepare`
on no group, whatever the explicit assignments and previous placements were. -/
theorem assign_groups_unreferenced {Filename : Type} (tbl : GroupTable)
    (prepare : PaletteGroup → TexturePlacement) (t : TextureImage Filename)
    (h : t._egg_files = []) :
    ∃ r, assign_groups tbl prepare t = some r ∧ r.assertion_failed = false ∧
      get_groups r.texture = [] ∧ r.texture._placement = [] ∧
      (∀ g, get_placement r.texture g = none) ∧
      r.deleted = t._placement.map Prod.snd ∧ r.prepared = [] :=
  ⟨_, assign_groups_of_no_eggs tbl prepare t h, rfl, rfl, rfl, fun _ => rfl, rfl, rfl⟩

theorem assign_groups_unreferenced_witness :
    unreferenced_texture._egg_files = [] ∧
    ∃ r, assign_groups example_table example_prepare unreferenced_texture = some r ∧
      r.assertion_failed = false ∧
      get_groups r.texture = [] ∧ r.texture._placement = [] ∧
      (∀ g, get_placement r.texture g = none) ∧
      r.deleted = unreferenced_texture._placement.map Prod.snd ∧ r.prepared = [] :=
  ⟨by decide,
    assign_groups_unreferenced example_table example_prepare unreferenced_texture (by decide)⟩

/-- C7: after `assign_to_groups(groups)`, for a group set in strict order, the keys
of the placement map are `groups`, which is also `_actual_assigned_groups`;
`get_placement(g)` is non-NULL exactly for the groups of `get_groups()`; and the
new map is strictly ordered by group. -/
theorem assign_to_groups_keys {Filename : Type} (prepare : PaletteGroup → TexturePlacement)
    (t : TextureImage Filename) (groups : PaletteGroups) (hg : GroupSorted groups) :
    (assign_to_groups prepare t groups).texture._placement.map Prod.fst = groups ∧
      (assign_to_groups prepare t groups).texture._actual_assigned_groups = groups ∧
      (∀ g, (get_placement (assign_to_groups prepare t groups).texture g).isSome ↔
        g ∈ get_groups (assign_to_groups prepare t groups).texture) ∧
      KeySorted (assign_to_groups prepare t groups).texture._placement := by
  have hkeys : (assign_to_groups prepare t groups).texture._placement.map Prod.fst = groups :=
    assign_walk_keys prepare groups t._placement
  refine ⟨hkeys, rfl, ?_, ?_⟩
  · intro g
    rw [get_placement_isSome, hkeys]
    rfl
  · unfold KeySorted
    unfold GroupSorted at hg
    rw [← hkeys, List.pairwise_map] at hg
    exact hg

theorem assign_to_groups_keys_witness :
    GroupSorted [2, 5, 8] ∧
    ((assign_to_groups example_prepare mixed_texture [2, 5, 8]).texture._placement.map
        Prod.fst = [2, 5, 8] ∧
      (assign_to_groups example_prepare mixed_texture [2, 5, 8]).texture._actual_assigned_groups
        = [2, 5, 8] ∧
      (∀ g, (get_placement (assign_to_groups example_prepare mixed_texture
          [2, 5, 8]).texture g).isSome ↔
        g ∈ get_groups (assign_to_groups example_prepare mixed_texture [2, 5, 8]).texture) ∧
      KeySorted (assign_to_groups example_prepare mixed_texture [2, 5, 8]).texture._placement) :=
  ⟨by unfold GroupSorted; decide,
    assign_to_groups_keys example_prepare mixed_texture [2, 5, 8]
      (by unfold GroupSorted; decide)⟩

/-! ## Destination differencing -/

theorem filter_not_mem_cons {Filename : Type} [LinearOrder Filename] (astr : Filename)
    (ks : List Filename) (l : Dests Filename) (h : ∀ e ∈ l, e.1 ≠ astr) :
    l.filter (fun e => decide (e.1 ∉ astr :: ks)) = l.filter (fun e => decide (e.1 ∉ ks)) := by
  apply List.filter_congr
  intro e he
  have := h e he
  simp [this]

theorem remove_old_at_eq {Filename : Type} [LinearOrder Filename] (astr : Filename)
    (adest : DestTextureImage Filename) (ai : Dests Filename)
    (ha : KeySorted ((astr, adest) :: ai))
    (rest : Dests Filename → List (DestAction Filename))
    (hrest : ∀ b, KeySorted b → rest b =
      (b.filter (fun e => decide (e.1 ∉ ai.map Prod.fst))).map (fun e => .unlink e.2))
    (b : Dests Filename) (hb : KeySorted b) :
    remove_old_at astr rest b =
      (b.filter (fun e => decide (e.1 ∉ ((astr, adest) :: ai).map Prod.fst))).map
        (fun e => .unlink e.2) := by
  unfold KeySorted at ha
  rw [List.pairwise_cons] at ha
  induction b with
  | nil => simp [remove_old_at]
  | cons be bi ih =>
    obtain ⟨bstr, bdest⟩ := be
    have hb' := hb
    unfold KeySorted at hb'
    rw [List.pairwise_cons] at hb'
    have hbi : KeySorted bi := hb'.2
    unfold remove_old_at
    simp only [List.map_cons]
    split_ifs with h1 h2
    · rw [hrest _ hb, filter_not_mem_cons]
      intro e he
      rcases List.mem_cons.1 he with rfl | he
      · exact ne_of_gt h1
      · exact ne_of_gt (lt_trans h1 (hb'.1 e he))
    · have ih' := ih hbi
      simp only [List.map_cons] at ih'
      rw [ih']
      have hnot : bstr ∉ astr :: ai.map Prod.fst := by
        intro hm
        rcases List.mem_cons.1 hm with h | h
        · exact absurd h (ne_of_lt h2)
        · obtain ⟨x, hx, hxk⟩ := List.mem_map.1 h
          have := ha.1 x hx
          rw [hxk] at this
          exact absurd (lt_trans h2 this) (lt_irrefl _)
      have hstep : List.filter (fun e : Filename × DestTextureImage Filename =>
            decide (e.1 ∉ astr :: ai.map Prod.fst)) ((bstr, bdest) :: bi) =
          (bstr, bdest) :: List.filter (fun e : Filename × DestTextureImage Filename =>
            decide (e.1 ∉ astr :: ai.map Prod.fst)) bi :=
        List.filter_cons_of_pos (decide_eq_true hnot)
      rw [hstep]
      rfl
    · have heq : astr = bstr := le_antisymm (not_lt.1 h2) (not_lt.1 h1)
      subst heq
      rw [hrest _ hbi]
      have hin : astr ∈ astr :: ai.map Prod.fst := List.mem_cons_self _ _
      have hstep : List.filter (fun e : Filename × DestTextureImage Filename =>
            decide (e.1 ∉ astr :: ai.map Prod.fst)) ((astr, bdest) :: bi) =
          List.filter (fun e : Filename × DestTextureImage Filename =>
            decide (e.1 ∉ astr :: ai.map Prod.fst)) bi :=
        List.filter_cons_of_neg (by simp)
      rw [hstep, filter_not_mem_cons]
      intro e he
      exact ne_of_gt (hb'.1 e he)

/-- C8: for key-sorted maps `a` and `b`, `remove_old_dests(a, b)` calls `unlink` on
the entries of `b` whose filename is not a key of `a`, once each and in the order
of `b`, and on nothing else: the deleted set is old minus new. -/
theorem remove_old_dests_difference {Filename : Type} [LinearOrder Filename]
    (a b : Dests Filename) (ha : KeySorted a) (hb : KeySorted b) :
    remove_old_dests a b =
      (b.filter (fun e => decide (e.1 ∉ a.map Prod.fst))).map (fun e => .unlink e.2) := by
  induction a generalizing b with
  | nil => simp [remove_old_dests]
  | cons ae ai ih =>
    obtain ⟨astr, adest⟩ := ae
    have hai : KeySorted ai := by
      unfold KeySorted at ha ⊢
      exact (List.pairwise_cons.1 ha).2
    unfold remove_old_dests
    exact remove_old_at_eq astr adest ai ha _ (fun b' hb' => ih b' hai hb') b hb

theorem remove_old_dests_difference_witness :
    (KeySorted new_dests_example ∧ KeySorted old_dests_example) ∧
    remove_old_dests new_dests_example old_dests_example =
      (old_dests_example.filter
        (fun e => decide (e.1 ∉ new_dests_example.map Prod.fst))).map
        (fun e => .unlink e.2) :=
  ⟨⟨by unfold KeySorted; decide, by unfold KeySorted; decide⟩,
    remove_old_dests_difference new_dests_example old_dests_example
      (by unfold KeySorted; decide) (by unfold KeySorted; decide)⟩

theorem old_dest_of_lt {Filename : Type} [LinearOrder Filename] (b : Dests Filename)
    (k : Filename) (h : ∀ e ∈ b, k < e.1) : old_dest b k = none := by
  unfold old_dest
  have : b.find? (fun e => decide (e.1 = k)) = none := by
    rw [List.find?_eq_none]
    intro e he
    have := ne_of_gt (h e he)
    simp [this]
  rw [this]
  rfl

theorem old_dest_cons_ne {Filename : Type} [LinearOrder Filename] (b : Dests Filename)
    (be : Filename × DestTextureImage Filename) (k : Filename) (h : be.1 ≠ k) :
    old_dest (be :: b) k = old_dest b k := by
  unfold old_dest
  rw [List.find?_cons_of_neg]
  simp [h]

theorem old_dest_cons_self {Filename : Type} [LinearOrder Filename] (b : Dests Filename)
    (k : Filename) (d : DestTextureImage Filename) : old_dest ((k, d) :: b) k = some d := by
  unfold old_dest
  simp

theorem copy_new_at_eq {Filename : Type} [LinearOrder Filename] (astr : Filename)
    (adest : DestTextureImage Filename) (ai : Dests Filename)
    (ha : KeySorted ((astr, adest) :: ai))
    (rest : Dests Filename → List (DestAction Filename))
    (hrest : ∀ b, KeySorted b → rest b = ai.map (copy_action b))
    (b : Dests Filename) (hb : KeySorted b) :
    copy_new_at astr adest rest b = ((astr, adest) :: ai).map (copy_action b) := by
  unfold KeySorted at ha
  rw [List.pairwise_cons] at ha
  induction b with
  | nil =>
    unfold copy_new_at
    rw [hrest [] hb]
    simp [copy_action, old_dest]
  | cons be bi ih =>
    obtain ⟨bstr, bdest⟩ := be
    have hb' := hb
    unfold KeySorted at hb'
    rw [List.pairwise_cons] at hb'
    have hbi : KeySorted bi := hb'.2
    unfold copy_new_at
    split_ifs with h1 h2
    · rw [hrest _ hb, List.map_cons]
      have hnone : old_dest ((bstr, bdest) :: bi) astr = none := by
        apply old_dest_of_lt
        intro e he
        rcases List.mem_cons.1 he with rfl | he
        · exact h1
        · exact lt_trans h1 (hb'.1 e he)
      have hact : copy_action ((bstr, bdest) :: bi) (astr, adest) = .copy adest := by
        unfold copy_action
        rw [hnone]
      rw [hact]
    · rw [ih hbi]
      apply List.map_congr_left
      intro e he
      have hne : bstr ≠ e.1 := by
        rcases List.mem_cons.1 he with rfl | he
        · exact ne_of_lt h2
        · exact ne_of_lt (lt_trans h2 (ha.1 e he))
      unfold copy_action
      rw [old_dest_cons_ne bi (bstr, bdest) e.1 hne]
    · have heq : astr = bstr := le_antisymm (not_lt.1 h2) (not_lt.1 h1)
      subst heq
      rw [hrest _ hbi, List.map_cons]
      have hact : copy_action ((astr, bdest) :: bi) (astr, adest) =
          .copy_if_stale adest bdest := by
        unfold copy_action
        rw [old_dest_cons_self]
      rw [hact]
      congr 1
      apply List.map_congr_left
      intro e he
      have hne : astr ≠ e.1 := ne_of_lt (ha.1 e he)
      unfold copy_action
      rw [old_dest_cons_ne bi (astr, bdest) e.1 hne]

/-- C9: for key-sorted maps `a` and `b`, `copy_new_dests(a, b)` handles every entry
of `a` once and in order: `copy` for a filename that `b` does not have,
`copy_if_stale` against the entry of `b` of the same filename otherwise; the
filenames only in `b` get no call. -/
theorem copy_new_dests_each_entry {Filename : Type} [LinearOrder Filename]
    (a b : Dests Filename) (ha : KeySorted a) (hb : KeySorted b) :
    copy_new_dests a b = a.map (copy_action b) ∧
      (∀ e ∈ a, e.1 ∉ b.map Prod.fst → copy_action b e = .copy e.2) ∧
      (∀ e ∈ a, ∀ old, (e.1, old) ∈ b → copy_action b e = .copy_if_stale e.2 old) := by
  refine ⟨?_, ?_, ?_⟩
  · induction a generalizing b with
    | nil => simp [copy_new_dests]
    | cons ae ai ih =>
      obtain ⟨astr, adest⟩ := ae
      have hai : KeySorted ai := by
        unfold KeySorted at ha ⊢
        exact (List.pairwise_cons.1 ha).2
      unfold copy_new_dests
      exact copy_new_at_eq astr adest ai ha _ (fun b' hb' => ih b' hai hb') b hb
  · intro e _ hnot
    unfold copy_action old_dest
    have : b.find? (fun x => decide (x.1 = e.1)) = none := by
      rw [List.find?_eq_none]
      intro x hx
      have hne : x.1 ≠ e.1 := fun h => hnot (h ▸ List.mem_map_of_mem Prod.fst hx)
      simp [hne]
    rw [this]
    rfl
  · intro e _ old hold
    clear ha
    induction b with
    | nil => simp at hold
    | cons be bi ih =>
      have hb' := hb
      unfold KeySorted at hb'
      rw [List.pairwise_cons] at hb'
      rcases List.mem_cons.1 hold with h | h
      · subst h
        unfold copy_action
        rw [old_dest_cons_self]
      · have hne : be.1 ≠ e.1 := ne_of_lt (hb'.1 (e.1, old) h)
        have := ih hb'.2 h
        unfold copy_action at this ⊢
        rw [old_dest_cons_ne bi be e.1 hne]
        exact this

theorem copy_new_dests_each_entry_witness :
    (KeySorted new_dests_example ∧ KeySorted old_dests_example) ∧
    (copy_new_dests new_dests_example old_dests_example =
        new_dests_example.map (copy_action old_dests_example) ∧
      (∀ e ∈ new_dests_example, e.1 ∉ old_dests_example.map Prod.fst →
        copy_action old_dests_example e = .copy e.2) ∧
      (∀ e ∈ new_dests_example, ∀ old, (e.1, old) ∈ old_dests_example →
        copy_action old_dests_example e = .copy_if_stale e.2 old)) :=
  ⟨⟨by unfold KeySorted; decide, by unfold KeySorted; decide⟩,
    copy_new_dests_each_entry new_dests_example old_dests_example
      (by unfold KeySorted; decide) (by unfold KeySorted; decide)⟩

theorem copy_new_dests_nil {Filename : Type} [LinearOrder Filename] (a : Dests Filename) :
    copy_new_dests a [] = a.map (fun e => .copy e.2) := by
  induction a with
  | nil => simp [copy_new_dests]
  | cons ae ai ih =>
    obtain ⟨astr, adest⟩ := ae
    unfold copy_new_dests
    unfold copy_new_at
    rw [ih]
    rfl

/-- C10 (Scenario D): `copy_unplaced(true)` unlinks every entry of the previous
`_dests`, those whose filename is still required included, then calls `copy` on
every entry of the new `_dests`, and never calls `copy_if_stale`. -/
theorem copy_unplaced_redo_all {Filename : Type} [LinearOrder Filename]
    (get_omit_reason : TexturePlacement → OmitReason)
    (new_dest : TexturePlacement → DestTextureImage Filename)
    (make_canonical : Filename → Filename) (t : TextureImage Filename) :
    (copy_unplaced get_omit_reason new_dest make_canonical t true).actions =
        t._dests.map (fun e => .unlink e.2) ++
          (copy_unplaced get_omit_reason new_dest make_canonical t true).texture._dests.map
            (fun e => .copy e.2) ∧
      ∀ d old, DestAction.copy_if_stale d old ∉
        (copy_unplaced get_omit_reason new_dest make_canonical t true).actions := by
  have hact : (copy_unplaced get_omit_reason new_dest make_canonical t true).actions =
      t._dests.map (fun e => .unlink e.2) ++
        (copy_unplaced get_omit_reason new_dest make_canonical t true).texture._dests.map
          (fun e => .copy e.2) := by
    simp only [copy_unplaced, if_true, copy_new_dests_nil, remove_old_dests]
  refine ⟨hact, ?_⟩
  intro d old hmem
  rw [hact] at hmem
  simp at hmem

/-- Scenario D on `unplaced_texture`: both old files are unlinked, file 3 although
it is still required, and both required files are copied afresh. -/
theorem copy_unplaced_redo_all_example :
    (copy_unplaced example_omit_reason example_new_dest id unplaced_texture true).actions =
        [.unlink ⟨7, 3⟩, .unlink ⟨30, 5⟩, .copy ⟨7, 3⟩, .copy ⟨9, 4⟩] ∧
      (copy_unplaced example_omit_reason example_new_dest id unplaced_texture false).actions =
        [.unlink ⟨30, 5⟩, .copy_if_stale ⟨7, 3⟩ ⟨7, 3⟩, .copy ⟨9, 4⟩] := by
  constructor <;> decide

/-! ## The preferred source -/

theorem any_referenced_loop_true {Filename : Type} (si : Sources Filename) :
    any_referenced_loop si true = true := by
  cases si <;> simp [any_referenced_loop]

theorem any_referenced_loop_false {Filename : Type} (si : Sources Filename) :
    any_referenced_loop si false = true ↔ ∃ e ∈ si, e.2.egg_count > 0 := by
  induction si with
  | nil =>
    simp only [any_referenced_loop]
    constructor
    · intro h
      cases h
    · rintro ⟨e, he, _⟩
      cases he
  | cons e si ih =>
    unfold any_referenced_loop
    by_cases h : e.2.egg_count > 0
    · simp only [Bool.not_false, if_true, h, any_referenced_loop_true, true_iff]
      exact ⟨e, List.mem_cons_self _ _, h⟩
    · simp only [Bool.not_false, if_true, h, if_false, ih, List.mem_cons]
      constructor
      · rintro ⟨x, hx, hpos⟩
        exact ⟨x, Or.inr hx, hpos⟩
      · rintro ⟨x, rfl | hx, hpos⟩
        · exact absurd hpos h
        · exact ⟨x, hx, hpos⟩

/-- With `any_referenced` set, the second loop does not run. -/
theorem best_source_loop_referenced {Filename : Type} (c : Collaborators Filename)
    (si : Sources Filename) (best : Option (SourceTextureImage Filename)) (bs : Int) :
    best_source_loop c true si best bs = best := by
  cases si <;> simp [best_source_loop]

/-- When some source is referenced by an egg file, the source selected is the
first one in key order, whatever it is. -/
theorem select_preferred_source_of_referenced {Filename : Type}
    (c : Collaborators Filename) (sources : Sources Filename)
    (h : ∃ e ∈ sources, e.2.egg_count > 0) :
    select_preferred_source c sources = sources.head?.map Prod.snd := by
  unfold select_preferred_source
  rw [(any_referenced_loop_false sources).2 h]
  cases sources with
  | nil => simp [best_source_loop]
  | cons e si => simp [best_source_loop_referenced]

theorem best_source_loop_skip {Filename : Type} (c : Collaborators Filename)
    (e : Str × SourceTextureImage Filename) (si : Sources Filename)
    (best : Option (SourceTextureImage Filename)) (bs : Int)
    (h : readable e.2 = false) :
    best_source_loop c false (e :: si) best bs = best_source_loop c false si best bs := by
  unfold readable at h
  rw [best_source_loop]
  simp [h]

theorem best_source_loop_first {Filename : Type} (c : Collaborators Filename)
    (e : Str × SourceTextureImage Filename) (si : Sources Filename) (bs : Int)
    (h : readable e.2 = true) :
    best_source_loop c false (e :: si) none bs =
      best_source_loop c false si (some e.2) (source_size e.2) := by
  unfold readable at h
  rw [best_source_loop]
  simp [h, source_size]

theorem best_source_loop_next {Filename : Type} (c : Collaborators Filename)
    (e : Str × SourceTextureImage Filename) (si : Sources Filename)
    (b : SourceTextureImage Filename) (bs : Int) (h : readable e.2 = true) :
    best_source_loop c false (e :: si) (some b) bs =
      if source_size e.2 > bs ∨
          (source_size e.2 = bs ∧ c.compare_timestamps e.2.filename b.filename > 0) then
        best_source_loop c false si (some e.2) (source_size e.2)
      else best_source_loop c false si (some b) bs := by
  unfold readable at h
  rw [best_source_loop]
  simp only [Bool.not_false, if_true, Bool.or_true, h, source_size]
  by_cases h1 : wrap_int (e.2.x_size * e.2.y_size) > bs
  · simp [h1]
  · by_cases h2 : wrap_int (e.2.x_size * e.2.y_size) = bs ∧
        c.compare_timestamps e.2.filename b.filename > 0
    · simp [h1, h2]
    · simp [h1, h2]

/-- What the second loop returns is the `best` it started from or one of the
sources it went through. -/
theorem best_source_loop_mem {Filename : Type} (c : Collaborators Filename)
    (any_referenced : Bool) (si : Sources Filename)
    (best : Option (SourceTextureImage Filename)) (bs : Int)
    (r : SourceTextureImage Filename)
    (h : best_source_loop c any_referenced si best bs = some r) :
    best = some r ∨ r ∈ si.map Prod.snd := by
  cases any_referenced with
  | true =>
    rw [best_source_loop_referenced] at h
    exact Or.inl h
  | false =>
    induction si generalizing best bs with
    | nil =>
      simp only [best_source_loop] at h
      exact Or.inl h
    | cons e si ih =>
      have hnew : ∀ bs', best_source_loop c false si (some e.2) bs' = some r →
          best = some r ∨ r ∈ (e :: si).map Prod.snd := by
        intro bs' h'
        rcases ih _ _ h' with h1 | h1
        · right
          rw [← Option.some.inj h1]
          exact List.mem_cons_self _ _
        · exact Or.inr (List.mem_cons_of_mem _ h1)
      have hkeep : best_source_loop c false si best bs = some r →
          best = some r ∨ r ∈ (e :: si).map Prod.snd := by
        intro h'
        rcases ih _ _ h' with h1 | h1
        · exact Or.inl h1
        · exact Or.inr (List.mem_cons_of_mem _ h1)
      cases hr : readable e.2 with
      | false =>
        rw [best_source_loop_skip c e si best bs hr] at h
        exact hkeep h
      | true =>
        cases best with
        | none =>
          rw [best_source_loop_first c e si bs hr] at h
          exact hnew _ h
        | some b =>
          rw [best_source_loop_next c e si b bs hr] at h
          split_ifs at h
          · exact hnew _ h
          · exact hkeep h

theorem dominates_refl {Filename : Type} (c : Collaborators Filename)
    (htotal : ∀ x y, c.compare_timestamps x y ≤ 0 ∨ c.compare_timestamps y x ≤ 0)
    (r : SourceTextureImage Filename) : Dominates c r r :=
  ⟨le_refl _, fun _ => (htotal r.filename r.filename).elim id id⟩

theorem dominates_trans {Filename : Type} (c : Collaborators Filename)
    (htrans : ∀ x y z, c.compare_timestamps x y ≤ 0 → c.compare_timestamps y z ≤ 0 →
      c.compare_timestamps x z ≤ 0)
    (r' r s : SourceTextureImage Filename) (h1 : Dominates c r s) (h2 : Dominates c r' r) :
    Dominates c r' s := by
  refine ⟨le_trans h1.1 h2.1, ?_⟩
  intro heq
  have hsr : source_size s = source_size r := le_antisymm h1.1 (heq ▸ h2.1)
  have hrr : source_size r = source_size r' := hsr ▸ heq
  exact htrans _ _ _ (h1.2 hsr) (h2.2 hrr)

/-- With no source referenced, the second loop needs only one readable source, or
a `best` to start from, to return a source. -/
theorem best_source_loop_some {Filename : Type} (c : Collaborators Filename)
    (si : Sources Filename) (best : Option (SourceTextureImage Filename)) (bs : Int)
    (h : best ≠ none ∨ ∃ e ∈ si, readable e.2 = true) :
    ∃ r, best_source_loop c false si best bs = some r := by
  induction si generalizing best bs with
  | nil =>
    rcases h with h | ⟨e, he, _⟩
    · cases best with
      | none => exact absurd rfl h
      | some b => exact ⟨b, by simp [best_source_loop]⟩
    · cases he
  | cons e si ih =>
    cases hr : readable e.2 with
    | false =>
      rw [best_source_loop_skip c e si best bs hr]
      apply ih
      rcases h with h | ⟨x, hx, hxr⟩
      · exact Or.inl h
      · rcases List.mem_cons.1 hx with rfl | hx
        · rw [hr] at hxr
          cases hxr
        · exact Or.inr ⟨x, hx, hxr⟩
    | true =>
      cases best with
      | none =>
        rw [best_source_loop_first c e si bs hr]
        exact ih _ _ (Or.inl (by simp))
      | some b =>
        rw [best_source_loop_next c e si b bs hr]
        split_ifs
        · exact ih _ _ (Or.inl (by simp))
        · exact ih _ _ (Or.inl (by simp))

/-- With no source referenced and `compare_timestamps` a total preorder, the
source the second loop returns is readable and at least as good as every readable
source it went through and as the `best` it started from. -/
theorem best_source_loop_best {Filename : Type} (c : Collaborators Filename)
    (htrans : ∀ x y z, c.compare_timestamps x y ≤ 0 → c.compare_timestamps y z ≤ 0 →
      c.compare_timestamps x z ≤ 0)
    (htotal : ∀ x y, c.compare_timestamps x y ≤ 0 ∨ c.compare_timestamps y x ≤ 0)
    (si : Sources Filename) (best : Option (SourceTextureImage Filename)) (bs : Int)
    (r : SourceTextureImage Filename)
    (hbs : ∀ b, best = some b → bs = source_size b ∧ readable b = true)
    (h : best_source_loop c false si best bs = some r) :
    readable r = true ∧ (∀ e ∈ si, readable e.2 = true → Dominates c r e.2) ∧
      ∀ b, best = some b → Dominates c r b := by
  induction si generalizing best bs with
  | nil =>
    simp only [best_source_loop] at h
    refine ⟨(hbs r h).2, fun e he => absurd he (List.not_mem_nil _), ?_⟩
    intro b hb
    rw [h] at hb
    rw [← Option.some.inj hb]
    exact dominates_refl c htotal r
  | cons e si ih =>
    cases hr : readable e.2 with
    | false =>
      rw [best_source_loop_skip c e si best bs hr] at h
      obtain ⟨h1, h2, h3⟩ := ih best bs hbs h
      refine ⟨h1, ?_, h3⟩
      intro x hx hxr
      rcases List.mem_cons.1 hx with rfl | hx
      · rw [hr] at hxr
        cases hxr
      · exact h2 x hx hxr
    | true =>
      have hbs' : ∀ b, some e.2 = some b → source_size e.2 = source_size b ∧ readable b = true := by
        intro b hb
        rw [← Option.some.inj hb]
        exact ⟨rfl, hr⟩
      cases best with
      | none =>
        rw [best_source_loop_first c e si bs hr] at h
        obtain ⟨h1, h2, h3⟩ := ih _ _ hbs' h
        refine ⟨h1, ?_, fun b hb => by cases hb⟩
        intro x hx hxr
        rcases List.mem_cons.1 hx with rfl | hx
        · exact h3 _ rfl
        · exact h2 x hx hxr
      | some b =>
        have hb := hbs b rfl
        rw [best_source_loop_next c e si b bs hr] at h
        split_ifs at h with hcond
        · obtain ⟨h1, h2, h3⟩ := ih _ _ hbs' h
          have hdom : Dominates c e.2 b := by
            rcases hcond with hgt | ⟨heq, hnew⟩
            · rw [hb.1] at hgt
              exact ⟨le_of_lt hgt, fun heq => absurd heq (ne_of_lt hgt)⟩
            · rw [hb.1] at heq
              refine ⟨le_of_eq heq.symm, fun _ => ?_⟩
              rcases htotal e.2.filename b.filename with h' | h'
              · exact absurd hnew (not_lt.2 h')
              · exact h'
          refine ⟨h1, ?_, ?_⟩
          · intro x hx hxr
            rcases List.mem_cons.1 hx with rfl | hx
            · exact h3 _ rfl
            · exact h2 x hx hxr
          · intro b' hb'
            rw [← Option.some.inj hb']
            exact dominates_trans c htrans _ _ _ hdom (h3 _ rfl)
        · obtain ⟨h1, h2, h3⟩ := ih _ _ hbs h
          have hdom : Dominates c b e.2 := by
            rw [hb.1] at hcond
            have hle : source_size e.2 ≤ source_size b := not_lt.1 (fun hgt => hcond (Or.inl hgt))
            refine ⟨hle, fun heq => ?_⟩
            exact not_lt.1 (fun hnew => hcond (Or.inr ⟨heq, hnew⟩))
          refine ⟨h1, ?_, h3⟩
          intro x hx hxr
          rcases List.mem_cons.1 hx with rfl | hx
          · exact dominates_trans c htrans _ _ _ hdom (h3 _ rfl)
          · exact h2 x hx hxr

theorem select_preferred_source_some {Filename : Type} (c : Collaborators Filename)
    (sources : Sources Filename) (b : SourceTextureImage Filename)
    (h : best_source_loop c (any_referenced_loop sources false) sources none 0 = some b) :
    select_preferred_source c sources = some b := by
  unfold select_preferred_source
  simp only [h]

theorem select_preferred_source_none {Filename : Type} (c : Collaborators Filename)
    (sources : Sources Filename)
    (h : best_source_loop c (any_referenced_loop sources false) sources none 0 = none) :
    select_preferred_source c sources = sources.head?.map Prod.snd := by
  unfold select_preferred_source
  simp only [h]
  cases sources <;> rfl

theorem select_preferred_source_mem {Filename : Type} (c : Collaborators Filename)
    (sources : Sources Filename) (r : SourceTextureImage Filename)
    (h : select_preferred_source c sources = some r) : r ∈ sources.map Prod.snd := by
  cases hl : best_source_loop c (any_referenced_loop sources false) sources none 0 with
  | none =>
    rw [select_preferred_source_none c sources hl] at h
    cases sources with
    | nil => simp at h
    | cons e si =>
      simp only [List.head?_cons, Option.map_some', Option.some.injEq] at h
      rw [← h]
      exact List.mem_cons_self _ _
  | some b =>
    rw [select_preferred_source_some c sources b hl] at h
    rcases best_source_loop_mem c _ _ _ _ _ hl with h1 | h1
    · cases h1
    · rw [← Option.some.inj h]
      exact h1

/-- `get_source` keeps the cache coherent. -/
theorem cache_coherent_get_source {Filename : Type} (c : Collaborators Filename)
    (t : TextureImageRecord Filename) (f a : Filename) (h : CacheCoherent t) :
    CacheCoherent (get_source c t f a).1 := by
  unfold get_source
  simp only
  split
  · exact h
  · intro s hs
    cases hs

/-- `get_preferred_source` keeps the cache coherent. -/
theorem cache_coherent_get_preferred_source {Filename : Type} (c : Collaborators Filename)
    (t : TextureImageRecord Filename) (h : CacheCoherent t) :
    CacheCoherent (get_preferred_source c t).1 := by
  unfold get_preferred_source
  split
  · exact h
  · intro s hs
    exact select_preferred_source_mem c _ s hs

/-- C11 fails on the code: `b` is referenced by an egg file and readable, yet
`get_preferred_source()` returns `a`, which no egg file references: with
`any_referenced` set the selection loop does not run and the first source in key
order is taken. -/
theorem get_preferred_source_returns_unreferenced :
    referenced_second_texture._preferred_source = none ∧
    (∃ e ∈ referenced_second_texture._sources, e.2.egg_count > 0 ∧ readable e.2 = true) ∧
    (get_preferred_source example_collaborators referenced_second_texture).2 =
      some (source_on_disk ['a'] 0 64 64 3) ∧
    (source_on_disk ['a'] 0 64 64 3).egg_count = 0 := by
  refine ⟨rfl, ?_, by decide, rfl⟩
  exact ⟨(['b', ':'], source_on_disk ['b'] 1 32 32 3), by decide, by decide, by decide⟩

/-- A product that fits in a 32-bit `int` is the value the `int` holds. -/
theorem wrap_int_of_range (n : Int) (hlo : -2147483648 ≤ n) (hhi : n ≤ 2147483647) :
    wrap_int n = n := by
  unfold wrap_int
  omega

/-- C12 fails on the code: no source of `oversized_texture` is referenced by an
egg file, both are readable and `compare_timestamps` is a total preorder, yet
`get_preferred_source()` returns `b`, of 1 by 1 pixels, although `a` is 65536 by
65536: the product of the sizes of `a` is taken in a 32-bit `int` and comes out
as 0. -/
theorem get_preferred_source_overflow :
    oversized_texture._preferred_source = none ∧
    (∀ e ∈ oversized_texture._sources, ¬ e.2.egg_count > 0) ∧
    (∀ x y z : Str, example_collaborators.compare_timestamps x y ≤ 0 →
      example_collaborators.compare_timestamps y z ≤ 0 →
      example_collaborators.compare_timestamps x z ≤ 0) ∧
    (∀ x y : Str, example_collaborators.compare_timestamps x y ≤ 0 ∨
      example_collaborators.compare_timestamps y x ≤ 0) ∧
    ((['a', ':'], source_on_disk ['a'] 0 65536 65536 3) ∈ oversized_texture._sources ∧
      readable (source_on_disk ['a'] 0 65536 65536 3) = true) ∧
    (get_preferred_source example_collaborators oversized_texture).2 =
      some (source_on_disk ['b'] 0 1 1 3) ∧
    area (source_on_disk ['b'] 0 1 1 3) < area (source_on_disk ['a'] 0 65536 65536 3) ∧
    source_size (source_on_disk ['a'] 0 65536 65536 3) = 0 := by
  refine ⟨rfl, by decide, ?_, ?_, ⟨by decide, by decide⟩, by decide, by decide, by decide⟩
  · intro x y z h1 h2
    simp only [example_collaborators] at h1 h2 ⊢
    omega
  · intro x y
    simp only [example_collaborators]
    omega

/-- Within the range of `int` the largest source is chosen: with nothing cached,
no source referenced by an egg file, at least one readable source, the area of
every readable source between -2^31 and 2^31 - 1, and `compare_timestamps` a
total preorder, `get_preferred_source()` returns a readable source of the texture
whose area is maximal among the readable sources and than which no readable
source of the same area is strictly more recent. -/
theorem get_preferred_source_unreferenced_in_range {Filename : Type}
    (c : Collaborators Filename)
    (t : TextureImageRecord Filename) (hcache : t._preferred_source = none)
    (hnone : ∀ e ∈ t._sources, ¬ e.2.egg_count > 0)
    (hsome : ∃ e ∈ t._sources, readable e.2 = true)
    (hrange : ∀ e ∈ t._sources, readable e.2 = true →
      -2147483648 ≤ area e.2 ∧ area e.2 ≤ 2147483647)
    (htrans : ∀ x y z, c.compare_timestamps x y ≤ 0 → c.compare_timestamps y z ≤ 0 →
      c.compare_timestamps x z ≤ 0)
    (htotal : ∀ x y, c.compare_timestamps x y ≤ 0 ∨ c.compare_timestamps y x ≤ 0) :
    ∃ s, (get_preferred_source c t).2 = some s ∧ s ∈ t._sources.map Prod.snd ∧
      readable s = true ∧
      (∀ e ∈ t._sources, readable e.2 = true → area e.2 ≤ area s) ∧
      ∀ e ∈ t._sources, readable e.2 = true → area e.2 = area s →
        ¬ c.compare_timestamps e.2.filename s.filename > 0 := by
  have hany : any_referenced_loop t._sources false = false := by
    cases h : any_referenced_loop t._sources false with
    | false => rfl
    | true =>
      obtain ⟨e, he, hpos⟩ := (any_referenced_loop_false t._sources).1 h
      exact absurd hpos (hnone e he)
  obtain ⟨r, hr⟩ := best_source_loop_some c t._sources none 0 (Or.inr hsome)
  have hsel : select_preferred_source c t._sources = some r :=
    select_preferred_source_some c _ r (by rw [hany]; exact hr)
  obtain ⟨h1, h2, _⟩ := best_source_loop_best c htrans htotal t._sources none 0 r
    (fun b hb => by cases hb) hr
  have hmem := select_preferred_source_mem c _ r hsel
  have hsize : ∀ e ∈ t._sources, readable e.2 = true → source_size e.2 = area e.2 := by
    intro e he her
    exact wrap_int_of_range _ (hrange e he her).1 (hrange e he her).2
  have hr_size : source_size r = area r := by
    obtain ⟨e, he, her⟩ := List.mem_map.1 hmem
    rw [← her]
    exact hsize e he (by rw [her]; exact h1)
  refine ⟨r, ?_, hmem, h1, ?_, ?_⟩
  · unfold get_preferred_source
    rw [hcache]
    exact hsel
  · intro e he her
    rw [← hsize e he her, ← hr_size]
    exact (h2 e he her).1
  · intro e he her heq
    rw [← hsize e he her, ← hr_size] at heq
    exact not_lt.2 ((h2 e he her).2 heq)

theorem get_preferred_source_unreferenced_in_range_example :
    (unreferenced_texture_sources._preferred_source = none ∧
      (∀ e ∈ unreferenced_texture_sources._sources, ¬ e.2.egg_count > 0) ∧
      ∃ e ∈ unreferenced_texture_sources._sources, readable e.2 = true) ∧
    ∃ s, (get_preferred_source example_collaborators unreferenced_texture_sources).2 = some s ∧
      s ∈ unreferenced_texture_sources._sources.map Prod.snd ∧
      readable s = true ∧
      (∀ e ∈ unreferenced_texture_sources._sources, readable e.2 = true → area e.2 ≤ area s) ∧
      ∀ e ∈ unreferenced_texture_sources._sources, readable e.2 = true → area e.2 = area s →
        ¬ example_collaborators.compare_timestamps e.2.filename s.filename > 0 :=
  ⟨⟨rfl, by decide, by decide⟩,
    get_preferred_source_unreferenced_in_range example_collaborators
      unreferenced_texture_sources rfl (by decide) (by decide) (by decide)
      (fun x y z h1 h2 => by
        simp only [example_collaborators] at h1 h2 ⊢
        omega)
      (fun x y => by
        simp only [example_collaborators]
        omega)⟩

theorem sources_find_eq_none {Filename : Type} (key : Str) (m : Sources Filename) :
    sources_find key m = none ↔ ∀ e ∈ m, e.1 ≠ key := by
  unfold sources_find
  rw [Option.map_eq_none', List.find?_eq_none]
  constructor
  · intro h e he heq
    exact h e he (decide_eq_true heq)
  · intro h e he hd
    exact h e he (of_decide_eq_true hd)

theorem sources_find_cons_ne {Filename : Type} (key : Str)
    (e : Str × SourceTextureImage Filename) (m : Sources Filename) (h : e.1 ≠ key) :
    sources_find key (e :: m) = sources_find key m := by
  unfold sources_find
  rw [List.find?_cons_of_neg]
  simp [h]

theorem sources_find_cons_self {Filename : Type} (key : Str)
    (s : SourceTextureImage Filename) (m : Sources Filename) :
    sources_find key ((key, s) :: m) = some s := by
  unfold sources_find
  simp

/-- After the insertion of a key that was not there, the key is found with the
source inserted. -/
theorem sources_find_insert_self {Filename : Type} (key : Str)
    (s : SourceTextureImage Filename) (m : Sources Filename)
    (h : sources_find key m = none) : sources_find key (sources_insert key s m) = some s := by
  induction m with
  | nil => exact sources_find_cons_self key s []
  | cons e m ih =>
    obtain ⟨k, v⟩ := e
    have hne : k ≠ key := (sources_find_eq_none key _).1 h (k, v) (List.mem_cons_self _ _)
    have hm : sources_find key m = none := by
      rw [sources_find_cons_ne key (k, v) m hne] at h
      exact h
    unfold sources_insert
    split_ifs with h1 h2
    · exact sources_find_cons_self key s _
    · rw [sources_find_cons_ne key (k, v) _ hne]
      exact ih hm
    · exact absurd (le_antisymm (not_lt.1 h1) (not_lt.1 h2)) hne

/-- The insertion of one key leaves what is found under another key as it was. -/
theorem sources_find_insert_ne {Filename : Type} (key key' : Str)
    (s : SourceTextureImage Filename) (m : Sources Filename) (h : key' ≠ key) :
    sources_find key (sources_insert key' s m) = sources_find key m := by
  induction m with
  | nil => exact sources_find_cons_ne key (key', s) [] h
  | cons e m ih =>
    obtain ⟨k, v⟩ := e
    unfold sources_insert
    split_ifs with h1 h2
    · exact sources_find_cons_ne key (key', s) _ h
    · by_cases hk : k = key
      · subst hk
        rw [sources_find_cons_self, sources_find_cons_self]
      · rw [sources_find_cons_ne key (k, v) _ hk, sources_find_cons_ne key (k, v) _ hk]
        exact ih
    · rfl

/-- The insertion of a key that was not there adds one entry and keeps the
others. -/
theorem sources_insert_perm {Filename : Type} (key : Str)
    (s : SourceTextureImage Filename) (m : Sources Filename)
    (h : sources_find key m = none) : List.Perm (sources_insert key s m) ((key, s) :: m) := by
  induction m with
  | nil => exact List.Perm.refl _
  | cons e m ih =>
    obtain ⟨k, v⟩ := e
    have hne : k ≠ key := (sources_find_eq_none key _).1 h (k, v) (List.mem_cons_self _ _)
    have hm : sources_find key m = none := by
      rw [sources_find_cons_ne key (k, v) m hne] at h
      exact h
    unfold sources_insert
    split_ifs with h1 h2
    · exact List.Perm.refl _
    · exact ((ih hm).cons (k, v)).trans (List.Perm.swap _ _ _)
    · exact absurd (le_antisymm (not_lt.1 h1) (not_lt.1 h2)) hne

theorem get_source_of_found {Filename : Type} (c : Collaborators Filename)
    (t : TextureImageRecord Filename) (f a : Filename) (s : SourceTextureImage Filename)
    (h : sources_find (get_source_key c f a) t._sources = some s) :
    get_source c t f a = (t, s) := by
  unfold get_source
  simp only [h]

theorem get_source_of_new {Filename : Type} (c : Collaborators Filename)
    (t : TextureImageRecord Filename) (f a : Filename)
    (h : sources_find (get_source_key c f a) t._sources = none) :
    get_source c t f a =
      ({ t with
          _sources := sources_insert (get_source_key c f a) (c.new_source f a) t._sources
          _preferred_source := none
          _read_source_image := false
          _got_dest_image := false }, c.new_source f a) := by
  unfold get_source
  simp only [h]

/-- A source found under a key stays there through every `get_source`. -/
theorem get_source_keeps {Filename : Type} (c : Collaborators Filename)
    (t : TextureImageRecord Filename) (f a : Filename) (key : Str)
    (s : SourceTextureImage Filename) (h : sources_find key t._sources = some s) :
    sources_find key (get_source c t f a).1._sources = some s := by
  cases hf : sources_find (get_source_key c f a) t._sources with
  | some s' =>
    rw [get_source_of_found c t f a s' hf]
    exact h
  | none =>
    rw [get_source_of_new c t f a hf]
    have hne : get_source_key c f a ≠ key := by
      intro heq
      rw [heq, h] at hf
      cases hf
    simp only
    rw [sources_find_insert_ne key _ _ _ hne]
    exact h

theorem get_sources_keeps {Filename : Type} (c : Collaborators Filename)
    (t : TextureImageRecord Filename) (others : List (Filename × Filename)) (key : Str)
    (s : SourceTextureImage Filename) (h : sources_find key t._sources = some s) :
    sources_find key (get_sources c t others)._sources = some s := by
  induction others generalizing t with
  | nil => exact h
  | cons p more ih =>
    obtain ⟨f, a⟩ := p
    unfold get_sources
    exact ih _ (get_source_keeps c t f a key s h)

/-- C14: `get_source` under a key not yet present empties the cache and clears
`_read_source_image` and `_got_dest_image`, and the next `get_preferred_source()`
selects among the enlarged sources; `get_source` under a key already present
changes nothing; and `get_preferred_source()` with a cached source returns it
and changes nothing. -/
theorem get_source_cache {Filename : Type} (c : Collaborators Filename)
    (t : TextureImageRecord Filename) (f a : Filename) :
    (sources_find (get_source_key c f a) t._sources = none →
      (get_source c t f a).1._preferred_source = none ∧
      (get_source c t f a).1._read_source_image = false ∧
      (get_source c t f a).1._got_dest_image = false ∧
      (get_source c t f a).1._sources =
        sources_insert (get_source_key c f a) (c.new_source f a) t._sources ∧
      (get_preferred_source c (get_source c t f a).1).2 =
        select_preferred_source c
          (sources_insert (get_source_key c f a) (c.new_source f a) t._sources)) ∧
    (∀ s, sources_find (get_source_key c f a) t._sources = some s →
      (get_source c t f a).1 = t) ∧
    (∀ s, t._preferred_source = some s → get_preferred_source c t = (t, some s)) := by
  refine ⟨?_, ?_, ?_⟩
  · intro h
    rw [get_source_of_new c t f a h]
    exact ⟨rfl, rfl, rfl, rfl, rfl⟩
  · intro s h
    rw [get_source_of_found c t f a s h]
  · intro s h
    unfold get_preferred_source
    rw [h]

theorem get_source_cache_witness :
    (get_source example_collaborators unreferenced_texture_sources ['d'] []).1._preferred_source
      = none ∧
    (get_preferred_source example_collaborators
        (get_source example_collaborators unreferenced_texture_sources ['d'] []).1).2 =
      select_preferred_source example_collaborators
        (sources_insert (get_source_key example_collaborators ['d'] [])
          (example_collaborators.new_source ['d'] [])
          unreferenced_texture_sources._sources) :=
  ⟨((get_source_cache example_collaborators unreferenced_texture_sources ['d'] []).1
      (by decide)).1,
    ((get_source_cache example_collaborators unreferenced_texture_sources ['d'] []).1
      (by decide)).2.2.2.2⟩

/-- When no source is stored under the key of a pair, the `get_source` of the pair
returns the new source and adds exactly one entry, the one of that key and
source, to `_sources`; and every later `get_source` of the same pair, whatever
was requested in between, returns that same source and changes nothing. -/
theorem get_source_get_or_create {Filename : Type} (c : Collaborators Filename)
    (t : TextureImageRecord Filename) (f a : Filename)
    (hnew : sources_find (get_source_key c f a) t._sources = none) :
    (get_source c t f a).2 = c.new_source f a ∧
      List.Perm (get_source c t f a).1._sources
        ((get_source_key c f a, c.new_source f a) :: t._sources) ∧
      ∀ others : List (Filename × Filename),
        get_source c (get_sources c (get_source c t f a).1 others) f a =
          (get_sources c (get_source c t f a).1 others, c.new_source f a) := by
  rw [get_source_of_new c t f a hnew]
  refine ⟨rfl, sources_insert_perm _ _ _ hnew, ?_⟩
  intro others
  apply get_source_of_found
  apply get_sources_keeps
  exact sources_find_insert_self _ _ _ hnew

theorem get_source_get_or_create_witness :
    sources_find (get_source_key example_collaborators ['d'] [])
      unreferenced_texture_sources._sources = none ∧
    ((get_source example_collaborators unreferenced_texture_sources ['d'] []).2 =
        example_collaborators.new_source ['d'] [] ∧
      List.Perm (get_source example_collaborators unreferenced_texture_sources ['d'] []).1._sources
        ((get_source_key example_collaborators ['d'] [],
          example_collaborators.new_source ['d'] []) ::
            unreferenced_texture_sources._sources) ∧
      ∀ others : List (Str × Str),
        get_source example_collaborators
            (get_sources example_collaborators
              (get_source example_collaborators unreferenced_texture_sources ['d'] []).1
              others) ['d'] [] =
          (get_sources example_collaborators
              (get_source example_collaborators unreferenced_texture_sources ['d'] []).1
              others,
            example_collaborators.new_source ['d'] [])) :=
  ⟨by decide,
    get_source_get_or_create example_collaborators unreferenced_texture_sources ['d'] []
      (by decide)⟩

/-- C15 fails on the code: of `one_pair_texture` only the pair (`a:b`, `c`) has
been requested, and it holds the one record of that pair.  The first `get_source`
of the pair (`a`, `b:c`) adds no entry to `_sources` and returns the record of
(`a:b`, `c`), not a new record of its own, because both pairs have the key
`a:b:c`.  The first `get_source` of the pair (`a`, `b`), whose key is free, adds
one entry and returns a new record. -/
theorem get_source_first_call_collides :
    one_pair_texture._sources =
        [(['a', ':', 'b', ':', 'c'], example_collaborators.new_source ['a', ':', 'b'] ['c'])] ∧
      (get_source example_collaborators one_pair_texture ['a'] ['b', ':', 'c']).1._sources =
        one_pair_texture._sources ∧
      (get_source example_collaborators one_pair_texture ['a'] ['b', ':', 'c']).2 =
        example_collaborators.new_source ['a', ':', 'b'] ['c'] ∧
      (get_source example_collaborators one_pair_texture ['a'] ['b', ':', 'c']).2 ≠
        example_collaborators.new_source ['a'] ['b', ':', 'c'] ∧
      (get_source example_collaborators one_pair_texture ['a'] ['b']).1._sources.length = 2 ∧
      (get_source example_collaborators one_pair_texture ['a'] ['b']).2 =
        example_collaborators.new_source ['a'] ['b'] := by
  refine ⟨by decide, by decide, by decide, by decide, by decide, by decide⟩

/-! ## The tables of the palettizer -/

theorem table_find_eq_none {V : Type} (name : Str) (m : List (Str × V)) :
    table_find name m = none ↔ ∀ e ∈ m, e.1 ≠ name := by
  unfold table_find
  rw [Option.map_eq_none', List.find?_eq_none]
  constructor
  · intro h e he heq
    exact h e he (decide_eq_true heq)
  · intro h e he hd
    exact h e he (of_decide_eq_true hd)

theorem table_find_cons_ne {V : Type} (name : Str) (e : Str × V) (m : List (Str × V))
    (h : e.1 ≠ name) : table_find name (e :: m) = table_find name m := by
  unfold table_find
  rw [List.find?_cons_of_neg]
  simp [h]

theorem table_find_cons_self {V : Type} (name : Str) (v : V) (m : List (Str × V)) :
    table_find name ((name, v) :: m) = some v := by
  unfold table_find
  simp

theorem table_find_mem {V : Type} (name : Str) (m : List (Str × V)) (v : V)
    (h : table_find name m = some v) : (name, v) ∈ m := by
  induction m with
  | nil => cases h
  | cons e m ih =>
    obtain ⟨k, x⟩ := e
    by_cases hk : k = name
    · subst hk
      rw [table_find_cons_self] at h
      rw [Option.some.inj h]
      exact List.mem_cons_self _ _
    · rw [table_find_cons_ne name (k, x) m hk] at h
      exact List.mem_cons_of_mem _ (ih h)

theorem table_find_insert_self {V : Type} (name : Str) (v : V) (m : List (Str × V))
    (h : table_find name m = none) : table_find name (table_insert name v m) = some v := by
  induction m with
  | nil => exact table_find_cons_self name v []
  | cons e m ih =>
    obtain ⟨k, x⟩ := e
    have hne : k ≠ name := (table_find_eq_none name _).1 h (k, x) (List.mem_cons_self _ _)
    have hm : table_find name m = none := by
      rw [table_find_cons_ne name (k, x) m hne] at h
      exact h
    unfold table_insert
    split_ifs with h1 h2
    · exact table_find_cons_self name v _
    · rw [table_find_cons_ne name (k, x) _ hne]
      exact ih hm
    · exact absurd (le_antisymm (not_lt.1 h1) (not_lt.1 h2)) hne

theorem table_find_insert_ne {V : Type} (name other : Str) (v : V) (m : List (Str × V))
    (h : other ≠ name) : table_find name (table_insert other v m) = table_find name m := by
  induction m with
  | nil => exact table_find_cons_ne name (other, v) [] h
  | cons e m ih =>
    obtain ⟨k, x⟩ := e
    unfold table_insert
    split_ifs with h1 h2
    · exact table_find_cons_ne name (other, v) _ h
    · by_cases hk : k = name
      · subst hk
        rw [table_find_cons_self, table_find_cons_self]
      · rw [table_find_cons_ne name (k, x) _ hk, table_find_cons_ne name (k, x) _ hk]
        exact ih
    · rfl

theorem table_insert_perm {V : Type} (name : Str) (v : V) (m : List (Str × V))
    (h : table_find name m = none) : List.Perm (table_insert name v m) ((name, v) :: m) := by
  induction m with
  | nil => exact List.Perm.refl _
  | cons e m ih =>
    obtain ⟨k, x⟩ := e
    have hne : k ≠ name := (table_find_eq_none name _).1 h (k, x) (List.mem_cons_self _ _)
    have hm : table_find name m = none := by
      rw [table_find_cons_ne name (k, x) m hne] at h
      exact h
    unfold table_insert
    split_ifs with h1 h2
    · exact List.Perm.refl _
    · exact ((ih hm).cons (k, x)).trans (List.Perm.swap _ _ _)
    · exact absurd (le_antisymm (not_lt.1 h1) (not_lt.1 h2)) hne

theorem mem_table_insert {V : Type} (name : Str) (v : V) (m : List (Str × V))
    (e : Str × V) (h : e ∈ table_insert name v m) : e = (name, v) ∨ e ∈ m := by
  induction m with
  | nil =>
    simp only [table_insert, List.mem_singleton] at h
    exact Or.inl h
  | cons e' m ih =>
    obtain ⟨k, x⟩ := e'
    unfold table_insert at h
    split_ifs at h with h1 h2
    · rcases List.mem_cons.1 h with h | h
      · exact Or.inl h
      · exact Or.inr h
    · rcases List.mem_cons.1 h with h | h
      · exact Or.inr (h ▸ List.mem_cons_self _ _)
      · rcases ih h with h | h
        · exact Or.inl h
        · exact Or.inr (List.mem_cons_of_mem _ h)
    · exact Or.inr h

theorem table_insert_sorted {V : Type} (name : Str) (v : V) (m : List (Str × V))
    (hm : KeySorted m) : KeySorted (table_insert name v m) := by
  induction m with
  | nil => simp [table_insert, KeySorted]
  | cons e m ih =>
    obtain ⟨k, x⟩ := e
    unfold KeySorted at hm ih ⊢
    rw [List.pairwise_cons] at hm
    unfold table_insert
    split_ifs with h1 h2
    · rw [List.pairwise_cons, List.pairwise_cons]
      refine ⟨?_, hm.1, hm.2⟩
      intro y hy
      rcases List.mem_cons.1 hy with rfl | hy
      · exact h1
      · exact lt_trans h1 (hm.1 y hy)
    · rw [List.pairwise_cons]
      refine ⟨?_, ih hm.2⟩
      intro y hy
      rcases mem_table_insert name v m y hy with rfl | hy
      · exact h2
      · exact hm.1 y hy
    · rw [List.pairwise_cons]
      exact hm

theorem table_store_keys {V : Type} (name : Str) (v : V) (m : List (Str × V)) :
    (table_store name v m).map Prod.fst = m.map Prod.fst := by
  unfold table_store
  rw [List.map_map]
  apply List.map_congr_left
  intro e _
  simp only [Function.comp]
  split_ifs <;> rfl

theorem table_store_sorted {V : Type} (name : Str) (v : V) (m : List (Str × V))
    (hm : KeySorted m) : KeySorted (table_store name v m) := by
  unfold KeySorted at hm ⊢
  have h1 : (m.map Prod.fst).Pairwise (fun x y => x < y) := List.pairwise_map.2 hm
  rw [← table_store_keys name v m] at h1
  exact List.pairwise_map.1 h1

theorem mem_table_store {V : Type} (name : Str) (v : V) (m : List (Str × V))
    (e : Str × V) (h : e ∈ table_store name v m) : e = (name, v) ∨ e ∈ m := by
  unfold table_store at h
  obtain ⟨x, hx, hxe⟩ := List.mem_map.1 h
  split_ifs at hxe with hk
  · left
    rw [← hxe, hk]
  · right
    rw [← hxe]
    exact hx

theorem table_ok_insert {V : Type} (name_of : V → Str) (name : Str) (v : V)
    (m : List (Str × V)) (hv : name_of v = name) (h : TableOk name_of m) :
    TableOk name_of (table_insert name v m) := by
  refine ⟨table_insert_sorted name v m h.1, ?_⟩
  intro e he
  rcases mem_table_insert name v m e he with rfl | he
  · exact hv
  · exact h.2 e he

theorem table_ok_nodup {V : Type} (name_of : V → Str) (m : List (Str × V))
    (h : TableOk name_of m) : (m.map (fun e => name_of e.2)).Nodup := by
  have hmap : m.map (fun e => name_of e.2) = m.map Prod.fst :=
    List.map_congr_left (fun e he => h.2 e he)
  rw [hmap]
  unfold List.Nodup
  rw [List.pairwise_map]
  exact List.Pairwise.imp (fun hlt => ne_of_lt hlt) h.1

theorem get_palette_group_of_found (pal : Palettizer) (name : Str) (g : PaletteGroupObject)
    (h : table_find name pal._groups = some g) : get_palette_group pal name = (pal, g) := by
  unfold get_palette_group
  simp only [h]

theorem get_palette_group_of_new (pal : Palettizer) (name : Str)
    (h : table_find name pal._groups = none) :
    get_palette_group pal name =
      ({ pal with
          _groups := table_insert name ⟨pal.next_address, name, none⟩ pal._groups
          next_address := pal.next_address + 1 }, ⟨pal.next_address, name, none⟩) := by
  unfold get_palette_group
  simp only [h]

theorem get_egg_file_of_found (pal : Palettizer) (name : Str) (f : EggFileObject)
    (h : table_find name pal._egg_files = some f) : get_egg_file pal name = (pal, f) := by
  unfold get_egg_file
  simp only [h]

theorem get_egg_file_of_new (pal : Palettizer) (name : Str)
    (h : table_find name pal._egg_files = none) :
    get_egg_file pal name =
      ({ pal with
          _egg_files := table_insert name ⟨pal.next_address, name⟩ pal._egg_files
          next_address := pal.next_address + 1 }, ⟨pal.next_address, name⟩) := by
  unfold get_egg_file
  simp only [h]

theorem get_texture_of_found (pal : Palettizer) (name : Str) (x : TextureImageObject)
    (h : table_find name pal._textures = some x) : get_texture pal name = (pal, x) := by
  unfold get_texture
  simp only [h]

theorem get_texture_of_new (pal : Palettizer) (name : Str)
    (h : table_find name pal._textures = none) :
    get_texture pal name =
      ({ pal with
          _textures := table_insert name ⟨pal.next_address, name⟩ pal._textures
          next_address := pal.next_address + 1 }, ⟨pal.next_address, name⟩) := by
  unfold get_texture
  simp only [h]

/-- The group that `get_palette_group(name)` returns is stored under `name`
afterwards. -/
theorem get_palette_group_stored (pal : Palettizer) (name : Str) :
    table_find name (get_palette_group pal name).1._groups =
      some (get_palette_group pal name).2 := by
  cases h : table_find name pal._groups with
  | some g =>
    rw [get_palette_group_of_found pal name g h]
    exact h
  | none =>
    rw [get_palette_group_of_new pal name h]
    exact table_find_insert_self name _ _ h

theorem get_palette_group_name (pal : Palettizer) (name : Str)
    (hok : TableOk PaletteGroupObject.name pal._groups) :
    (get_palette_group pal name).2.name = name := by
  cases h : table_find name pal._groups with
  | some g =>
    rw [get_palette_group_of_found pal name g h]
    exact hok.2 (name, g) (table_find_mem name _ g h)
  | none =>
    rw [get_palette_group_of_new pal name h]

/-- C16: on a well-formed `_groups` table `get_palette_group(name)` returns a group
named `name`; an absent name adds exactly one entry, the group returned under
`name`, and changes no other; a present name changes nothing; a second call
returns the same group and leaves the palettizer unchanged;
`test_palette_group(name)` then returns that group; and `test_palette_group` on
an absent name returns NULL, before and after the call for another name. -/
theorem get_palette_group_get_or_create (pal : Palettizer) (name : Str)
    (hok : TableOk PaletteGroupObject.name pal._groups) :
    (get_palette_group pal name).2.name = name ∧
      (table_find name pal._groups = none →
        List.Perm (get_palette_group pal name).1._groups
          ((name, (get_palette_group pal name).2) :: pal._groups)) ∧
      (∀ g, table_find name pal._groups = some g → get_palette_group pal name = (pal, g)) ∧
      get_palette_group (get_palette_group pal name).1 name =
        ((get_palette_group pal name).1, (get_palette_group pal name).2) ∧
      test_palette_group (get_palette_group pal name).1 name =
        some (get_palette_group pal name).2 ∧
      ∀ other, table_find other pal._groups = none →
        test_palette_group pal other = none ∧
        (other ≠ name → test_palette_group (get_palette_group pal name).1 other = none) := by
  refine ⟨get_palette_group_name pal name hok, ?_, ?_, ?_, get_palette_group_stored pal name, ?_⟩
  · intro h
    rw [get_palette_group_of_new pal name h]
    exact table_insert_perm name _ _ h
  · intro g h
    exact get_palette_group_of_found pal name g h
  · exact get_palette_group_of_found _ name _ (get_palette_group_stored pal name)
  · intro other hother
    refine ⟨hother, ?_⟩
    intro hne
    unfold test_palette_group
    cases h : table_find name pal._groups with
    | some g =>
      rw [get_palette_group_of_found pal name g h]
      exact hother
    | none =>
      rw [get_palette_group_of_new pal name h]
      simp only
      rw [table_find_insert_ne other name _ _ (Ne.symm hne)]
      exact hother

theorem get_palette_group_get_or_create_witness :
    TableOk PaletteGroupObject.name example_palettizer._groups ∧
    ((get_palette_group example_palettizer ['h']).2.name = ['h'] ∧
      (table_find ['h'] example_palettizer._groups = none →
        List.Perm (get_palette_group example_palettizer ['h']).1._groups
          ((['h'], (get_palette_group example_palettizer ['h']).2) ::
            example_palettizer._groups)) ∧
      (∀ g, table_find ['h'] example_palettizer._groups = some g →
        get_palette_group example_palettizer ['h'] = (example_palettizer, g)) ∧
      get_palette_group (get_palette_group example_palettizer ['h']).1 ['h'] =
        ((get_palette_group example_palettizer ['h']).1,
          (get_palette_group example_palettizer ['h']).2) ∧
      test_palette_group (get_palette_group example_palettizer ['h']).1 ['h'] =
        some (get_palette_group example_palettizer ['h']).2 ∧
      ∀ other, table_find other example_palettizer._groups = none →
        test_palette_group example_palettizer other = none ∧
        (other ≠ ['h'] →
          test_palette_group (get_palette_group example_palettizer ['h']).1 other = none)) :=
  ⟨⟨by unfold KeySorted; decide, by decide⟩,
    get_palette_group_get_or_create example_palettizer ['h']
      ⟨by unfold KeySorted; decide, by decide⟩⟩

/-! ## The invariant of the tables -/

theorem get_egg_file_keeps (pal : Palettizer) (name : Str)
    (h : PalettizerOk pal ∧ all_held pal) :
    PalettizerOk (get_egg_file pal name).1 ∧ all_held (get_egg_file pal name).1 := by
  cases hf : table_find name pal._egg_files with
  | some f =>
    rw [get_egg_file_of_found pal name f hf]
    exact h
  | none =>
    rw [get_egg_file_of_new pal name hf]
    refine ⟨⟨table_ok_insert _ name _ _ rfl h.1.1, h.1.2.1, h.1.2.2⟩, ?_⟩
    have hlen := (table_insert_perm name (⟨pal.next_address, name⟩ : EggFileObject)
      pal._egg_files hf).length_eq
    have hall := h.2
    unfold all_held at hall ⊢
    simp only [List.length_cons] at hlen
    simp only [hlen]
    omega

theorem get_palette_group_keeps (pal : Palettizer) (name : Str)
    (h : PalettizerOk pal ∧ all_held pal) :
    PalettizerOk (get_palette_group pal name).1 ∧ all_held (get_palette_group pal name).1 := by
  cases hf : table_find name pal._groups with
  | some g =>
    rw [get_palette_group_of_found pal name g hf]
    exact h
  | none =>
    rw [get_palette_group_of_new pal name hf]
    refine ⟨⟨h.1.1, table_ok_insert _ name _ _ rfl h.1.2.1, h.1.2.2⟩, ?_⟩
    have hlen := (table_insert_perm name (⟨pal.next_address, name, none⟩ : PaletteGroupObject)
      pal._groups hf).length_eq
    have hall := h.2
    unfold all_held at hall ⊢
    simp only [List.length_cons] at hlen
    simp only [hlen]
    omega

theorem get_texture_keeps (pal : Palettizer) (name : Str)
    (h : PalettizerOk pal ∧ all_held pal) :
    PalettizerOk (get_texture pal name).1 ∧ all_held (get_texture pal name).1 := by
  cases hf : table_find name pal._textures with
  | some x =>
    rw [get_texture_of_found pal name x hf]
    exact h
  | none =>
    rw [get_texture_of_new pal name hf]
    refine ⟨⟨h.1.1, h.1.2.1, table_ok_insert _ name _ _ rfl h.1.2.2⟩, ?_⟩
    have hlen := (table_insert_perm name (⟨pal.next_address, name⟩ : TextureImageObject)
      pal._textures hf).length_eq
    have hall := h.2
    unfold all_held at hall ⊢
    simp only [List.length_cons] at hlen
    simp only [hlen]
    omega

theorem get_default_group_keeps (pal : Palettizer) (h : PalettizerOk pal ∧ all_held pal) :
    PalettizerOk (get_default_group pal).1 ∧ all_held (get_default_group pal).1 := by
  have hr := get_palette_group_keeps pal pal._default_groupname h
  have hname := get_palette_group_name pal pal._default_groupname h.1.2.1
  unfold get_default_group
  simp only
  split_ifs
  · refine ⟨⟨hr.1.1, ⟨table_store_sorted _ _ _ hr.1.2.1.1, ?_⟩, hr.1.2.2⟩, ?_⟩
    · intro e he
      rcases mem_table_store _ _ _ e he with rfl | he
      · exact hname
      · exact hr.1.2.1.2 e he
    · have hall := hr.2
      unfold all_held at hall ⊢
      simp only [table_store, List.length_map]
      exact hall
  · exact hr

theorem run_call_keeps (pal : Palettizer) (call : AccessorCall)
    (h : PalettizerOk pal ∧ all_held pal) :
    PalettizerOk (run_call pal call) ∧ all_held (run_call pal call) := by
  cases call with
  | get_egg_file name => exact get_egg_file_keeps pal name h
  | get_palette_group name => exact get_palette_group_keeps pal name h
  | get_default_group => exact get_default_group_keeps pal h
  | get_texture name => exact get_texture_keeps pal name h

theorem run_calls_keeps (pal : Palettizer) (calls : List AccessorCall)
    (h : PalettizerOk pal ∧ all_held pal) :
    PalettizerOk (run_calls pal calls) ∧ all_held (run_calls pal calls) := by
  induction calls generalizing pal with
  | nil => exact h
  | cons call calls ih => exact ih _ (run_call_keeps pal call h)

theorem empty_palettizer_ok (default_groupname default_groupdir : Str) :
    PalettizerOk (empty_palettizer default_groupname default_groupdir) ∧
      all_held (empty_palettizer default_groupname default_groupdir) := by
  refine ⟨⟨⟨?_, ?_⟩, ⟨?_, ?_⟩, ⟨?_, ?_⟩⟩, rfl⟩ <;>
    simp [empty_palettizer, KeySorted]

/-- C17: the accessors `get_egg_file`, `get_palette_group`, `get_default_group` and
`get_texture` keep each of the three tables well formed (every key maps to one
record, whose name is the key); and after any sequence of these calls from empty
tables the tables are well formed, every object created is held in a table, and
no two records of one table have the same name. -/
theorem accessors_keep_names_unique :
    (∀ pal call, PalettizerOk pal → PalettizerOk (run_call pal call)) ∧
    ∀ default_groupname default_groupdir calls,
      PalettizerOk (run_calls (empty_palettizer default_groupname default_groupdir) calls) ∧
      all_held (run_calls (empty_palettizer default_groupname default_groupdir) calls) ∧
      ((run_calls (empty_palettizer default_groupname default_groupdir) calls)._egg_files.map
        (fun e => e.2.name)).Nodup ∧
      ((run_calls (empty_palettizer default_groupname default_groupdir) calls)._groups.map
        (fun e => e.2.name)).Nodup ∧
      ((run_calls (empty_palettizer default_groupname default_groupdir) calls)._textures.map
        (fun e => e.2.name)).Nodup := by
  constructor
  · intro pal call h
    cases call with
    | get_egg_file name =>
      cases hf : table_find name pal._egg_files with
      | some f =>
        show PalettizerOk (get_egg_file pal name).1
        rw [get_egg_file_of_found pal name f hf]
        exact h
      | none =>
        show PalettizerOk (get_egg_file pal name).1
        rw [get_egg_file_of_new pal name hf]
        exact ⟨table_ok_insert _ name _ _ rfl h.1, h.2.1, h.2.2⟩
    | get_palette_group name =>
      cases hf : table_find name pal._groups with
      | some g =>
        show PalettizerOk (get_palette_group pal name).1
        rw [get_palette_group_of_found pal name g hf]
        exact h
      | none =>
        show PalettizerOk (get_palette_group pal name).1
        rw [get_palette_group_of_new pal name hf]
        exact ⟨h.1, table_ok_insert _ name _ _ rfl h.2.1, h.2.2⟩
    | get_default_group =>
      have hr : PalettizerOk (get_palette_group pal pal._default_groupname).1 := by
        cases hf : table_find pal._default_groupname pal._groups with
        | some g =>
          rw [get_palette_group_of_found pal _ g hf]
          exact h
        | none =>
          rw [get_palette_group_of_new pal _ hf]
          exact ⟨h.1, table_ok_insert _ _ _ _ rfl h.2.1, h.2.2⟩
      have hname := get_palette_group_name pal pal._default_groupname h.2.1
      show PalettizerOk (get_default_group pal).1
      unfold get_default_group
      simp only
      split_ifs
      · refine ⟨hr.1, ⟨table_store_sorted _ _ _ hr.2.1.1, ?_⟩, hr.2.2⟩
        intro e he
        rcases mem_table_store _ _ _ e he with rfl | he
        · exact hname
        · exact hr.2.1.2 e he
      · exact hr
    | get_texture name =>
      cases hf : table_find name pal._textures with
      | some x =>
        show PalettizerOk (get_texture pal name).1
        rw [get_texture_of_found pal name x hf]
        exact h
      | none =>
        show PalettizerOk (get_texture pal name).1
        rw [get_texture_of_new pal name hf]
        exact ⟨h.1, h.2.1, table_ok_insert _ name _ _ rfl h.2.2⟩
  · intro default_groupname default_groupdir calls
    have h := run_calls_keeps _ calls (empty_palettizer_ok default_groupname default_groupdir)
    exact ⟨h.1, h.2, table_ok_nodup _ _ h.1.1, table_ok_nodup _ _ h.1.2.1,
      table_ok_nodup _ _ h.1.2.2⟩

theorem accessors_keep_names_unique_witness :
    PalettizerOk example_palettizer ∧
    PalettizerOk (run_call example_palettizer .get_default_group) :=
  ⟨⟨⟨by unfold KeySorted; decide, by decide⟩, ⟨by unfold KeySorted; decide, by decide⟩,
      ⟨by unfold KeySorted; decide, by decide⟩⟩,
    accessors_keep_names_unique.1 example_palettizer .get_default_group
      ⟨⟨by unfold KeySorted; decide, by decide⟩, ⟨by unfold KeySorted; decide, by decide⟩,
        ⟨by unfold KeySorted; decide, by decide⟩⟩⟩

/-! ## `read_stale_eggs` -/

theorem reads_attempted_append (l1 l2 : List EggCall) :
    reads_attempted (l1 ++ l2) = reads_attempted l1 ++ reads_attempted l2 := by
  induction l1 with
  | nil => rfl
  | cons call l1 ih =>
    cases call <;> simp [reads_attempted, ih]

theorem reads_attempted_calls_for (ec : EggCollaborators) (redo_all : Bool)
    (file : EggFileObject) :
    reads_attempted (calls_for ec redo_all file) =
      if to_read ec redo_all file then [file] else [] := by
  unfold calls_for
  split_ifs <;> rfl

theorem read_stale_eggs_loop_step (ec : EggCollaborators) (redo_all : Bool)
    (e : Str × EggFileObject) (m : List (Str × EggFileObject)) (okflag : Bool) :
    read_stale_eggs_loop ec redo_all (e :: m) okflag =
      ((read_stale_eggs_loop ec redo_all m
          (okflag && (!to_read ec redo_all e.2 || ec.read_egg e.2))).1,
        calls_for ec redo_all e.2 ++
          (read_stale_eggs_loop ec redo_all m
            (okflag && (!to_read ec redo_all e.2 || ec.read_egg e.2))).2) := by
  rw [read_stale_eggs_loop]
  unfold calls_for to_read
  cases ec.has_data e.2 <;> cases ec.is_stale e.2 <;> cases redo_all <;>
    cases ec.read_egg e.2 <;> simp

/-- The loop of `read_stale_eggs` makes, file by file, the calls of `calls_for`,
and clears `okflag` exactly when a file that is to be read fails to read. -/
theorem read_stale_eggs_loop_eq (ec : EggCollaborators) (redo_all : Bool)
    (m : List (Str × EggFileObject)) (okflag : Bool) :
    read_stale_eggs_loop ec redo_all m okflag =
      (okflag && m.all (fun e => !to_read ec redo_all e.2 || ec.read_egg e.2),
        m.flatMap (fun e => calls_for ec redo_all e.2)) := by
  induction m generalizing okflag with
  | nil => simp [read_stale_eggs_loop]
  | cons e m ih =>
    rw [read_stale_eggs_loop_step, ih, List.flatMap_cons, List.all_cons, Bool.and_assoc]

/-- C20: `read_stale_eggs(redo_all)` calls `read_egg` on exactly the egg files
without data that are stale or fall under `redo_all`, in table order; it returns
false exactly when one of these reads fails; and whatever reads failed, every
file is visited: a file whose read succeeds gets `scan_textures` and
`choose_placements`, one whose read fails gets neither. -/
theorem read_stale_eggs_reads (ec : EggCollaborators) (pal : Palettizer) (redo_all : Bool) :
    reads_attempted (read_stale_eggs ec pal redo_all).2 =
        (pal._egg_files.map Prod.snd).filter (to_read ec redo_all) ∧
      ((read_stale_eggs ec pal redo_all).1 = false ↔
        ∃ e ∈ pal._egg_files, to_read ec redo_all e.2 = true ∧ ec.read_egg e.2 = false) ∧
      (read_stale_eggs ec pal redo_all).2 =
        pal._egg_files.flatMap (fun e => calls_for ec redo_all e.2) ∧
      ∀ e ∈ pal._egg_files, to_read ec redo_all e.2 = true → ec.read_egg e.2 = true →
        EggCall.scan_textures e.2 ∈ (read_stale_eggs ec pal redo_all).2 ∧
        EggCall.choose_placements e.2 ∈ (read_stale_eggs ec pal redo_all).2 := by
  unfold read_stale_eggs
  rw [read_stale_eggs_loop_eq]
  refine ⟨?_, ?_, rfl, ?_⟩
  · simp only
    induction pal._egg_files with
    | nil => rfl
    | cons e m ih =>
      rw [List.flatMap_cons, reads_attempted_append, ih, reads_attempted_calls_for,
        List.map_cons, List.filter_cons]
      split_ifs <;> rfl
  · simp only [Bool.true_and]
    rw [Bool.eq_false_iff, Ne, List.all_eq_true]
    constructor
    · intro h
      by_contra hcon
      apply h
      intro e he
      cases h1 : to_read ec redo_all e.2 with
      | false => rfl
      | true =>
        cases h2 : ec.read_egg e.2 with
        | false => exact absurd ⟨e, he, h1, h2⟩ hcon
        | true => rfl
    · rintro ⟨e, he, h1, h2⟩ hall
      have := hall e he
      rw [h1, h2] at this
      cases this
  · intro e he h1 h2
    simp only [List.mem_flatMap]
    have hcalls : calls_for ec redo_all e.2 =
        [.read_egg e.2, .scan_textures e.2, .choose_placements e.2] := by
      unfold calls_for
      rw [h1, h2]
      rfl
    constructor
    · exact ⟨e, he, by rw [hcalls]; simp⟩
    · exact ⟨e, he, by rw [hcalls]; simp⟩

/-- For the example palettizer: `b` and `c` are read, the read of `b` fails, `c` is
still read, scanned and placed, and the result is false. -/
theorem read_stale_eggs_example :
    read_stale_eggs example_egg_collaborators example_palettizer false =
      (false, [.read_egg ⟨2, ['b']⟩, .read_egg ⟨3, ['c']⟩, .scan_textures ⟨3, ['c']⟩,
        .choose_placements ⟨3, ['c']⟩]) := by
  decide

/-! ## `post_txa_file` -/

theorem same_assignment_refl {Filename : Type} (t : TextureImageRecord Filename) :
    SameAssignment t t :=
  ⟨rfl, rfl, rfl, rfl⟩

theorem same_assignment_trans {Filename : Type} (t1 t2 t3 : TextureImageRecord Filename)
    (h1 : SameAssignment t1 t2) (h2 : SameAssignment t2 t3) : SameAssignment t1 t3 :=
  ⟨h2.1.trans h1.1, h2.2.1.trans h1.2.1, h2.2.2.1.trans h1.2.2.1, h2.2.2.2.trans h1.2.2.2⟩

theorem get_preferred_source_same {Filename : Type} (c : Collaborators Filename)
    (t : TextureImageRecord Filename) : SameAssignment t (get_preferred_source c t).1 := by
  unfold get_preferred_source
  split
  · exact same_assignment_refl t
  · exact ⟨rfl, rfl, rfl, rfl⟩

theorem read_source_image_same {Filename : Type} (c : Collaborators Filename)
    (t : TextureImageRecord Filename) : SameAssignment t (read_source_image c t).1 := by
  have h := get_preferred_source_same c t
  unfold read_source_image
  split_ifs
  · simp only
    split
    · exact h
    · exact h
  · exact same_assignment_refl t

theorem consider_grayscale_same {Filename : Type} (c : Collaborators Filename)
    (t : TextureImageRecord Filename) : SameAssignment t (consider_grayscale c t).1 := by
  have h := read_source_image_same c t
  unfold consider_grayscale
  dsimp only
  split_ifs <;>
    first
      | exact same_assignment_refl t
      | exact h

theorem consider_unalpha_same {Filename : Type} (c : Collaborators Filename)
    (t : TextureImageRecord Filename) : SameAssignment t (consider_unalpha c t).1 := by
  have h := read_source_image_same c t
  unfold consider_unalpha
  dsimp only
  split_ifs <;>
    first
      | exact same_assignment_refl t
      | exact h

theorem take_source_size_same {Filename : Type} (c : Collaborators Filename)
    (t : TextureImageRecord Filename) : SameAssignment t (take_source_size c t) := by
  have h := get_preferred_source_same c t
  unfold take_source_size
  dsimp only
  split
  · split_ifs
    · exact ⟨h.1, h.2.1, h.2.2.1, h.2.2.2⟩
    · exact h
  · exact h

theorem take_requested_size_same {Filename : Type} (t : TextureImageRecord Filename) :
    SameAssignment t (take_requested_size t) := by
  unfold take_requested_size
  split_ifs
  · exact ⟨rfl, rfl, rfl, rfl⟩
  · exact same_assignment_refl t

theorem take_channels_same {Filename : Type} (c : Collaborators Filename)
    (t : TextureImageRecord Filename) : SameAssignment t (take_channels c t).1 := by
  unfold take_channels
  dsimp only
  split_ifs <;>
    first
      | exact same_assignment_refl t
      | exact ⟨rfl, rfl, rfl, rfl⟩
      | exact consider_grayscale_same c t
      | exact consider_unalpha_same c t
      | exact same_assignment_trans _ _ _ (consider_grayscale_same c t)
          (consider_unalpha_same c _)

theorem take_formats_same {Filename : Type} (t : TextureImageRecord Filename) :
    SameAssignment t (take_formats t) :=
  ⟨rfl, rfl, rfl, rfl⟩

theorem apply_txa_request_same {Filename : Type} (c : Collaborators Filename)
    (t : TextureImageRecord Filename) : SameAssignment t (apply_txa_request c t).1 := by
  unfold apply_txa_request
  simp only
  refine same_assignment_trans _ _ _ ?_ (take_formats_same _)
  refine same_assignment_trans _ _ _ ?_ (take_channels_same c _)
  exact same_assignment_trans _ _ _ (take_source_size_same c t) (take_requested_size_same _)

theorem post_txa_file_texture {Filename : Type} (c : Collaborators Filename)
    (t : TextureImageRecord Filename) :
    (post_txa_file c t).texture =
        { (apply_txa_request c t).1 with
            _properties := c.fully_define (apply_txa_request c t).1._properties } ∧
      (post_txa_file c t).images_read = (apply_txa_request c t).2 := by
  unfold post_txa_file
  simp only
  split_ifs <;> exact ⟨rfl, rfl⟩

theorem post_txa_file_same {Filename : Type} (c : Collaborators Filename)
    (t : TextureImageRecord Filename) : SameAssignment t (post_txa_file c t).texture := by
  rw [(post_txa_file_texture c t).1]
  exact apply_txa_request_same c t

/-- C18: `post_txa_file()` calls `force_replace()` on every placement of the
texture when the finalized `_properties` differ (by `operator !=`) from
`_pre_txa_properties`, and on none when they do not; the placement map and
`_actual_assigned_groups` are unchanged either way; and `_pre_txa_properties` is
the `_properties` that `pre_txa_file()` found, whatever the request became in
between. -/
theorem post_txa_file_force_replace {Filename : Type} (c : Collaborators Filename)
    (t : TextureImageRecord Filename) :
    (c.properties_ne (post_txa_file c t).texture._properties t._pre_txa_properties = true →
      (post_txa_file c t).force_replaced = t._placement.map Prod.snd) ∧
    (c.properties_ne (post_txa_file c t).texture._properties t._pre_txa_properties = false →
      (post_txa_file c t).force_replaced = []) ∧
    (post_txa_file c t).texture._placement = t._placement ∧
    (post_txa_file c t).texture._actual_assigned_groups = t._actual_assigned_groups ∧
    (pre_txa_file c t)._pre_txa_properties = t._properties ∧
    (pre_txa_file c t)._placement = t._placement := by
  have hsame := post_txa_file_same c t
  have hreq := apply_txa_request_same c t
  refine ⟨?_, ?_, hsame.1, hsame.2.1, ?_, ?_⟩
  · intro hne
    rw [(post_txa_file_texture c t).1] at hne
    unfold post_txa_file
    simp only [hreq.2.2.1, hne, if_true, force_replace, hreq.1]
  · intro hne
    rw [(post_txa_file_texture c t).1] at hne
    unfold post_txa_file
    simp only [hreq.2.2.1, hne, Bool.false_eq_true, if_false]
  · have h := get_preferred_source_same c { t with _pre_txa_properties := t._properties }
    unfold pre_txa_file
    simp only
    split
    · exact h.2.2.1
    · exact h.2.2.1
  · have h := get_preferred_source_same c { t with _pre_txa_properties := t._properties }
    unfold pre_txa_file
    simp only
    split
    · exact h.1
    · exact h.1

/-- Scenario C on `scenario_c_texture`: 4 channels before, 3 after; both placements
of the texture are forced to be replaced and the groups stay. -/
theorem post_txa_file_force_replace_witness :
    (post_txa_file example_collaborators
        (pre_txa_file example_collaborators scenario_c_texture)).force_replaced = [7, 9] ∧
    (post_txa_file example_collaborators
        (pre_txa_file example_collaborators scenario_c_texture)).texture._properties._num_channels
      = 3 :=
  ⟨((post_txa_file_force_replace example_collaborators
      (pre_txa_file example_collaborators scenario_c_texture)).1 (by decide)).trans (by decide),
    by decide⟩

theorem take_channels_of_request {Filename : Type} (c : Collaborators Filename)
    (t : TextureImageRecord Filename) (h : t._request._got_num_channels = true) :
    take_channels c t =
      ({ t with
          _properties :=
            { t._properties with
                _got_num_channels := true
                _num_channels := t._request._num_channels } }, []) := by
  unfold take_channels
  simp only [h, if_true]

theorem take_source_size_flags {Filename : Type} (c : Collaborators Filename)
    (t : TextureImageRecord Filename) :
    (take_source_size c t)._read_source_image = t._read_source_image ∧
      (take_source_size c t)._ever_read_image = t._ever_read_image ∧
      (take_source_size c t)._forced_grayscale = t._forced_grayscale ∧
      (take_source_size c t)._forced_unalpha = t._forced_unalpha ∧
      (take_source_size c t)._request = t._request := by
  have hp : (get_preferred_source c t).1._read_source_image = t._read_source_image ∧
      (get_preferred_source c t).1._ever_read_image = t._ever_read_image ∧
      (get_preferred_source c t).1._forced_grayscale = t._forced_grayscale ∧
      (get_preferred_source c t).1._forced_unalpha = t._forced_unalpha ∧
      (get_preferred_source c t).1._request = t._request := by
    unfold get_preferred_source
    split <;> exact ⟨rfl, rfl, rfl, rfl, rfl⟩
  unfold take_source_size
  dsimp only
  split
  · split_ifs <;> exact hp
  · exact hp

theorem take_requested_size_of_request {Filename : Type} (t : TextureImageRecord Filename)
    (h : t._request._got_size = true) :
    take_requested_size t =
      { t with
          _size_known := true, _x_size := t._request._x_size, _y_size := t._request._y_size } := by
  unfold take_requested_size
  simp only [h, if_true]

theorem take_requested_size_flags {Filename : Type} (t : TextureImageRecord Filename) :
    (take_requested_size t)._read_source_image = t._read_source_image ∧
      (take_requested_size t)._ever_read_image = t._ever_read_image ∧
      (take_requested_size t)._forced_grayscale = t._forced_grayscale ∧
      (take_requested_size t)._forced_unalpha = t._forced_unalpha ∧
      (take_requested_size t)._request = t._request := by
  unfold take_requested_size
  split_ifs <;> exact ⟨rfl, rfl, rfl, rfl, rfl⟩

/-- The probes and the format requests leave the size of the texture alone. -/
theorem take_channels_size {Filename : Type} (c : Collaborators Filename)
    (t : TextureImageRecord Filename) :
    (take_channels c t).1._size_known = t._size_known ∧
      (take_channels c t).1._x_size = t._x_size ∧
      (take_channels c t).1._y_size = t._y_size := by
  have hp : ∀ x : TextureImageRecord Filename,
      (get_preferred_source c x).1._size_known = x._size_known ∧
      (get_preferred_source c x).1._x_size = x._x_size ∧
      (get_preferred_source c x).1._y_size = x._y_size := by
    intro x
    unfold get_preferred_source
    split <;> exact ⟨rfl, rfl, rfl⟩
  have hr : ∀ x : TextureImageRecord Filename,
      (read_source_image c x).1._size_known = x._size_known ∧
      (read_source_image c x).1._x_size = x._x_size ∧
      (read_source_image c x).1._y_size = x._y_size := by
    intro x
    unfold read_source_image
    split_ifs
    · dsimp only
      split <;> exact hp x
    · exact ⟨rfl, rfl, rfl⟩
  have hg : ∀ x : TextureImageRecord Filename,
      (consider_grayscale c x).1._size_known = x._size_known ∧
      (consider_grayscale c x).1._x_size = x._x_size ∧
      (consider_grayscale c x).1._y_size = x._y_size := by
    intro x
    unfold consider_grayscale
    dsimp only
    split_ifs <;> first | exact ⟨rfl, rfl, rfl⟩ | exact hr x
  have hu : ∀ x : TextureImageRecord Filename,
      (consider_unalpha c x).1._size_known = x._size_known ∧
      (consider_unalpha c x).1._x_size = x._x_size ∧
      (consider_unalpha c x).1._y_size = x._y_size := by
    intro x
    unfold consider_unalpha
    dsimp only
    split_ifs <;> first | exact ⟨rfl, rfl, rfl⟩ | exact hr x
  unfold take_channels
  dsimp only
  split_ifs <;>
    first
      | exact ⟨rfl, rfl, rfl⟩
      | exact hg t
      | exact hu t
      | exact ⟨(hu _).1.trans (hg t).1, (hu _).2.1.trans (hg t).2.1,
          (hu _).2.2.trans (hg t).2.2⟩

/-- C19: when the request carries a channel count, the channel count that
`post_txa_file()` sets is the requested one whatever the source has, neither
probe runs (no source image is read and the flags of the probes stay), and the
count survives `fully_define` when that leaves a count already defined alone;
when the request carries a size, the final size is the requested one whatever the
size of the source is. -/
theorem post_txa_file_request_overrides {Filename : Type} (c : Collaborators Filename)
    (t : TextureImageRecord Filename) :
    (t._request._got_num_channels = true →
      (apply_txa_request c t).1._properties._num_channels = t._request._num_channels ∧
      (apply_txa_request c t).1._properties._got_num_channels = true ∧
      (post_txa_file c t).images_read = [] ∧
      (post_txa_file c t).texture._read_source_image = t._read_source_image ∧
      (post_txa_file c t).texture._ever_read_image = t._ever_read_image ∧
      (post_txa_file c t).texture._forced_grayscale = t._forced_grayscale ∧
      (post_txa_file c t).texture._forced_unalpha = t._forced_unalpha ∧
      ((∀ p, p._got_num_channels = true → (c.fully_define p)._num_channels = p._num_channels) →
        (post_txa_file c t).texture._properties._num_channels = t._request._num_channels)) ∧
    (t._request._got_size = true →
      (post_txa_file c t).texture._size_known = true ∧
      (post_txa_file c t).texture._x_size = t._request._x_size ∧
      (post_txa_file c t).texture._y_size = t._request._y_size) := by
  have hs := take_source_size_flags c t
  have hq := take_requested_size_flags (take_source_size c t)
  have hreq : (take_requested_size (take_source_size c t))._request = t._request :=
    hq.2.2.2.2.trans hs.2.2.2.2
  constructor
  · intro hgot
    have hgot' : (take_requested_size (take_source_size c t))._request._got_num_channels
        = true := by rw [hreq]; exact hgot
    have hch := take_channels_of_request c _ hgot'
    have hnum : (apply_txa_request c t).1._properties._num_channels =
        t._request._num_channels := by
      unfold apply_txa_request
      dsimp only
      rw [hch]
      unfold take_formats
      dsimp only
      rw [hreq]
      split_ifs <;> rfl
    have hgotp : (apply_txa_request c t).1._properties._got_num_channels = true := by
      unfold apply_txa_request
      dsimp only
      rw [hch]
      unfold take_formats
      dsimp only
      split_ifs <;> rfl
    have himg : (apply_txa_request c t).2 = [] := by
      unfold apply_txa_request
      dsimp only
      rw [hch]
    have hflags : (apply_txa_request c t).1._read_source_image = t._read_source_image ∧
        (apply_txa_request c t).1._ever_read_image = t._ever_read_image ∧
        (apply_txa_request c t).1._forced_grayscale = t._forced_grayscale ∧
        (apply_txa_request c t).1._forced_unalpha = t._forced_unalpha := by
      unfold apply_txa_request
      dsimp only
      rw [hch]
      exact ⟨hq.1.trans hs.1, hq.2.1.trans hs.2.1, hq.2.2.1.trans hs.2.2.1,
        hq.2.2.2.1.trans hs.2.2.2.1⟩
    have hpost := post_txa_file_texture c t
    refine ⟨hnum, hgotp, hpost.2.trans himg, ?_, ?_, ?_, ?_, ?_⟩
    · rw [hpost.1]; exact hflags.1
    · rw [hpost.1]; exact hflags.2.1
    · rw [hpost.1]; exact hflags.2.2.1
    · rw [hpost.1]; exact hflags.2.2.2
    · intro hfd
      rw [hpost.1]
      exact (hfd _ hgotp).trans hnum
  · intro hgot
    have hgot' : (take_source_size c t)._request._got_size = true := by
      rw [hs.2.2.2.2]; exact hgot
    have hsize := take_requested_size_of_request _ hgot'
    have hch := take_channels_size c (take_requested_size (take_source_size c t))
    rw [(post_txa_file_texture c t).1]
    unfold apply_txa_request
    dsimp only
    unfold take_formats
    dsimp only
    refine ⟨hch.1.trans ?_, hch.2.1.trans ?_, hch.2.2.trans ?_⟩
    · rw [hsize]
    · rw [hsize, hs.2.2.2.2]
    · rw [hsize, hs.2.2.2.2]

theorem post_txa_file_request_overrides_witness :
    (requested_texture._request._got_num_channels = true ∧
      requested_texture._request._got_size = true) ∧
    ((post_txa_file example_collaborators requested_texture).images_read = [] ∧
      (post_txa_file example_collaborators requested_texture).texture._properties._num_channels
        = requested_texture._request._num_channels) ∧
    ((post_txa_file example_collaborators requested_texture).texture._size_known = true ∧
      (post_txa_file example_collaborators requested_texture).texture._x_size =
        requested_texture._request._x_size ∧
      (post_txa_file example_collaborators requested_texture).texture._y_size =
        requested_texture._request._y_size) :=
  ⟨⟨rfl, rfl⟩,
    ⟨((post_txa_file_request_overrides example_collaborators requested_texture).1 rfl).2.2.1,
      ((post_txa_file_request_overrides example_collaborators requested_texture).1
        rfl).2.2.2.2.2.2.2 (fun _ _ => rfl)⟩,
    (post_txa_file_request_overrides example_collaborators requested_texture).2 rfl⟩

/-- For the example palettizer and `redo_all` unset: the egg file `c` is to be read
and its read succeeds, so it is scanned and placed although the read of `b`
before it failed. -/
theorem read_stale_eggs_reads_witness :
    (to_read example_egg_collaborators false ⟨3, ['c']⟩ = true ∧
      example_egg_collaborators.read_egg ⟨3, ['c']⟩ = true) ∧
    (EggCall.scan_textures ⟨3, ['c']⟩ ∈
        (read_stale_eggs example_egg_collaborators example_palettizer false).2 ∧
      EggCall.choose_placements ⟨3, ['c']⟩ ∈
        (read_stale_eggs example_egg_collaborators example_palettizer false).2) :=
  ⟨⟨by decide, by decide⟩,
    (read_stale_eggs_reads example_egg_collaborators example_palettizer false).2.2.2
      (['c'], ⟨3, ['c']⟩) (by decide) (by decide) (by decide)⟩

/-! ## The choice of the best group -/

theorem as_good_refl (tbl : GroupTable) (needed : WorkingEggs) (r : PaletteGroup) :
    AsGood tbl needed r r :=
  ⟨le_refl _, fun _ => ⟨le_refl _, fun _ => le_refl _⟩⟩

theorem as_good_trans (tbl : GroupTable) (needed : WorkingEggs) (a b g : PaletteGroup)
    (h1 : AsGood tbl needed a b) (h2 : AsGood tbl needed b g) : AsGood tbl needed a g := by
  refine ⟨le_trans h2.1 h1.1, ?_⟩
  intro hc
  have hgb : compute_egg_count g needed = compute_egg_count b needed :=
    le_antisymm h2.1 (hc ▸ h1.1)
  have hba : compute_egg_count b needed = compute_egg_count a needed := hgb ▸ hc
  have d1 := h1.2 hba
  have d2 := h2.2 hgb
  refine ⟨le_trans d1.1 d2.1, ?_⟩
  intro hd
  have hab : tbl.get_dependency_level a = tbl.get_dependency_level b :=
    le_antisymm d1.1 (hd ▸ d2.1)
  have hbg : tbl.get_dependency_level b = tbl.get_dependency_level g := hab ▸ hd
  exact le_trans (d1.2 hab) (d2.2 hbg)

/-- What the test of `assign_groups` decides between `group` and `best`. -/
theorem prefer_group_as_good (tbl : GroupTable) (needed : WorkingEggs)
    (group best : PaletteGroup) :
    (prefer_group tbl group (compute_egg_count group needed) best
        (compute_egg_count best needed) = true → AsGood tbl needed group best) ∧
    (prefer_group tbl group (compute_egg_count group needed) best
        (compute_egg_count best needed) = false → AsGood tbl needed best group) := by
  unfold prefer_group AsGood
  by_cases hc : compute_egg_count group needed = compute_egg_count best needed
  · simp only [hc, ne_eq, not_true_eq_false, if_false, le_refl, true_and, forall_const]
    by_cases hd : tbl.get_dependency_level group = tbl.get_dependency_level best
    · simp only [hd, not_true_eq_false, if_false, decide_eq_true_eq, decide_eq_false_iff_not,
        not_lt, le_refl, true_and, forall_const]
      exact ⟨fun h => le_of_lt h, fun h => h⟩
    · simp only [hd, not_false_eq_true, if_true, decide_eq_true_eq, decide_eq_false_iff_not,
        not_lt]
      constructor
      · intro h
        exact ⟨le_of_lt h, fun heq => by
          first | exact absurd heq hd | exact absurd heq.symm hd | exact heq.elim⟩
      · intro h
        exact ⟨h, fun heq => by
          first | exact absurd heq hd | exact absurd heq.symm hd⟩
  · simp only [hc, ne_eq, not_false_eq_true, if_true, decide_eq_true_eq,
      decide_eq_false_iff_not, not_lt]
    constructor
    · intro h
      exact ⟨le_of_lt h, fun heq => by
        first | exact absurd heq hc | exact absurd heq.symm hc⟩
    · intro h
      exact ⟨h, fun heq => by
        first | exact absurd heq hc | exact absurd heq.symm hc | exact heq.elim⟩

/-- The scan returns a group that is at least as good as the `best` it started
from and as every group it went through. -/
theorem scan_best_as_good (tbl : GroupTable) (needed : WorkingEggs) (best : PaletteGroup)
    (gi : List PaletteGroup) :
    ∀ g ∈ best :: gi,
      AsGood tbl needed (scan_best tbl needed best (compute_egg_count best needed) gi) g := by
  induction gi generalizing best with
  | nil =>
    intro g hg
    rw [List.mem_singleton.1 hg]
    exact as_good_refl tbl needed best
  | cons group gi ih =>
    intro g hg
    unfold scan_best
    simp only
    have hpref := prefer_group_as_good tbl needed group best
    cases hp : prefer_group tbl group (compute_egg_count group needed) best
        (compute_egg_count best needed) with
    | true =>
      simp only [if_true]
      rcases List.mem_cons.1 hg with rfl | hg
      · exact as_good_trans tbl needed _ _ _ (ih group group (List.mem_cons_self _ _))
          (hpref.1 hp)
      · exact ih group g hg
    | false =>
      simp only [Bool.false_eq_true, if_false]
      rcases List.mem_cons.1 hg with rfl | hg
      · exact ih g g (List.mem_cons_self _ _)
      · rcases List.mem_cons.1 hg with rfl | hg
        · exact as_good_trans tbl needed _ _ _ (ih best best (List.mem_cons_self _ _))
            (hpref.2 hp)
        · exact ih best g (List.mem_cons_of_mem _ hg)

/-- Each pick of the main loop is the best group for the egg files still needed
after the picks before it. -/
theorem needed_picks_best_group (tbl : GroupTable) (fuel : Nat) (needed : WorkingEggs)
    (p1 p2 : List PaletteGroup) (g : PaletteGroup)
    (h : needed_picks tbl fuel needed = p1 ++ g :: p2) :
    best_group tbl (still_needed needed p1) = some g := by
  induction fuel generalizing needed p1 with
  | zero =>
    cases needed with
    | nil => simp [needed_picks] at h
    | cons e es => simp [needed_picks] at h
  | succ n ih =>
    cases needed with
    | nil => simp [needed_picks] at h
    | cons e es =>
      unfold needed_picks at h
      split at h
      · simp at h
      · rename_i best hbest
        cases p1 with
        | nil =>
          simp only [List.nil_append, List.cons.injEq] at h
          rw [← h.1]
          exact hbest
        | cons x p1' =>
          simp only [List.cons_append, List.cons.injEq] at h
          have := ih _ p1' h.2
          rw [← h.1]
          exact this

/-- What `compute_egg_count` returns is the number of the egg files whose complete
groups contain the group. -/
theorem compute_egg_count_eq_filter (g : PaletteGroup) (needed : WorkingEggs) :
    compute_egg_count g needed =
      (needed.filter (fun e => decide (g ∈ e.complete_groups))).length := by
  induction needed with
  | nil => rfl
  | cons e es ih =>
    unfold compute_egg_count
    by_cases h : g ∈ e.complete_groups
    · have hc : PaletteGroups.count e.complete_groups g ≠ 0 :=
        (PaletteGroups.count_ne_zero _ _).2 h
      have hstep : List.filter (fun e : EggFile => decide (g ∈ e.complete_groups)) (e :: es) =
          e :: List.filter (fun e : EggFile => decide (g ∈ e.complete_groups)) es :=
        List.filter_cons_of_pos (decide_eq_true h)
      rw [hstep]
      simp only [hc, ne_eq, not_false_eq_true, if_true, List.length_cons, ih]
    · have hc : ¬ PaletteGroups.count e.complete_groups g ≠ 0 := by
        rw [PaletteGroups.count_ne_zero]
        exact h
      have hstep : List.filter (fun e : EggFile => decide (g ∈ e.complete_groups)) (e :: es) =
          List.filter (fun e : EggFile => decide (g ∈ e.complete_groups)) es :=
        List.filter_cons_of_neg (by simpa using h)
      rw [hstep]
      simp only [hc, if_false, ih]

/-- C21: the group that a round of the needed-eggs loop chooses is one of the
union of the complete groups of the needed egg files, and no group of that union
satisfies more needed egg files, counting the needed egg files whose complete
groups contain the group; none that satisfies as many has a lower dependency
level; and none that also has the same level has a lower egg count.  Every pick
of the loop is chosen this way from the egg files still needed. -/
theorem best_group_optimal (tbl : GroupTable) (needed : WorkingEggs) (best : PaletteGroup)
    (h : best_group tbl needed = some best) :
    best ∈ total_groups needed ∧
      (∀ g ∈ total_groups needed,
        (needed.filter (fun e => decide (g ∈ e.complete_groups))).length ≤
          (needed.filter (fun e => decide (best ∈ e.complete_groups))).length ∧
        ((needed.filter (fun e => decide (g ∈ e.complete_groups))).length =
            (needed.filter (fun e => decide (best ∈ e.complete_groups))).length →
          tbl.get_dependency_level best ≤ tbl.get_dependency_level g ∧
          (tbl.get_dependency_level best = tbl.get_dependency_level g →
            tbl.get_egg_count best ≤ tbl.get_egg_count g))) ∧
      ∀ fuel p1 g p2, needed_picks tbl fuel needed = p1 ++ g :: p2 →
        best_group tbl (still_needed needed p1) = some g := by
  refine ⟨?_, ?_, fun fuel p1 g p2 hp => needed_picks_best_group tbl fuel needed p1 p2 g hp⟩
  · unfold best_group at h
    split at h
    · cases h
    · rename_i first gi htot
      rw [htot, ← Option.some.inj h]
      exact scan_best_mem tbl needed first _ gi
  · unfold best_group at h
    split at h
    · cases h
    · rename_i first gi htot
      intro g hg
      rw [htot] at hg
      have := scan_best_as_good tbl needed first gi g hg
      rw [Option.some.inj h] at this
      unfold AsGood at this
      rw [compute_egg_count_eq_filter g needed, compute_egg_count_eq_filter best needed] at this
      exact this

theorem best_group_optimal_witness :
    best_group example_table greedy_texture._egg_files = some 1 ∧
    (1 ∈ total_groups greedy_texture._egg_files ∧
      (∀ g ∈ total_groups greedy_texture._egg_files,
        (greedy_texture._egg_files.filter (fun e => decide (g ∈ e.complete_groups))).length ≤
          (greedy_texture._egg_files.filter (fun e => decide (1 ∈ e.complete_groups))).length ∧
        ((greedy_texture._egg_files.filter (fun e => decide (g ∈ e.complete_groups))).length =
            (greedy_texture._egg_files.filter
              (fun e => decide (1 ∈ e.complete_groups))).length →
          example_table.get_dependency_level 1 ≤ example_table.get_dependency_level g ∧
          (example_table.get_dependency_level 1 = example_table.get_dependency_level g →
            example_table.get_egg_count 1 ≤ example_table.get_egg_count g))) ∧
      ∀ fuel p1 g p2,
        needed_picks example_table fuel greedy_texture._egg_files = p1 ++ g :: p2 →
        best_group example_table (still_needed greedy_texture._egg_files p1) = some g) :=
  ⟨by decide, best_group_optimal example_table greedy_texture._egg_files 1 (by decide)⟩

/-! ## The merge of `assign_to_groups` -/

theorem placement_at_cons_ne (b : PaletteGroup) (place : TexturePlacement) (pi : Placement)
    (g : PaletteGroup) (h : b ≠ g) : placement_at ((b, place) :: pi) g = placement_at pi g := by
  unfold placement_at
  rw [List.find?_cons_of_neg]
  simp [h]

theorem placement_at_cons_self (b : PaletteGroup) (place : TexturePlacement) (pi : Placement) :
    placement_at ((b, place) :: pi) b = some place := by
  unfold placement_at
  simp

theorem placement_at_of_lt (pl : Placement) (g : PaletteGroup) (h : ∀ e ∈ pl, g < e.1) :
    placement_at pl g = none := by
  induction pl with
  | nil => rfl
  | cons e pi ih =>
    obtain ⟨b, place⟩ := e
    rw [placement_at_cons_ne b place pi g (ne_of_gt (h (b, place) (List.mem_cons_self _ _)))]
    exact ih (fun x hx => h x (List.mem_cons_of_mem _ hx))

theorem get_placement_eq {Filename : Type} (t : TextureImage Filename) (g : PaletteGroup) :
    get_placement t g = placement_at t._placement g := by
  unfold get_placement placement_at
  cases t._placement.find? (fun e => e.1 == g) <;> rfl

theorem assign_walk_at_merge (prepare : PaletteGroup → TexturePlacement) (a : PaletteGroup)
    (gi : PaletteGroups) (ha : ∀ g ∈ gi, a < g) (rest : Placement → Reconciled)
    (hrest : ∀ pl, KeySorted pl →
      (rest pl).new_placement =
          gi.map (fun g => (g, (placement_at pl g).getD (prepare g))) ∧
        (rest pl).prepared = gi.filter (fun g => decide (g ∉ pl.map Prod.fst)) ∧
        (rest pl).deleted = (pl.filter (fun e => decide (e.1 ∉ gi))).map Prod.snd)
    (pl : Placement) (hp : KeySorted pl) :
    (assign_walk_at prepare a rest pl).new_placement =
        (a :: gi).map (fun g => (g, (placement_at pl g).getD (prepare g))) ∧
      (assign_walk_at prepare a rest pl).prepared =
        (a :: gi).filter (fun g => decide (g ∉ pl.map Prod.fst)) ∧
      (assign_walk_at prepare a rest pl).deleted =
        (pl.filter (fun e => decide (e.1 ∉ a :: gi))).map Prod.snd := by
  induction pl with
  | nil =>
    obtain ⟨h1, h2, h3⟩ := hrest [] hp
    unfold assign_walk_at
    refine ⟨?_, ?_, ?_⟩
    · simp only [h1, List.map_cons]
      rfl
    · simp only [h2]
      rfl
    · simp only [h3]
      rfl
  | cons e pi ih =>
    obtain ⟨b, place⟩ := e
    have hp' := hp
    unfold KeySorted at hp'
    rw [List.pairwise_cons] at hp'
    have hpi : KeySorted pi := hp'.2
    unfold assign_walk_at
    split_ifs with h1 h2
    · -- a < b: the group is new
      obtain ⟨r1, r2, r3⟩ := hrest ((b, place) :: pi) hp
      have hall : ∀ x ∈ (b, place) :: pi, a < x.1 := by
        intro x hx
        rcases List.mem_cons.1 hx with rfl | hx
        · exact h1
        · exact lt_trans h1 (hp'.1 x hx)
      have hnot : a ∉ ((b, place) :: pi).map Prod.fst := by
        intro hm
        obtain ⟨x, hx, hxa⟩ := List.mem_map.1 hm
        exact absurd hxa (ne_of_gt (hall x hx))
      refine ⟨?_, ?_, ?_⟩
      · simp only [r1, List.map_cons, placement_at_of_lt _ a hall, Option.getD_none]
      · simp only [r2]
        have hstep : List.filter (fun g : PaletteGroup =>
              decide (g ∉ ((b, place) :: pi).map Prod.fst)) (a :: gi) =
            a :: List.filter (fun g : PaletteGroup =>
              decide (g ∉ ((b, place) :: pi).map Prod.fst)) gi :=
          List.filter_cons_of_pos (decide_eq_true hnot)
        rw [hstep]
      · simp only [r3]
        congr 1
        apply List.filter_congr
        intro x hx
        have hne : x.1 ≠ a := ne_of_gt (hall x hx)
        simp [hne]
    · -- b < a: the old placement goes
      obtain ⟨i1, i2, i3⟩ := ih hpi
      have hge : ∀ g ∈ a :: gi, b ≠ g := by
        intro g hg
        rcases List.mem_cons.1 hg with rfl | hg
        · exact ne_of_lt h2
        · exact ne_of_lt (lt_trans h2 (ha g hg))
      refine ⟨?_, ?_, ?_⟩
      · simp only [i1]
        apply List.map_congr_left
        intro g hg
        rw [placement_at_cons_ne b place pi g (hge g hg)]
      · simp only [i2]
        apply List.filter_congr
        intro g hg
        have hne : g ≠ b := fun h => hge g hg h.symm
        simp [hne]
      · simp only [i3]
        have hnot : b ∉ a :: gi := fun hm => hge b hm rfl
        have hstep : List.filter (fun e : PaletteGroup × TexturePlacement =>
              decide (e.1 ∉ a :: gi)) ((b, place) :: pi) =
            (b, place) :: List.filter (fun e : PaletteGroup × TexturePlacement =>
              decide (e.1 ∉ a :: gi)) pi :=
          List.filter_cons_of_pos (decide_eq_true hnot)
        rw [hstep]
        rfl
    · -- a = b: the placement stays
      have heq : a = b := le_antisymm (not_lt.1 h2) (not_lt.1 h1)
      subst heq
      obtain ⟨r1, r2, r3⟩ := hrest pi hpi
      have hgt : ∀ g ∈ gi, a ≠ g := fun g hg => ne_of_lt (ha g hg)
      refine ⟨?_, ?_, ?_⟩
      · simp only [r1, List.map_cons, placement_at_cons_self, Option.getD_some]
        congr 1
        apply List.map_congr_left
        intro g hg
        rw [placement_at_cons_ne a place pi g (hgt g hg)]
      · simp only [r2]
        have hstep : List.filter (fun g : PaletteGroup =>
              decide (g ∉ ((a, place) :: pi).map Prod.fst)) (a :: gi) =
            List.filter (fun g : PaletteGroup =>
              decide (g ∉ ((a, place) :: pi).map Prod.fst)) gi :=
          List.filter_cons_of_neg (by simp)
        rw [hstep]
        apply List.filter_congr
        intro g hg
        have hne : g ≠ a := fun h => hgt g hg h.symm
        simp [hne]
      · simp only [r3]
        have hstep : List.filter (fun e : PaletteGroup × TexturePlacement =>
              decide (e.1 ∉ a :: gi)) ((a, place) :: pi) =
            List.filter (fun e : PaletteGroup × TexturePlacement =>
              decide (e.1 ∉ a :: gi)) pi :=
          List.filter_cons_of_neg (by simp)
        rw [hstep]
        congr 1
        apply List.filter_congr
        intro x hx
        have hne : x.1 ≠ a := ne_of_gt (hp'.1 x hx)
        simp [hne]

/-- On maps in strict order the walk is the merge: every group gets the placement
it had or a prepared one, the groups prepared are those without a placement, and
the placements deleted are those of the groups no longer assigned. -/
theorem assign_walk_merge (prepare : PaletteGroup → TexturePlacement) (groups : PaletteGroups)
    (hg : GroupSorted groups) (pl : Placement) (hp : KeySorted pl) :
    (assign_walk prepare groups pl).new_placement =
        groups.map (fun g => (g, (placement_at pl g).getD (prepare g))) ∧
      (assign_walk prepare groups pl).prepared =
        groups.filter (fun g => decide (g ∉ pl.map Prod.fst)) ∧
      (assign_walk prepare groups pl).deleted =
        (pl.filter (fun e => decide (e.1 ∉ groups))).map Prod.snd := by
  induction groups generalizing pl with
  | nil =>
    unfold assign_walk
    simp
  | cons a gi ih =>
    unfold GroupSorted at hg ih
    rw [List.pairwise_cons] at hg
    unfold assign_walk
    exact assign_walk_at_merge prepare a gi hg.1 _ (fun pl' hp' => ih hg.2 pl' hp') pl hp

theorem placement_at_map (f : PaletteGroup → TexturePlacement) (gs : PaletteGroups)
    (g : PaletteGroup) (hg : g ∈ gs) :
    placement_at (gs.map (fun x => (x, f x))) g = some (f g) := by
  induction gs with
  | nil => cases hg
  | cons a gi ih =>
    by_cases ha : a = g
    · subst ha
      exact placement_at_cons_self a (f a) _
    · rw [List.map_cons, placement_at_cons_ne a (f a) _ g ha]
      rcases List.mem_cons.1 hg with h | h
      · exact absurd h.symm ha
      · exact ih h

/-- C22: for a group set and a placement map in strict order, `assign_to_groups`
keeps for every group present in both the placement object it had; calls
`prepare` once for each group of `groups` that had no placement, and for no
other group, and stores what it returns; and deletes exactly the placements of
the groups of the old map that are not in `groups`. -/
theorem assign_to_groups_merge {Filename : Type} (prepare : PaletteGroup → TexturePlacement)
    (t : TextureImage Filename) (groups : PaletteGroups) (hg : GroupSorted groups)
    (hp : KeySorted t._placement) :
    (∀ g p, g ∈ groups → get_placement t g = some p →
      get_placement (assign_to_groups prepare t groups).texture g = some p) ∧
    (assign_to_groups prepare t groups).prepared =
      groups.filter (fun g => decide (g ∉ t._placement.map Prod.fst)) ∧
    (assign_to_groups prepare t groups).prepared.Nodup ∧
    (∀ g ∈ (assign_to_groups prepare t groups).prepared,
      get_placement (assign_to_groups prepare t groups).texture g = some (prepare g)) ∧
    (assign_to_groups prepare t groups).deleted =
      (t._placement.filter (fun e => decide (e.1 ∉ groups))).map Prod.snd ∧
    (assign_to_groups prepare t groups).texture._placement =
      groups.map (fun g => (g, (get_placement t g).getD (prepare g))) := by
  obtain ⟨h1, h2, h3⟩ := assign_walk_merge prepare groups hg t._placement hp
  have hnew : (assign_to_groups prepare t groups).texture._placement =
      groups.map (fun g => (g, (placement_at t._placement g).getD (prepare g))) := h1
  have hnodup : groups.Nodup := by
    unfold GroupSorted at hg
    exact List.Pairwise.imp (fun hlt => ne_of_lt hlt) hg
  refine ⟨?_, h2, ?_, ?_, h3, ?_⟩
  · intro g p hgin hold
    rw [get_placement_eq, hnew,
      placement_at_map (fun g => (placement_at t._placement g).getD (prepare g)) groups g hgin,
      ← get_placement_eq, hold]
    rfl
  · show ((assign_walk prepare groups t._placement).prepared).Nodup
    rw [h2]
    exact hnodup.filter _
  · intro g hgp
    have hgp' : g ∈ groups.filter (fun g => decide (g ∉ t._placement.map Prod.fst)) := by
      rw [← h2]
      exact hgp
    have hgin : g ∈ groups := (List.mem_filter.1 hgp').1
    have hnot : g ∉ t._placement.map Prod.fst := of_decide_eq_true (List.mem_filter.1 hgp').2
    have hnone : placement_at t._placement g = none := by
      unfold placement_at
      rw [Option.map_eq_none', List.find?_eq_none]
      intro e he hbeq
      apply hnot
      have : e.1 = g := by simpa using hbeq
      rw [← this]
      exact List.mem_map_of_mem Prod.fst he
    rw [get_placement_eq, hnew,
      placement_at_map (fun g => (placement_at t._placement g).getD (prepare g)) groups g hgin,
      hnone]
    rfl
  · rw [hnew]
    apply List.map_congr_left
    intro g _
    rw [get_placement_eq]

theorem assign_to_groups_merge_witness :
    (GroupSorted [2, 5, 8] ∧ KeySorted mixed_texture._placement) ∧
    ((∀ g p, g ∈ [2, 5, 8] → get_placement mixed_texture g = some p →
      get_placement (assign_to_groups example_prepare mixed_texture [2, 5, 8]).texture g
        = some p) ∧
    (assign_to_groups example_prepare mixed_texture [2, 5, 8]).prepared =
      [2, 5, 8].filter (fun g => decide (g ∉ mixed_texture._placement.map Prod.fst)) ∧
    (assign_to_groups example_prepare mixed_texture [2, 5, 8]).prepared.Nodup ∧
    (∀ g ∈ (assign_to_groups example_prepare mixed_texture [2, 5, 8]).prepared,
      get_placement (assign_to_groups example_prepare mixed_texture [2, 5, 8]).texture g =
        some (example_prepare g)) ∧
    (assign_to_groups example_prepare mixed_texture [2, 5, 8]).deleted =
      (mixed_texture._placement.filter (fun e => decide (e.1 ∉ [2, 5, 8]))).map Prod.snd ∧
    (assign_to_groups example_prepare mixed_texture [2, 5, 8]).texture._placement =
      [2, 5, 8].map (fun g => (g, (get_placement mixed_texture g).getD (example_prepare g)))) :=
  ⟨⟨by unfold GroupSorted; decide, by unfold KeySorted; decide⟩,
    assign_to_groups_merge example_prepare mixed_texture [2, 5, 8]
      (by unfold GroupSorted; decide) (by unfold KeySorted; decide)⟩

/-! ## The assertion, the number of rounds and the groups assigned -/

theorem total_groups_ne_nil (needed : WorkingEggs) (e : EggFile) (he : e ∈ needed)
    (hne : e.complete_groups ≠ []) : total_groups needed ≠ [] := by
  obtain ⟨g, hg⟩ := List.exists_mem_of_ne_nil _ hne
  intro hnil
  have : g ∈ total_groups needed := (mem_total_groups g needed).2 ⟨e, he, hg⟩
  rw [hnil] at this
  cases this

/-- C23: when every egg file referencing the texture has non-empty complete
groups, the union `total` of every non-empty list of such egg files is not empty,
the needed-eggs loop never returns at the assertion, and `assign_groups()`
reaches `assign_to_groups`. -/
theorem assign_groups_assertion_holds {Filename : Type} (tbl : GroupTable)
    (prepare : PaletteGroup → TexturePlacement) (t : TextureImage Filename)
    (hcg : ∀ e ∈ t._egg_files, e.complete_groups ≠ []) :
    (∀ needed : WorkingEggs, needed ≠ [] → (∀ e ∈ needed, e ∈ t._egg_files) →
      total_groups needed ≠ [] ∧ best_group tbl needed ≠ none) ∧
    (∀ fuel d, needed_loop tbl fuel (initial_needed t).2 d ≠ .assertion_failed) ∧
    ∃ d, assign_groups tbl prepare t = some (assign_to_groups prepare t d) ∧
      (assign_to_groups prepare t d).assertion_failed = false := by
  refine ⟨?_, ?_, ?_⟩
  · intro needed hne hsub
    obtain ⟨e, he⟩ := List.exists_mem_of_ne_nil _ hne
    exact ⟨total_groups_ne_nil needed e he (hcg e (hsub e he)),
      best_group_ne_none tbl needed e he (hcg e (hsub e he))⟩
  · intro fuel d
    exact needed_loop_ne_assertion_failed tbl fuel _ d
      (fun e he => hcg e (initial_needed_fresh t e he).1)
  · by_cases hE : t._egg_files = []
    · exact ⟨[], assign_groups_of_no_eggs tbl prepare t hE, rfl⟩
    · obtain ⟨d, _, hres⟩ := assign_groups_finished tbl prepare t hE hcg
      exact ⟨d, hres, rfl⟩

theorem assign_groups_assertion_holds_witness :
    (∀ e ∈ greedy_texture._egg_files, e.complete_groups ≠ []) ∧
    ∃ d, assign_groups example_table example_prepare greedy_texture =
        some (assign_to_groups example_prepare greedy_texture d) ∧
      (assign_to_groups example_prepare greedy_texture d).assertion_failed = false :=
  ⟨by decide,
    (assign_groups_assertion_holds example_table example_prepare greedy_texture
      (by decide)).2.2⟩

theorem insert_length_le (g : PaletteGroup) (s : PaletteGroups) :
    (PaletteGroups.insert g s).length ≤ s.length + 1 := by
  induction s with
  | nil => simp [PaletteGroups.insert]
  | cons h t ih =>
    unfold PaletteGroups.insert
    split_ifs
    · simp
    · simp only [List.length_cons]
      omega
    · simp

theorem foldl_insert_length_le (picks : List PaletteGroup) (d : PaletteGroups) :
    (picks.foldl (fun s g => PaletteGroups.insert g s) d).length ≤ d.length + picks.length := by
  induction picks generalizing d with
  | nil => simp
  | cons g gs ih =>
    simp only [List.foldl_cons, List.length_cons]
    have h1 := ih (PaletteGroups.insert g d)
    have h2 := insert_length_le g d
    omega

/-- The main loop has at most one round, and so one pick, per needed egg file. -/
theorem needed_picks_length_le (tbl : GroupTable) (fuel : Nat) (needed : WorkingEggs) :
    (needed_picks tbl fuel needed).length ≤ needed.length := by
  induction fuel generalizing needed with
  | zero => cases needed <;> simp [needed_picks]
  | succ n ih =>
    cases needed with
    | nil => simp [needed_picks]
    | cons e es =>
      unfold needed_picks
      split
      · simp
      · rename_i best hbest
        have h1 := ih (next_needed_eggs best (e :: es))
        have h2 := next_needed_eggs_length_lt best (e :: es) (best_group_mem tbl _ _ hbest)
        simp only [List.length_cons] at h2 ⊢
        omega

theorem explicit_pass_length (ex : PaletteGroups) (eggs : List EggFile) (d : PaletteGroups)
    (n : WorkingEggs) :
    (explicit_pass ex eggs d n).1.length + (explicit_pass ex eggs d n).2.length ≤
      d.length + n.length + eggs.length := by
  induction eggs generalizing d n with
  | nil => simp [explicit_pass]
  | cons e es ih =>
    unfold explicit_pass
    split
    · rename_i g gs _
      have h1 := ih (PaletteGroups.insert g d) n
      have h2 := insert_length_le g d
      simp only [List.length_cons]
      omega
    · have h1 := ih d (n ++ [e])
      simp only [List.length_append, List.length_singleton] at h1
      simp only [List.length_cons]
      omega

theorem initial_needed_length {Filename : Type} (t : TextureImage Filename) :
    (initial_needed t).1.length + (initial_needed t).2.length ≤ t._egg_files.length := by
  unfold initial_needed
  split_ifs
  · simp
  · have := explicit_pass_length t._explicitly_assigned_groups t._egg_files [] []
    simpa using this

/-- When `assign_groups()` does not return at the assertion, either there is no
egg file and nothing is assigned, or the set assigned is the one the main loop
finished with. -/
theorem assign_groups_outcome {Filename : Type} (tbl : GroupTable)
    (prepare : PaletteGroup → TexturePlacement) (t : TextureImage Filename)
    (r : Assigned Filename) (h : assign_groups tbl prepare t = some r)
    (hok : r.assertion_failed = false) :
    (t._egg_files = [] ∧ get_groups r.texture = []) ∨
      needed_loop tbl (initial_needed t).2.length (initial_needed t).2 (initial_needed t).1 =
        .finished (get_groups r.texture) := by
  by_cases hE : t._egg_files = []
  · left
    rw [assign_groups_of_no_eggs tbl prepare t hE] at h
    rw [← Option.some.inj h]
    exact ⟨hE, rfl⟩
  · right
    have hemp : t._egg_files.isEmpty = false := by
      cases hl : t._egg_files with
      | nil => exact absurd hl hE
      | cons a l => rfl
    unfold assign_groups at h
    simp only [hemp, Bool.false_eq_true, if_false] at h
    cases hloop : needed_loop tbl (initial_needed t).2.length (initial_needed t).2
        (initial_needed t).1 with
    | finished d =>
      rw [hloop] at h
      rw [← Option.some.inj h]
      rfl
    | assertion_failed =>
      rw [hloop] at h
      rw [← Option.some.inj h] at hok
      cases hok
    | out_of_fuel =>
      rw [hloop] at h
      cases h

/-- C27: every selection of the needed-eggs loop satisfies a still-needed egg
file, so the needed list gets strictly shorter; the loop never needs more rounds
than there are needed egg files, and makes no more picks; `assign_groups()`
returns on every input; and when it does not return at the assertion, the number
of groups assigned is at most the number of referencing egg files. -/
theorem assign_groups_terminates {Filename : Type} (tbl : GroupTable)
    (prepare : PaletteGroup → TexturePlacement) (t : TextureImage Filename) :
    (∀ needed best, best_group tbl needed = some best →
      (∃ e ∈ needed, best ∈ e.complete_groups) ∧
      (next_needed_eggs best needed).length < needed.length) ∧
    (∀ fuel needed d, needed.length ≤ fuel → needed_loop tbl fuel needed d ≠ .out_of_fuel) ∧
    (∀ fuel needed, (needed_picks tbl fuel needed).length ≤ needed.length) ∧
    ∃ r, assign_groups tbl prepare t = some r ∧
      (r.assertion_failed = false →
        (get_groups r.texture).length ≤ t._egg_files.length) := by
  refine ⟨?_, ?_, needed_picks_length_le tbl, ?_⟩
  · intro needed best hbest
    have hmem := best_group_mem tbl needed best hbest
    exact ⟨hmem, next_needed_eggs_length_lt best needed hmem⟩
  · intro fuel needed d hfuel
    exact needed_loop_ne_out_of_fuel tbl fuel needed d hfuel
  · obtain ⟨r, hr⟩ := assign_groups_returns tbl prepare t
    refine ⟨r, hr, ?_⟩
    intro hok
    rcases assign_groups_outcome tbl prepare t r hr hok with ⟨_, hnil⟩ | hloop
    · rw [hnil]
      exact Nat.zero_le _
    · rw [needed_loop_eq_picks tbl _ _ _ _ hloop]
      have h1 := foldl_insert_length_le
        (needed_picks tbl (initial_needed t).2.length (initial_needed t).2) (initial_needed t).1
      have h2 := needed_picks_length_le tbl (initial_needed t).2.length (initial_needed t).2
      have h3 := initial_needed_length t
      omega

theorem assign_groups_terminates_witness :
    (∃ r, assign_groups example_table example_prepare greedy_texture = some r ∧
      r.assertion_failed = false) ∧
    ∃ r, assign_groups example_table example_prepare greedy_texture = some r ∧
      (r.assertion_failed = false →
        (get_groups r.texture).length ≤ greedy_texture._egg_files.length) :=
  ⟨⟨_, rfl, rfl⟩, (assign_groups_terminates example_table example_prepare greedy_texture).2.2.2⟩

/-- C28: every group that `assign_groups()` assigns is in the complete groups of an
egg file referencing the texture, and so in the union of these; an explicitly
assigned group that no referencing egg file has is not assigned. -/
theorem assign_groups_subset {Filename : Type} (tbl : GroupTable)
    (prepare : PaletteGroup → TexturePlacement) (t : TextureImage Filename) :
    ∃ r, assign_groups tbl prepare t = some r ∧
      (r.assertion_failed = false →
        (∀ g ∈ get_groups r.texture, ∃ e ∈ t._egg_files, g ∈ e.complete_groups) ∧
        (∀ g ∈ get_groups r.texture, g ∈ total_groups t._egg_files) ∧
        (∀ g ∈ t._explicitly_assigned_groups,
          (∀ e ∈ t._egg_files, g ∉ e.complete_groups) → g ∉ get_groups r.texture)) := by
  obtain ⟨r, hr⟩ := assign_groups_returns tbl prepare t
  refine ⟨r, hr, ?_⟩
  intro hok
  have hmain : ∀ g ∈ get_groups r.texture, ∃ e ∈ t._egg_files, g ∈ e.complete_groups := by
    intro g hg
    rcases assign_groups_outcome tbl prepare t r hr hok with ⟨_, hnil⟩ | hloop
    · rw [hnil] at hg
      cases hg
    · rw [needed_loop_eq_picks tbl _ _ _ _ hloop, mem_foldl_insert] at hg
      rcases hg with hg | hg
      · obtain ⟨e, he, hhead⟩ := initial_needed_first t g hg
        have hm := head?_mem_of_eq _ _ hhead
        exact ⟨e, he, ((PaletteGroups.mem_make_intersection _ _ _).1 hm).2⟩
      · obtain ⟨p1, p2, hp⟩ := List.append_of_mem hg
        obtain ⟨e, he, hge, _⟩ := needed_picks_fresh tbl _ _ p1 p2 g hp
        exact ⟨e, (initial_needed_fresh t e he).1, hge⟩
  refine ⟨hmain, ?_, ?_⟩
  · intro g hg
    exact (mem_total_groups g _).2 (hmain g hg)
  · intro g _ hnone hg
    obtain ⟨e, he, hge⟩ := hmain g hg
    exact hnone e he hge

theorem assign_groups_subset_witness :
    (∃ r, assign_groups example_table example_prepare mixed_texture = some r ∧
      r.assertion_failed = false) ∧
    ∃ r, assign_groups example_table example_prepare mixed_texture = some r ∧
      (r.assertion_failed = false →
        (∀ g ∈ get_groups r.texture, ∃ e ∈ mixed_texture._egg_files, g ∈ e.complete_groups) ∧
        (∀ g ∈ get_groups r.texture, g ∈ total_groups mixed_texture._egg_files) ∧
        (∀ g ∈ mixed_texture._explicitly_assigned_groups,
          (∀ e ∈ mixed_texture._egg_files, g ∉ e.complete_groups) →
            g ∉ get_groups r.texture)) :=
  ⟨⟨_, rfl, rfl⟩, assign_groups_subset example_table example_prepare mixed_texture⟩

/-! ## The destinations of `copy_unplaced` -/

theorem dests_insert_keys {Filename : Type} [LinearOrder Filename] (k : Filename)
    (d : DestTextureImage Filename) (m : Dests Filename) (x : Filename) :
    x ∈ (dests_insert k d m).1.map Prod.fst ↔ x = k ∨ x ∈ m.map Prod.fst := by
  induction m with
  | nil => simp [dests_insert]
  | cons e m ih =>
    obtain ⟨k', d'⟩ := e
    unfold dests_insert
    split_ifs with h1 h2
    · simp
    · simp only [List.map_cons, List.mem_cons, ih]
      tauto
    · have heq : k = k' := le_antisymm (not_lt.1 h2) (not_lt.1 h1)
      subst heq
      simp

theorem dests_insert_sorted {Filename : Type} [LinearOrder Filename] (k : Filename)
    (d : DestTextureImage Filename) (m : Dests Filename) (hm : KeySorted m) :
    KeySorted (dests_insert k d m).1 := by
  induction m with
  | nil => simp [dests_insert, KeySorted]
  | cons e m ih =>
    obtain ⟨k', d'⟩ := e
    unfold KeySorted at hm ih ⊢
    rw [List.pairwise_cons] at hm
    unfold dests_insert
    split_ifs with h1 h2
    · rw [List.pairwise_cons, List.pairwise_cons]
      refine ⟨?_, hm.1, hm.2⟩
      intro y hy
      rcases List.mem_cons.1 hy with rfl | hy
      · exact h1
      · exact lt_trans h1 (hm.1 y hy)
    · simp only
      rw [List.pairwise_cons]
      refine ⟨?_, ih hm.2⟩
      intro y hy
      have hyk : y.1 ∈ (dests_insert k d m).1.map Prod.fst := List.mem_map_of_mem Prod.fst hy
      rcases (dests_insert_keys k d m y.1).1 hyk with h | h
      · rw [h]
        exact h2
      · obtain ⟨z, hz, hzy⟩ := List.mem_map.1 h
        rw [← hzy]
        exact hm.1 z hz
    · rw [List.pairwise_cons]
      exact hm

/-- After the insertion, the key holds the entry that was there already, or else
the one inserted. -/
theorem old_dest_insert_self {Filename : Type} [LinearOrder Filename] (k : Filename)
    (d : DestTextureImage Filename) (m : Dests Filename) :
    old_dest (dests_insert k d m).1 k = some ((dests_insert k d m).2.getD d) := by
  induction m with
  | nil => simp [dests_insert, old_dest]
  | cons e m ih =>
    obtain ⟨k', d'⟩ := e
    unfold dests_insert
    split_ifs with h1 h2
    · exact old_dest_cons_self _ k d
    · simp only
      rw [old_dest_cons_ne _ (k', d') k (ne_of_lt h2)]
      exact ih
    · have heq : k = k' := le_antisymm (not_lt.1 h2) (not_lt.1 h1)
      subst heq
      exact old_dest_cons_self _ k d'

/-- The insertion under one key leaves what is stored under another key. -/
theorem old_dest_insert_ne {Filename : Type} [LinearOrder Filename] (k : Filename)
    (d : DestTextureImage Filename) (m : Dests Filename) (x : Filename) (hx : k ≠ x) :
    old_dest (dests_insert k d m).1 x = old_dest m x := by
  induction m with
  | nil => exact old_dest_cons_ne [] (k, d) x hx
  | cons e m ih =>
    obtain ⟨k', d'⟩ := e
    unfold dests_insert
    split_ifs with h1 h2
    · exact old_dest_cons_ne _ (k, d) x hx
    · simp only
      by_cases hk : k' = x
      · subst hk
        rw [old_dest_cons_self, old_dest_cons_self]
      · rw [old_dest_cons_ne _ (k', d') x hk, old_dest_cons_ne _ (k', d') x hk]
        exact ih
    · rfl

/-- On a map in key order, the insertion reports the entry stored under the key. -/
theorem dests_insert_found {Filename : Type} [LinearOrder Filename] (k : Filename)
    (d : DestTextureImage Filename) (m : Dests Filename) (hm : KeySorted m) :
    (dests_insert k d m).2 = old_dest m k := by
  induction m with
  | nil => rfl
  | cons e m ih =>
    obtain ⟨k', d'⟩ := e
    unfold KeySorted at hm ih
    rw [List.pairwise_cons] at hm
    unfold dests_insert
    split_ifs with h1 h2
    · symm
      apply old_dest_of_lt
      intro y hy
      rcases List.mem_cons.1 hy with rfl | hy
      · exact h1
      · exact lt_trans h1 (hm.1 y hy)
    · simp only
      rw [old_dest_cons_ne _ (k', d') k (ne_of_lt h2)]
      exact ih hm.2
    · have heq : k = k' := le_antisymm (not_lt.1 h2) (not_lt.1 h1)
      subst heq
      exact (old_dest_cons_self _ k d').symm

/-- On a map in key order, the insertion keeps every entry that was stored. -/
theorem old_dest_insert_keeps {Filename : Type} [LinearOrder Filename] (k : Filename)
    (d : DestTextureImage Filename) (m : Dests Filename) (hm : KeySorted m) (x : Filename)
    (v : DestTextureImage Filename) (h : old_dest m x = some v) :
    old_dest (dests_insert k d m).1 x = some v := by
  by_cases hx : k = x
  · subst hx
    rw [old_dest_insert_self, dests_insert_found k d m hm, h]
    rfl
  · rw [old_dest_insert_ne k d m x hx]
    exact h

theorem dests_insert_length {Filename : Type} [LinearOrder Filename] (k : Filename)
    (d : DestTextureImage Filename) (m : Dests Filename) :
    (dests_insert k d m).1.length =
      m.length + (if (dests_insert k d m).2 = none then 1 else 0) := by
  induction m with
  | nil => simp [dests_insert]
  | cons e m ih =>
    obtain ⟨k', d'⟩ := e
    unfold dests_insert
    by_cases h1 : k < k'
    · simp [h1]
    · by_cases h2 : k' < k
      · simp only [h1, h2, if_false, if_true, List.length_cons, ih]
        omega
      · simp [h1, h2]

theorem collect_unplaced_skip {Filename : Type} [LinearOrder Filename]
    (get_omit_reason : TexturePlacement → OmitReason)
    (new_dest : TexturePlacement → DestTextureImage Filename)
    (make_canonical : Filename → Filename) (g : PaletteGroup) (p : TexturePlacement)
    (pi : Placement) (generate : Dests Filename)
    (h : is_unplaced get_omit_reason p = false) :
    collect_unplaced get_omit_reason new_dest make_canonical ((g, p) :: pi) generate =
      collect_unplaced get_omit_reason new_dest make_canonical pi generate := by
  have hn : ¬ get_omit_reason p ≠ OmitReason.OR_none := of_decide_eq_false h
  rw [collect_unplaced]
  simp only [hn, if_false]

theorem collect_unplaced_take {Filename : Type} [LinearOrder Filename]
    (get_omit_reason : TexturePlacement → OmitReason)
    (new_dest : TexturePlacement → DestTextureImage Filename)
    (make_canonical : Filename → Filename) (g : PaletteGroup) (p : TexturePlacement)
    (pi : Placement) (generate : Dests Filename)
    (h : is_unplaced get_omit_reason p = true) :
    (collect_unplaced get_omit_reason new_dest make_canonical ((g, p) :: pi) generate).generate =
        (collect_unplaced get_omit_reason new_dest make_canonical pi
          (dests_insert (dest_key new_dest make_canonical p) (new_dest p) generate).1).generate ∧
      (collect_unplaced get_omit_reason new_dest make_canonical ((g, p) :: pi) generate).set_dest =
        (p, ((dests_insert (dest_key new_dest make_canonical p) (new_dest p) generate).2.getD
            (new_dest p))) ::
          (collect_unplaced get_omit_reason new_dest make_canonical pi
            (dests_insert (dest_key new_dest make_canonical p) (new_dest p)
              generate).1).set_dest ∧
      (collect_unplaced get_omit_reason new_dest make_canonical ((g, p) :: pi)
          generate).discarded.length =
        (collect_unplaced get_omit_reason new_dest make_canonical pi
            (dests_insert (dest_key new_dest make_canonical p) (new_dest p)
              generate).1).discarded.length +
          (if (dests_insert (dest_key new_dest make_canonical p) (new_dest p) generate).2 = none
            then 0 else 1) := by
  have hn : get_omit_reason p ≠ OmitReason.OR_none := of_decide_eq_true h
  rw [collect_unplaced]
  simp only [hn, ne_eq, not_false_eq_true, if_true]
  unfold dest_key
  cases hins : (dests_insert (make_canonical (new_dest p).filename) (new_dest p) generate).2 with
  | none => simp
  | some existing => simp

/-- What the first loop of `copy_unplaced` builds from a map in key order. -/
theorem collect_unplaced_spec {Filename : Type} [LinearOrder Filename]
    (get_omit_reason : TexturePlacement → OmitReason)
    (new_dest : TexturePlacement → DestTextureImage Filename)
    (make_canonical : Filename → Filename) (pi : Placement) (generate : Dests Filename)
    (hgen : KeySorted generate) :
    KeySorted (collect_unplaced get_omit_reason new_dest make_canonical pi generate).generate ∧
    (∀ x, x ∈ (collect_unplaced get_omit_reason new_dest make_canonical pi
          generate).generate.map Prod.fst ↔
        x ∈ generate.map Prod.fst ∨
          ∃ e ∈ pi, is_unplaced get_omit_reason e.2 = true ∧
            dest_key new_dest make_canonical e.2 = x) ∧
    (∀ x v, old_dest generate x = some v →
      old_dest (collect_unplaced get_omit_reason new_dest make_canonical pi generate).generate x
        = some v) ∧
    (∀ pd ∈ (collect_unplaced get_omit_reason new_dest make_canonical pi generate).set_dest,
      old_dest (collect_unplaced get_omit_reason new_dest make_canonical pi generate).generate
        (dest_key new_dest make_canonical pd.1) = some pd.2) ∧
    (collect_unplaced get_omit_reason new_dest make_canonical pi generate).set_dest.map Prod.fst =
      (pi.map Prod.snd).filter (is_unplaced get_omit_reason) ∧
    (collect_unplaced get_omit_reason new_dest make_canonical pi generate).discarded.length +
        (collect_unplaced get_omit_reason new_dest make_canonical pi generate).generate.length =
      generate.length + ((pi.map Prod.snd).filter (is_unplaced get_omit_reason)).length := by
  induction pi generalizing generate with
  | nil =>
    refine ⟨hgen, ?_, fun x v h => h, ?_, rfl, ?_⟩
    · intro x
      simp [collect_unplaced]
    · intro pd hpd
      cases hpd
    · simp [collect_unplaced]
  | cons e pi ih =>
    obtain ⟨g, p⟩ := e
    cases hu : is_unplaced get_omit_reason p with
    | false =>
      rw [collect_unplaced_skip get_omit_reason new_dest make_canonical g p pi generate hu]
      obtain ⟨i1, i2, i3, i4, i5, i6⟩ := ih generate hgen
      refine ⟨i1, ?_, i3, i4, ?_, ?_⟩
      · intro x
        rw [i2 x]
        constructor
        · rintro (h | ⟨y, hy, h1, h2⟩)
          · exact Or.inl h
          · exact Or.inr ⟨y, List.mem_cons_of_mem _ hy, h1, h2⟩
        · rintro (h | ⟨y, hy, h1, h2⟩)
          · exact Or.inl h
          · rcases List.mem_cons.1 hy with rfl | hy
            · rw [hu] at h1
              cases h1
            · exact Or.inr ⟨y, hy, h1, h2⟩
      · rw [i5, List.map_cons, List.filter_cons]
        simp [hu]
      · rw [i6, List.map_cons, List.filter_cons]
        simp [hu]
    | true =>
      obtain ⟨t1, t2, t3⟩ :=
        collect_unplaced_take get_omit_reason new_dest make_canonical g p pi generate hu
      have hsorted := dests_insert_sorted (dest_key new_dest make_canonical p) (new_dest p)
        generate hgen
      obtain ⟨i1, i2, i3, i4, i5, i6⟩ := ih _ hsorted
      have hkey := old_dest_insert_self (dest_key new_dest make_canonical p) (new_dest p) generate
      refine ⟨?_, ?_, ?_, ?_, ?_, ?_⟩
      · rw [t1]
        exact i1
      · intro x
        rw [t1, i2 x, dests_insert_keys]
        constructor
        · rintro ((h | h) | ⟨y, hy, h1, h2⟩)
          · exact Or.inr ⟨(g, p), List.mem_cons_self _ _, hu, h.symm⟩
          · exact Or.inl h
          · exact Or.inr ⟨y, List.mem_cons_of_mem _ hy, h1, h2⟩
        · rintro (h | ⟨y, hy, h1, h2⟩)
          · exact Or.inl (Or.inr h)
          · rcases List.mem_cons.1 hy with rfl | hy
            · exact Or.inl (Or.inl h2.symm)
            · exact Or.inr ⟨y, hy, h1, h2⟩
      · intro x v h
        rw [t1]
        exact i3 x v (old_dest_insert_keeps _ _ generate hgen x v h)
      · intro pd hpd
        rw [t2] at hpd
        rw [t1]
        rcases List.mem_cons.1 hpd with rfl | hpd
        · exact i3 _ _ hkey
        · exact i4 pd hpd
      · rw [t2, List.map_cons, i5, List.map_cons, List.filter_cons]
        simp [hu]
      · rw [t3, t1, List.map_cons, List.filter_cons]
        have hlen := dests_insert_length (dest_key new_dest make_canonical p) (new_dest p) generate
        simp only [hu, if_true, List.length_cons]
        split_ifs at hlen ⊢ <;> omega

/-- C24: after `copy_unplaced`, for either value of `redo_all`, `_dests` is in
strict key order (one entry per filename); its keys are exactly the canonical
destination filenames of the placements whose omit reason is not `OR_none`;
`set_dest` is called on exactly these placements, in order, each with the entry
that `_dests` stores under its filename; and every `DestTextureImage`
constructed is either an entry of `_dests` or discarded. -/
theorem copy_unplaced_dests {Filename : Type} [LinearOrder Filename]
    (get_omit_reason : TexturePlacement → OmitReason)
    (new_dest : TexturePlacement → DestTextureImage Filename)
    (make_canonical : Filename → Filename) (t : TextureImage Filename) (redo_all : Bool) :
    KeySorted (copy_unplaced get_omit_reason new_dest make_canonical t redo_all).texture._dests ∧
    (∀ x, x ∈ (copy_unplaced get_omit_reason new_dest make_canonical t
          redo_all).texture._dests.map Prod.fst ↔
        ∃ e ∈ t._placement, get_omit_reason e.2 ≠ OmitReason.OR_none ∧
          make_canonical (new_dest e.2).filename = x) ∧
    (copy_unplaced get_omit_reason new_dest make_canonical t redo_all).set_dest.map Prod.fst =
      (t._placement.map Prod.snd).filter
        (fun p => decide (get_omit_reason p ≠ OmitReason.OR_none)) ∧
    (∀ pd ∈ (copy_unplaced get_omit_reason new_dest make_canonical t redo_all).set_dest,
      old_dest (copy_unplaced get_omit_reason new_dest make_canonical t redo_all).texture._dests
        (make_canonical (new_dest pd.1).filename) = some pd.2) ∧
    (copy_unplaced get_omit_reason new_dest make_canonical t redo_all).discarded.length +
        (copy_unplaced get_omit_reason new_dest make_canonical t
          redo_all).texture._dests.length =
      ((t._placement.map Prod.snd).filter
        (fun p => decide (get_omit_reason p ≠ OmitReason.OR_none))).length := by
  obtain ⟨h1, h2, _, h4, h5, h6⟩ :=
    collect_unplaced_spec get_omit_reason new_dest make_canonical t._placement []
      (by simp [KeySorted])
  refine ⟨h1, ?_, h5, h4, ?_⟩
  · intro x
    have := h2 x
    simp only [List.map_nil, List.not_mem_nil, false_or] at this
    rw [show (copy_unplaced get_omit_reason new_dest make_canonical t redo_all).texture._dests =
      (collect_unplaced get_omit_reason new_dest make_canonical t._placement []).generate
      from rfl, this]
    constructor
    · rintro ⟨e, he, hu, hk⟩
      exact ⟨e, he, of_decide_eq_true hu, hk⟩
    · rintro ⟨e, he, hu, hk⟩
      exact ⟨e, he, decide_eq_true hu, hk⟩
  · rw [List.length_nil, Nat.zero_add] at h6
    exact h6

/-- On `unplaced_texture`: the solitary placements 7 and 9 get the files 3 and 4,
the placed one gets none. -/
theorem copy_unplaced_dests_example :
    (copy_unplaced example_omit_reason example_new_dest id unplaced_texture false).texture._dests
        = [(3, ⟨7, 3⟩), (4, ⟨9, 4⟩)] ∧
      (copy_unplaced example_omit_reason example_new_dest id unplaced_texture false).set_dest
        = [(7, ⟨7, 3⟩), (9, ⟨9, 4⟩)] := by
  constructor <;> decide

/-! ## The probes of the channel count -/

theorem all_pixels_gray_iff (source : PNMImage) :
    all_pixels_gray source = true ↔
      ∀ y < source.y_size, ∀ x < source.x_size,
        (source.get_xel_val x y).1 = (source.get_xel_val x y).2.1 ∧
          (source.get_xel_val x y).1 = (source.get_xel_val x y).2.2 := by
  unfold all_pixels_gray
  simp only [List.all_eq_true, List.mem_range, Bool.not_eq_true', Bool.or_eq_false_iff,
    decide_eq_false_iff_not, ne_eq, not_not]

theorem all_alpha_white_iff (source : PNMImage) :
    all_alpha_white source = true ↔
      ∀ y < source.y_size, ∀ x < source.x_size,
        source.get_alpha_val x y = source.maxval := by
  unfold all_alpha_white
  simp only [List.all_eq_true, List.mem_range, Bool.not_eq_true', 
    decide_eq_false_iff_not, ne_eq, not_not]

theorem get_preferred_source_fields {Filename : Type} (c : Collaborators Filename)
    (t : TextureImageRecord Filename) :
    (get_preferred_source c t).1._properties = t._properties ∧
      (get_preferred_source c t).1._forced_grayscale = t._forced_grayscale ∧
      (get_preferred_source c t).1._forced_unalpha = t._forced_unalpha := by
  unfold get_preferred_source
  split
  · exact ⟨rfl, rfl, rfl⟩
  · exact ⟨rfl, rfl, rfl⟩

theorem read_source_image_fields {Filename : Type} (c : Collaborators Filename)
    (t : TextureImageRecord Filename) :
    (read_source_image c t).1._properties = t._properties ∧
      (read_source_image c t).1._forced_grayscale = t._forced_grayscale ∧
      (read_source_image c t).1._forced_unalpha = t._forced_unalpha := by
  have h := get_preferred_source_fields c t
  unfold read_source_image
  split_ifs
  · simp only
    split
    · exact h
    · exact h
  · exact ⟨rfl, rfl, rfl⟩

theorem read_source_image_read {Filename : Type} (c : Collaborators Filename)
    (t : TextureImageRecord Filename) :
    (read_source_image c t).1._read_source_image = true := by
  unfold read_source_image
  split_ifs with h
  · simp only
    split <;> rfl
  · simpa using h

theorem read_source_image_again {Filename : Type} (c : Collaborators Filename)
    (t : TextureImageRecord Filename) (h : t._read_source_image = true) :
    read_source_image c t = (t, []) := by
  unfold read_source_image
  simp [h]

/-- When `consider_grayscale` scans a valid image in which every pixel is gray,
it takes 2 off the channel count of the texture that `read_source_image` left
and sets `_forced_grayscale`. -/
theorem consider_grayscale_of_gray {Filename : Type} (c : Collaborators Filename)
    (t : TextureImageRecord Filename)
    (hscan : (!t._read_source_image && t._ever_read_image) = false)
    (hvalid : (read_source_image c t).1._source_image.is_valid = true)
    (hgray : all_pixels_gray (read_source_image c t).1._source_image = true) :
    (consider_grayscale c t).1 =
      { drop_channels (read_source_image c t).1 2 with _forced_grayscale := true } := by
  unfold consider_grayscale
  simp [hscan, hvalid, hgray]

theorem consider_grayscale_of_coloured {Filename : Type} (c : Collaborators Filename)
    (t : TextureImageRecord Filename)
    (hscan : (!t._read_source_image && t._ever_read_image) = false)
    (hvalid : (read_source_image c t).1._source_image.is_valid = true)
    (hgray : all_pixels_gray (read_source_image c t).1._source_image = false) :
    (consider_grayscale c t).1 =
      { (read_source_image c t).1 with _forced_grayscale := false } := by
  unfold consider_grayscale
  simp [hscan, hvalid, hgray]

/-- C25: when `consider_grayscale` is not in its skip case and the image that
`read_source_image` returns is valid, then if every pixel has R = G = B the
channel count goes down by exactly 2 and `_forced_grayscale` becomes true, and if
some pixel has R different from G or from B the channel count stays and
`_forced_grayscale` becomes false. -/
theorem consider_grayscale_scan {Filename : Type} (c : Collaborators Filename)
    (t : TextureImageRecord Filename)
    (hscan : (!t._read_source_image && t._ever_read_image) = false)
    (hvalid : (read_source_image c t).1._source_image.is_valid = true) :
    ((∀ y < (read_source_image c t).1._source_image.y_size,
        ∀ x < (read_source_image c t).1._source_image.x_size,
          ((read_source_image c t).1._source_image.get_xel_val x y).1 =
              ((read_source_image c t).1._source_image.get_xel_val x y).2.1 ∧
            ((read_source_image c t).1._source_image.get_xel_val x y).1 =
              ((read_source_image c t).1._source_image.get_xel_val x y).2.2) →
      (consider_grayscale c t).1._properties._num_channels =
          t._properties._num_channels - 2 ∧
        (consider_grayscale c t).1._forced_grayscale = true) ∧
    ((∃ y < (read_source_image c t).1._source_image.y_size,
        ∃ x < (read_source_image c t).1._source_image.x_size,
          ((read_source_image c t).1._source_image.get_xel_val x y).1 ≠
              ((read_source_image c t).1._source_image.get_xel_val x y).2.1 ∨
            ((read_source_image c t).1._source_image.get_xel_val x y).1 ≠
              ((read_source_image c t).1._source_image.get_xel_val x y).2.2) →
      (consider_grayscale c t).1._properties._num_channels = t._properties._num_channels ∧
        (consider_grayscale c t).1._forced_grayscale = false) := by
  have hp := (read_source_image_fields c t).1
  constructor
  · intro hall
    rw [consider_grayscale_of_gray c t hscan hvalid ((all_pixels_gray_iff _).2 hall)]
    exact ⟨by simp only [drop_channels, hp], rfl⟩
  · rintro ⟨y, hy, x, hx, hne⟩
    have hnot : all_pixels_gray (read_source_image c t).1._source_image = false := by
      cases hg : all_pixels_gray (read_source_image c t).1._source_image with
      | false => rfl
      | true =>
        obtain ⟨h1, h2⟩ := (all_pixels_gray_iff _).1 hg y hy x hx
        rcases hne with hne | hne
        · exact absurd h1 hne
        · exact absurd h2 hne
    rw [consider_grayscale_of_coloured c t hscan hvalid hnot]
    exact ⟨congrArg TextureProperties._num_channels hp, rfl⟩

theorem consider_grayscale_scan_witness :
    (consider_grayscale gray_collaborators four_channel_texture).1._properties._num_channels
        = 2 ∧
      (consider_grayscale gray_collaborators four_channel_texture).1._forced_grayscale = true :=
  (consider_grayscale_scan gray_collaborators four_channel_texture (by decide) (by decide)).1
    (by decide)

theorem consider_unalpha_of_white {Filename : Type} (c : Collaborators Filename)
    (t : TextureImageRecord Filename)
    (hscan : (!t._read_source_image && t._ever_read_image) = false)
    (hvalid : (read_source_image c t).1._source_image.is_valid = true)
    (halpha : (read_source_image c t).1._source_image.has_alpha = true)
    (hwhite : all_alpha_white (read_source_image c t).1._source_image = true) :
    (consider_unalpha c t).1 =
      { drop_channels (read_source_image c t).1 1 with _forced_unalpha := true } := by
  unfold consider_unalpha
  simp [hscan, hvalid, halpha, hwhite]

theorem consider_unalpha_of_meaningful {Filename : Type} (c : Collaborators Filename)
    (t : TextureImageRecord Filename)
    (hscan : (!t._read_source_image && t._ever_read_image) = false)
    (hvalid : (read_source_image c t).1._source_image.is_valid = true)
    (halpha : (read_source_image c t).1._source_image.has_alpha = true)
    (hwhite : all_alpha_white (read_source_image c t).1._source_image = false) :
    (consider_unalpha c t).1 = { (read_source_image c t).1 with _forced_unalpha := false } := by
  unfold consider_unalpha
  simp [hscan, hvalid, halpha, hwhite]

theorem consider_unalpha_of_no_alpha {Filename : Type} (c : Collaborators Filename)
    (t : TextureImageRecord Filename)
    (hscan : (!t._read_source_image && t._ever_read_image) = false)
    (halpha : (read_source_image c t).1._source_image.has_alpha = false) :
    (consider_unalpha c t).1 = (read_source_image c t).1 := by
  unfold consider_unalpha
  simp only [hscan, halpha, Bool.false_eq_true, if_false, Bool.not_false, if_true]
  split_ifs <;> rfl

/-- C26: when `consider_unalpha` is not in its skip case and the image that
`read_source_image` returns is valid, then if the image has an alpha channel and
every alpha value is `maxval` the channel count goes down by exactly 1 and
`_forced_unalpha` becomes true; if the image has an alpha channel and some alpha
value is not `maxval` the channel count stays and `_forced_unalpha` becomes
false; if the image has no alpha channel the channel count stays (and so does
`_forced_unalpha`). -/
theorem consider_unalpha_scan {Filename : Type} (c : Collaborators Filename)
    (t : TextureImageRecord Filename)
    (hscan : (!t._read_source_image && t._ever_read_image) = false)
    (hvalid : (read_source_image c t).1._source_image.is_valid = true) :
    ((read_source_image c t).1._source_image.has_alpha = true →
      (∀ y < (read_source_image c t).1._source_image.y_size,
        ∀ x < (read_source_image c t).1._source_image.x_size,
          (read_source_image c t).1._source_image.get_alpha_val x y =
            (read_source_image c t).1._source_image.maxval) →
      (consider_unalpha c t).1._properties._num_channels = t._properties._num_channels - 1 ∧
        (consider_unalpha c t).1._forced_unalpha = true) ∧
    ((read_source_image c t).1._source_image.has_alpha = true →
      (∃ y < (read_source_image c t).1._source_image.y_size,
        ∃ x < (read_source_image c t).1._source_image.x_size,
          (read_source_image c t).1._source_image.get_alpha_val x y ≠
            (read_source_image c t).1._source_image.maxval) →
      (consider_unalpha c t).1._properties._num_channels = t._properties._num_channels ∧
        (consider_unalpha c t).1._forced_unalpha = false) ∧
    ((read_source_image c t).1._source_image.has_alpha = false →
      (consider_unalpha c t).1._properties._num_channels = t._properties._num_channels ∧
        (consider_unalpha c t).1._forced_unalpha = t._forced_unalpha) := by
  obtain ⟨hp, _, hf⟩ := read_source_image_fields c t
  refine ⟨?_, ?_, ?_⟩
  · intro halpha hall
    rw [consider_unalpha_of_white c t hscan hvalid halpha ((all_alpha_white_iff _).2 hall)]
    exact ⟨by simp only [drop_channels, hp], rfl⟩
  · rintro halpha ⟨y, hy, x, hx, hne⟩
    have hnot : all_alpha_white (read_source_image c t).1._source_image = false := by
      cases hg : all_alpha_white (read_source_image c t).1._source_image with
      | false => rfl
      | true => exact absurd ((all_alpha_white_iff _).1 hg y hy x hx) hne
    rw [consider_unalpha_of_meaningful c t hscan hvalid halpha hnot]
    exact ⟨congrArg TextureProperties._num_channels hp, rfl⟩
  · intro halpha
    rw [consider_unalpha_of_no_alpha c t hscan halpha]
    exact ⟨congrArg TextureProperties._num_channels hp, hf⟩

theorem consider_unalpha_scan_witness :
    (consider_unalpha gray_collaborators four_channel_texture).1._properties._num_channels
        = 3 ∧
      (consider_unalpha gray_collaborators four_channel_texture).1._forced_unalpha = true :=
  (consider_unalpha_scan gray_collaborators four_channel_texture (by decide) (by decide)).1
    (by decide) (by decide)

/-- The probe `consider_grayscale` leaves the channel count or takes 2 off it. -/
theorem consider_grayscale_channels {Filename : Type} (c : Collaborators Filename)
    (t : TextureImageRecord Filename) :
    (consider_grayscale c t).1._properties._got_num_channels =
        t._properties._got_num_channels ∧
      ((consider_grayscale c t).1._properties._num_channels = t._properties._num_channels ∨
        (consider_grayscale c t).1._properties._num_channels =
          t._properties._num_channels - 2) := by
  have hp := (read_source_image_fields c t).1
  unfold consider_grayscale
  dsimp only
  split_ifs
  · exact ⟨rfl, Or.inr rfl⟩
  · exact ⟨rfl, Or.inl rfl⟩
  · exact ⟨congrArg TextureProperties._got_num_channels hp,
      Or.inl (congrArg TextureProperties._num_channels hp)⟩
  · exact ⟨congrArg TextureProperties._got_num_channels hp,
      Or.inl (congrArg TextureProperties._num_channels hp)⟩
  · exact ⟨by simp only [drop_channels, hp], Or.inr (by simp only [drop_channels, hp])⟩

/-- The probe `consider_unalpha` leaves the channel count or takes 1 off it. -/
theorem consider_unalpha_channels {Filename : Type} (c : Collaborators Filename)
    (t : TextureImageRecord Filename) :
    (consider_unalpha c t).1._properties._num_channels = t._properties._num_channels ∨
      (consider_unalpha c t).1._properties._num_channels =
        t._properties._num_channels - 1 := by
  have hp := (read_source_image_fields c t).1
  unfold consider_unalpha
  dsimp only
  split_ifs
  · exact Or.inr rfl
  · exact Or.inl rfl
  · exact Or.inl (congrArg TextureProperties._num_channels hp)
  · exact Or.inl (congrArg TextureProperties._num_channels hp)
  · exact Or.inl (congrArg TextureProperties._num_channels hp)
  · exact Or.inr (by simp only [drop_channels, hp])

/-- Without a requested channel count, `take_channels` is the two guarded probes
one after the other. -/
theorem take_channels_of_no_request {Filename : Type} (c : Collaborators Filename)
    (t : TextureImageRecord Filename) (h : t._request._got_num_channels = false) :
    (take_channels c t).1 =
      (if ((if t._properties._got_num_channels &&
              (t._properties._num_channels == 3 || t._properties._num_channels == 4) then
            consider_grayscale c t else (t, [])).1._properties._got_num_channels &&
          ((if t._properties._got_num_channels &&
              (t._properties._num_channels == 3 || t._properties._num_channels == 4) then
            consider_grayscale c t else (t, [])).1._properties._num_channels == 2 ||
           (if t._properties._got_num_channels &&
              (t._properties._num_channels == 3 || t._properties._num_channels == 4) then
            consider_grayscale c t else (t, [])).1._properties._num_channels == 4)) then
        consider_unalpha c
          (if t._properties._got_num_channels &&
              (t._properties._num_channels == 3 || t._properties._num_channels == 4) then
            consider_grayscale c t else (t, [])).1
      else
        ((if t._properties._got_num_channels &&
              (t._properties._num_channels == 3 || t._properties._num_channels == 4) then
            consider_grayscale c t else (t, [])).1, [])).1 := by
  unfold take_channels
  simp only [h, Bool.false_eq_true, if_false]

/-- The bounds of the channel count after the two guarded probes. -/
theorem take_channels_range {Filename : Type} (c : Collaborators Filename)
    (t : TextureImageRecord Filename) (hreq : t._request._got_num_channels = false)
    (hlo : 1 ≤ t._properties._num_channels) (hhi : t._properties._num_channels ≤ 4) :
    1 ≤ (take_channels c t).1._properties._num_channels ∧
      (take_channels c t).1._properties._num_channels ≤ 4 ∧
      (take_channels c t).1._properties._num_channels ≤ t._properties._num_channels := by
  rw [take_channels_of_no_request c t hreq]
  obtain ⟨_, hg⟩ := consider_grayscale_channels c t
  cases h1 : (t._properties._got_num_channels &&
      (t._properties._num_channels == 3 || t._properties._num_channels == 4)) with
  | true =>
    simp only [if_true]
    have hu := consider_unalpha_channels c (consider_grayscale c t).1
    simp only [Bool.and_eq_true, Bool.or_eq_true, beq_iff_eq] at h1
    cases h2 : ((consider_grayscale c t).1._properties._got_num_channels &&
        ((consider_grayscale c t).1._properties._num_channels == 2 ||
          (consider_grayscale c t).1._properties._num_channels == 4)) with
    | true =>
      simp only [if_true]
      simp only [Bool.and_eq_true, Bool.or_eq_true, beq_iff_eq] at h2
      omega
    | false =>
      simp only [Bool.false_eq_true, if_false]
      omega
  | false =>
    simp only [Bool.false_eq_true, if_false]
    have hu := consider_unalpha_channels c t
    cases h2 : (t._properties._got_num_channels &&
        (t._properties._num_channels == 2 || t._properties._num_channels == 4)) with
    | true =>
      simp only [if_true]
      simp only [Bool.and_eq_true, Bool.or_eq_true, beq_iff_eq] at h2
      omega
    | false =>
      simp only [Bool.false_eq_true, if_false]
      omega

/-- The scanning path on a texture of 4 channels whose image is valid, gray and
opaque: `consider_grayscale` reads the image, `consider_unalpha` scans the image
that was read, and 1 channel is left. -/
theorem take_channels_gray_opaque {Filename : Type} (c : Collaborators Filename)
    (t : TextureImageRecord Filename) (hreq : t._request._got_num_channels = false)
    (hgot : t._properties._got_num_channels = true) (h4 : t._properties._num_channels = 4)
    (hscan : (!t._read_source_image && t._ever_read_image) = false)
    (hvalid : (read_source_image c t).1._source_image.is_valid = true)
    (halpha : (read_source_image c t).1._source_image.has_alpha = true)
    (hgray : all_pixels_gray (read_source_image c t).1._source_image = true)
    (hwhite : all_alpha_white (read_source_image c t).1._source_image = true) :
    (take_channels c t).1._properties._num_channels = 1 := by
  have hp := (read_source_image_fields c t).1
  have hr := read_source_image_read c t
  have hg := consider_grayscale_of_gray c t hscan hvalid hgray
  have hgr : (consider_grayscale c t).1._read_source_image = true := by
    rw [hg]
    exact hr
  have hgi : (consider_grayscale c t).1._source_image =
      (read_source_image c t).1._source_image := by
    rw [hg]
    rfl
  have hgp : (consider_grayscale c t).1._properties._num_channels = 2 := by
    rw [hg]
    simp only [drop_channels, hp, h4]
    rfl
  have hgg : (consider_grayscale c t).1._properties._got_num_channels = true := by
    rw [hg]
    simp only [drop_channels, hp, hgot]
  have hagain : (read_source_image c (consider_grayscale c t).1).1 =
      (consider_grayscale c t).1 := by
    rw [read_source_image_again c (consider_grayscale c t).1 hgr]
  have hu := consider_unalpha_of_white c (consider_grayscale c t).1
    (by simp only [hgr, Bool.not_true, Bool.false_and])
    (by rw [hagain, hgi]; exact hvalid) (by rw [hagain, hgi]; exact halpha)
    (by rw [hagain, hgi]; exact hwhite)
  rw [take_channels_of_no_request c t hreq]
  have hc1 : (t._properties._got_num_channels &&
      (t._properties._num_channels == 3 || t._properties._num_channels == 4)) = true := by
    rw [hgot, h4]
    rfl
  simp only [hc1, if_true]
  have hc2 : ((consider_grayscale c t).1._properties._got_num_channels &&
      ((consider_grayscale c t).1._properties._num_channels == 2 ||
        (consider_grayscale c t).1._properties._num_channels == 4)) = true := by
    rw [hgg, hgp]
    rfl
  simp only [hc2, if_true]
  rw [hu, hagain]
  simp only [drop_channels, hgp]
  rfl

/-- The remembered path on a texture of 4 channels: with both outcomes remembered
as true, 1 channel is left. -/
theorem take_channels_remembered {Filename : Type} (c : Collaborators Filename)
    (t : TextureImageRecord Filename) (hreq : t._request._got_num_channels = false)
    (hgot : t._properties._got_num_channels = true) (h4 : t._properties._num_channels = 4)
    (hskip : (!t._read_source_image && t._ever_read_image) = true)
    (hgray : t._forced_grayscale = true) (hwhite : t._forced_unalpha = true) :
    (take_channels c t).1._properties._num_channels = 1 := by
  have hg : consider_grayscale c t = (drop_channels t 2, []) := by
    unfold consider_grayscale
    simp only [hskip, hgray, if_true]
  have hu : consider_unalpha c (drop_channels t 2) =
      (drop_channels (drop_channels t 2) 1, []) := by
    unfold consider_unalpha
    have hs : (!(drop_channels t 2)._read_source_image &&
        (drop_channels t 2)._ever_read_image) = true := hskip
    have hw : (drop_channels t 2)._forced_unalpha = true := hwhite
    simp only [hs, hw, if_true]
  rw [take_channels_of_no_request c t hreq]
  have hc1 : (t._properties._got_num_channels &&
      (t._properties._num_channels == 3 || t._properties._num_channels == 4)) = true := by
    rw [hgot, h4]
    rfl
  simp only [hc1, if_true, hg]
  have hc2 : ((drop_channels t 2)._properties._got_num_channels &&
      ((drop_channels t 2)._properties._num_channels == 2 ||
        (drop_channels t 2)._properties._num_channels == 4)) = true := by
    simp only [drop_channels, hgot, h4]
    rfl
  simp only [hc2, if_true, hu]
  simp only [drop_channels, h4]
  rfl

/-- C30: the channel downgrades of `post_txa_file` (its part `take_channels`)
never take the channel count below 1.  When no channel count is requested and the
count before the probes is between 1 and 4, the count after `consider_grayscale`
and `consider_unalpha` is between 1 and 4 and not larger than before, whatever
path the probes take and whatever `_forced_grayscale` and `_forced_unalpha` hold.
In particular a texture known to have 4 channels ends with exactly 1: on the
scanning path when its image is valid, has an alpha channel, is gray in every
pixel and has alpha `maxval` in every pixel; on the remembered path when both
remembered outcomes are true. -/
theorem take_channels_never_below_one {Filename : Type} (c : Collaborators Filename)
    (t : TextureImageRecord Filename) (hreq : t._request._got_num_channels = false)
    (hlo : 1 ≤ t._properties._num_channels) (hhi : t._properties._num_channels ≤ 4) :
    (1 ≤ (take_channels c t).1._properties._num_channels ∧
      (take_channels c t).1._properties._num_channels ≤ 4 ∧
      (take_channels c t).1._properties._num_channels ≤ t._properties._num_channels) ∧
    (t._properties._got_num_channels = true → t._properties._num_channels = 4 →
      ((!t._read_source_image && t._ever_read_image) = false →
        (read_source_image c t).1._source_image.is_valid = true →
        (read_source_image c t).1._source_image.has_alpha = true →
        (∀ y < (read_source_image c t).1._source_image.y_size,
          ∀ x < (read_source_image c t).1._source_image.x_size,
            ((read_source_image c t).1._source_image.get_xel_val x y).1 =
                ((read_source_image c t).1._source_image.get_xel_val x y).2.1 ∧
              ((read_source_image c t).1._source_image.get_xel_val x y).1 =
                ((read_source_image c t).1._source_image.get_xel_val x y).2.2) →
        (∀ y < (read_source_image c t).1._source_image.y_size,
          ∀ x < (read_source_image c t).1._source_image.x_size,
            (read_source_image c t).1._source_image.get_alpha_val x y =
              (read_source_image c t).1._source_image.maxval) →
        (take_channels c t).1._properties._num_channels = 1) ∧
      ((!t._read_source_image && t._ever_read_image) = true →
        t._forced_grayscale = true → t._forced_unalpha = true →
        (take_channels c t).1._properties._num_channels = 1)) :=
  ⟨take_channels_range c t hreq hlo hhi, fun hgot h4 =>
    ⟨fun hscan hvalid halpha hgray hwhite =>
      take_channels_gray_opaque c t hreq hgot h4 hscan hvalid halpha
        ((all_pixels_gray_iff _).2 hgray) ((all_alpha_white_iff _).2 hwhite),
      fun hskip hgray hwhite => take_channels_remembered c t hreq hgot h4 hskip hgray hwhite⟩⟩

theorem take_channels_never_below_one_witness :
    (take_channels gray_collaborators four_channel_texture).1._properties._num_channels = 1 ∧
      (take_channels gray_collaborators remembered_texture).1._properties._num_channels = 1 :=
  ⟨((take_channels_never_below_one gray_collaborators four_channel_texture rfl (by decide)
      (by decide)).2 rfl rfl).1 (by decide) (by decide) (by decide) (by decide) (by decide),
    ((take_channels_never_below_one gray_collaborators remembered_texture rfl (by decide)
      (by decide)).2 rfl rfl).2 (by decide) rfl rfl⟩

/-! ## The key of a source image -/

/-- Two strings joined by a colon determine their parts when the first parts hold
no colon. -/
theorem append_colon_cancel (f1 a1 f2 a2 : Str) (h1 : ':' ∉ f1) (h2 : ':' ∉ f2)
    (h : f1 ++ [':'] ++ a1 = f2 ++ [':'] ++ a2) : f1 = f2 ∧ a1 = a2 := by
  induction f1 generalizing f2 with
  | nil =>
    cases f2 with
    | nil =>
      simp only [List.nil_append, List.singleton_append, List.cons.injEq, true_and] at h
      exact ⟨rfl, h⟩
    | cons b f2 =>
      simp only [List.nil_append, List.singleton_append, List.cons_append, List.cons.injEq] at h
      exact absurd (List.mem_cons.2 (Or.inl h.1)) h2
  | cons a f1 ih =>
    cases f2 with
    | nil =>
      simp only [List.nil_append, List.singleton_append, List.cons_append, List.cons.injEq] at h
      exact absurd (List.mem_cons.2 (Or.inl h.1.symm)) h1
    | cons b f2 =>
      simp only [List.cons_append, List.cons.injEq] at h
      obtain ⟨hab, hrest⟩ := h
      obtain ⟨hf, ha⟩ := ih f2 (fun hm => h1 (List.mem_cons_of_mem _ hm))
        (fun hm => h2 (List.mem_cons_of_mem _ hm)) hrest
      exact ⟨by rw [hab, hf], ha⟩

/-- C29 fails on the code: with filenames that are their own full paths (so
`make_bam_filename` and `get_fullpath` are injective), the pairs (`a:b`, `c`) and
(`a`, `b:c`) are different and have the same key `a:b:c`; after `get_source` has
created the record of the first pair, `get_source` for the second pair returns
that record, whose filename is `a:b`. -/
theorem get_source_key_collision :
    Function.Injective example_collaborators.make_bam_filename ∧
      Function.Injective example_collaborators.get_fullpath ∧
      ((['a', ':', 'b'], ['c']) : Str × Str) ≠ (['a'], ['b', ':', 'c']) ∧
      get_source_key example_collaborators ['a', ':', 'b'] ['c'] =
        get_source_key example_collaborators ['a'] ['b', ':', 'c'] ∧
      (get_source example_collaborators
          (get_source example_collaborators no_sources_texture ['a', ':', 'b'] ['c']).1
          ['a'] ['b', ':', 'c']).2 =
        example_collaborators.new_source ['a', ':', 'b'] ['c'] ∧
      (get_source example_collaborators
          (get_source example_collaborators no_sources_texture ['a', ':', 'b'] ['c']).1
          ['a'] ['b', ':', 'c']).2.filename ≠ ['a'] :=
  ⟨fun _ _ h => h, fun _ _ h => h, by decide, by decide, by decide, by decide⟩

/-- Away from the colon the keys do tell pairs apart: taking `make_bam_filename`
and `get_fullpath` as injective, two different pairs (filename, alpha filename)
whose primary filenames have no colon in their bam full path have different
keys; so a `get_source` for the first pair leaves what is stored under the key of
the second, and the `get_source` for the second pair that follows returns what it
would have returned without the first: never the record created for the first
pair. -/
theorem get_source_key_injective {Filename : Type} (c : Collaborators Filename)
    (hbam : Function.Injective c.make_bam_filename)
    (hpath : Function.Injective c.get_fullpath) (f1 a1 f2 a2 : Filename)
    (h1 : ':' ∉ c.get_fullpath (c.make_bam_filename f1))
    (h2 : ':' ∉ c.get_fullpath (c.make_bam_filename f2))
    (hne : (f1, a1) ≠ (f2, a2)) :
    get_source_key c f1 a1 ≠ get_source_key c f2 a2 ∧
      ∀ t : TextureImageRecord Filename,
        sources_find (get_source_key c f2 a2) (get_source c t f1 a1).1._sources =
            sources_find (get_source_key c f2 a2) t._sources ∧
          (get_source c (get_source c t f1 a1).1 f2 a2).2 = (get_source c t f2 a2).2 ∧
          (sources_find (get_source_key c f2 a2) t._sources = none →
            (get_source c (get_source c t f1 a1).1 f2 a2).2 = c.new_source f2 a2) := by
  have hkey : get_source_key c f1 a1 ≠ get_source_key c f2 a2 := by
    intro h
    obtain ⟨hf, ha⟩ := append_colon_cancel _ _ _ _ h1 h2 h
    exact hne (by rw [hbam (hpath hf), hbam (hpath ha)])
  refine ⟨hkey, fun t => ?_⟩
  have hfind : sources_find (get_source_key c f2 a2) (get_source c t f1 a1).1._sources =
      sources_find (get_source_key c f2 a2) t._sources := by
    cases h : sources_find (get_source_key c f1 a1) t._sources with
    | some s => rw [get_source_of_found c t f1 a1 s h]
    | none =>
      rw [get_source_of_new c t f1 a1 h]
      exact sources_find_insert_ne _ _ _ _ hkey
  have hsame : (get_source c (get_source c t f1 a1).1 f2 a2).2 = (get_source c t f2 a2).2 := by
    cases h : sources_find (get_source_key c f2 a2) t._sources with
    | some s =>
      rw [get_source_of_found c t f2 a2 s h,
        get_source_of_found c (get_source c t f1 a1).1 f2 a2 s (hfind.trans h)]
    | none =>
      rw [get_source_of_new c t f2 a2 h,
        get_source_of_new c (get_source c t f1 a1).1 f2 a2 (hfind.trans h)]
  refine ⟨hfind, hsame, fun hnone => ?_⟩
  rw [hsame, get_source_of_new c t f2 a2 hnone]

theorem get_source_key_injective_witness :
    get_source_key example_collaborators ['a'] ['b', ':', 'c'] ≠
        get_source_key example_collaborators ['a', 'b'] ['c'] ∧
      (get_source example_collaborators
          (get_source example_collaborators no_sources_texture ['a'] ['b', ':', 'c']).1
          ['a', 'b'] ['c']).2 = example_collaborators.new_source ['a', 'b'] ['c'] :=
  ⟨(get_source_key_injective example_collaborators (fun _ _ h => h) (fun _ _ h => h)
      ['a'] ['b', ':', 'c'] ['a', 'b'] ['c'] (by decide) (by decide) (by decide)).1,
    ((get_source_key_injective example_collaborators (fun _ _ h => h) (fun _ _ h => h)
      ['a'] ['b', ':', 'c'] ['a', 'b'] ['c'] (by decide) (by decide) (by decide)).2
        no_sources_texture).2.2 (by decide)⟩

end Palettize
